import Mathlib

/-!
Verification of the reduce-store core (`storage.ts`, first revision, plus
`classes.ts` / `private-classes.ts`) against its natural-language
specification.

The store is embedded as a small-step machine over a single state slot
(slots for distinct keys are fully independent in the source: every
operation touches only `getStateData(stateCtor)`, so a single-slot model
captures the per-key claims).  The asynchronous JavaScript control flow is
modelled cooperatively: every synchronous segment of the source between
`await` boundaries is one atomic machine step, promise-resolution callbacks
(microtasks) run at the end of the step that resolved them, and the
environment chooses when each in-flight reducer settles (command
`Cmd.settle`) and with what outcome.  Object identity (needed for the
cloning claims) is modelled by tagging every state value with an allocation
id; `safeClone` allocates a fresh id, mirroring `state.clone()` producing a
structurally independent copy.
-/

namespace RStore

/-- Payload carried by a state value. -/
abbrev V := Nat

/-- Errors thrown by reducer transforms. -/
abbrev Err := Nat

/-- A state value: an allocation id (object identity) plus its payload. -/
structure Obj where
  id : Nat
  val : V
deriving DecidableEq, Repr

/-- Outcome of an asynchronous reducer transform chosen by the environment:
`reduceAsync` either fulfils with a new state value or rejects. -/
inductive Outcome where
  | ok (v : V)
  | err (e : Err)
deriving DecidableEq, Repr

/-- The value `stateData.state` receives after a settle: on success the
payload of the returned state, on failure `undefined` (the local `newState`
is never assigned, and `safeClone(undefined)` is `undefined`),
from `reduceDeferred` in storage.ts lines 311-323. -/
def Outcome.newStateVal : Outcome → Option V
  | .ok v => some v
  | .err _ => none

/-- What kind of pending read a `DeferredGetter` is, distinguished by the
continuation attached to its promise in the source: a plain `getState`
caller, the replay step of `internalGetObservableState` (which delivers the
value to the new subscriber and then pushes it), or the `suspendState`
continuation (which sets `isStateSuspended`). -/
inductive GetterKind where
  | plain
  | replay (sid : Nat)
  | susp
deriving DecidableEq, Repr

/-- A queued read request (`DeferredGetter` in private-classes.ts). -/
structure DeferredGetter where
  gid : Nat
  kind : GetterKind
deriving DecidableEq, Repr

/-- Observable events of a run: reducer transform starts (with the exact
state object passed to `reduceAsync`), completion-signal settlements, read
resolutions, subscriber replays / list insertions / fan-out deliveries, and
the moment a `suspendState` continuation takes effect. -/
inductive Event where
  | transformStart (rid : Nat) (input : Option Obj)
  | mutResolved (rid : Nat)
  | mutRejected (rid : Nat) (e : Err)
  | getterResolved (g : DeferredGetter) (value : Option Obj)
  | replayed (sid : Nat) (value : Option Obj)
  | subAdded (sid : Nat)
  | notified (sid : Nat) (value : Option Obj)
  | suspendEffect
deriving DecidableEq, Repr

/-- The per-key slot, `StateData` in the source.  `state` is the current
snapshot, `deferredReducers` the FIFO mutation queue (represented by the
rids of the queued mutations; the transform behaviour itself is supplied by
the environment at settle time), `deferredGetters` / `suspendedGetters` the
two read queues, `subscribers` the live subscriber list (by sid). -/
structure StateData where
  state : Option Obj
  isBusy : Bool
  isStateSuspended : Bool
  isStateInitiated : Bool
  deferredReducers : List Nat
  deferredGetters : List DeferredGetter
  suspendedGetters : List DeferredGetter
  subscribers : List Nat
deriving DecidableEq, Repr

/-- Modelled from the spec: the class body of `StateData` is not under
src/ (storage.ts imports it from the missing file `StateData.ts`); spec
section 3 fixes the initial values: `current` absent before the first
mutation, all flags false, all queues and the subscriber list empty. -/
def StateData.initial : StateData :=
  { state := none, isBusy := false, isStateSuspended := false,
    isStateInitiated := false, deferredReducers := [],
    deferredGetters := [], suspendedGetters := [], subscribers := [] }

/-- Whole-machine state: the slot, the rid of the in-flight transform (the
suspension point of `reduceDeferred` at `await promise`), fresh-id /
rid / gid / sid / observable counters, the creation-time replay flags
captured by `internalGetObservableState` for each observable, the set of
already-finalized subscriptions (rxjs runs a subscription's `finalize`
callback at most once), ghost histories (stored-object ids, transform
inputs, settle outcomes, sids added via the replay path vs directly), and
the event trace. -/
structure Machine where
  slot : StateData
  awaiting : Option Nat
  fresh : Nat
  nextRid : Nat
  nextGid : Nat
  nextSid : Nat
  nextObs : Nat
  obsFlags : List (Nat × Bool)
  closed : List Nat
  replayOrigin : List Nat
  directOrigin : List Nat
  storedIds : List Nat
  startedInputs : List (Option V)
  settledOutcomes : List Outcome
  trace : List Event
deriving DecidableEq, Repr

def Machine.initial : Machine :=
  { slot := StateData.initial, awaiting := none, fresh := 0, nextRid := 0,
    nextGid := 0, nextSid := 0, nextObs := 0, obsFlags := [], closed := [],
    replayOrigin := [], directOrigin := [], storedIds := [],
    startedInputs := [], settledOutcomes := [], trace := [] }

/-- `safeClone` (storage.ts lines 362-365): `undefined` for `undefined`,
otherwise `state.clone()` — a structurally equal value under a fresh
allocation id. -/
def safeClone : Option Obj → Nat → Option Obj × Nat
  | none, f => (none, f)
  | some o, f => (some ⟨f, o.val⟩, f + 1)

/-- Start executing the shifted head of the mutation queue (storage.ts
lines 306-320): set `isBusy`, call `reduceAsync` with the current snapshot
(which is passed directly, not cloned), and suspend at `await promise`. -/
def startNext (m : Machine) (rid : Nat) (rest : List Nat) : Machine :=
  { m with
    slot := { m.slot with isBusy := true, deferredReducers := rest },
    awaiting := some rid,
    startedInputs := m.startedInputs ++ [m.slot.state.map Obj.val],
    trace := m.trace ++ [.transformStart rid m.slot.state] }

/-- The synchronous body of `reduceDeferred(stateCtor, false)` up to its
`await` (storage.ts lines 301-320): no-op when busy or when the mutation
queue is empty; otherwise shift the head and start its transform. -/
def driveReduce (m : Machine) : Machine :=
  if m.slot.isBusy then m
  else
    match m.slot.deferredReducers with
    | [] => m
    | rid :: rest => startNext m rid rest

/-- The resolution loop of `resolveDefferedGetters` (storage.ts lines
354-359): each getter in order receives `safeClone(stateData.state)`.
Returns the final fresh counter, the resolution events, and the
continuations (getter, resolved value) scheduled as microtasks. -/
def resolveAux (st : Option Obj) (f : Nat) :
    List DeferredGetter → Nat × List Event × List (DeferredGetter × Option Obj)
  | [] => (f, [], [])
  | g :: rest =>
    let p := safeClone st f
    let r := resolveAux st p.2 rest
    (r.1, .getterResolved g p.1 :: r.2.1, (g, p.1) :: r.2.2)

/-- `resolveDefferedGetters` (storage.ts lines 344-360): take
`deferredGetters` (emptying it); when not suspended, also append and empty
`suspendedGetters`; resolve each, in order, with an independent clone of
`current`. -/
def resolveDefferedGetters (m : Machine) :
    Machine × List (DeferredGetter × Option Obj) :=
  let gs := if m.slot.isStateSuspended then m.slot.deferredGetters
            else m.slot.deferredGetters ++ m.slot.suspendedGetters
  let sg := if m.slot.isStateSuspended then m.slot.suspendedGetters else []
  let r := resolveAux m.slot.state m.fresh gs
  ({ m with
      slot := { m.slot with deferredGetters := [], suspendedGetters := sg },
      fresh := r.1,
      trace := m.trace ++ r.2.1 }, r.2.2)

/-- One promise-resolution continuation, run after the synchronous segment
that resolved the getter.  A plain `getState` caller's continuation is
external code (no store effect here); the `suspendState` continuation sets
`isStateSuspended` (storage.ts lines 182-186); the replay continuation of
`internalGetObservableState` (lines 241-245) delivers `safeClone(value)` to
the new subscriber and only then pushes it onto `subscribers`. -/
def runCont (m : Machine) : DeferredGetter × Option Obj → Machine
  | (⟨_, .plain⟩, _) => m
  | (⟨_, .susp⟩, _) =>
    { m with
      slot := { m.slot with isStateSuspended := true },
      trace := m.trace ++ [.suspendEffect] }
  | (⟨_, .replay sid⟩, v) =>
    let p := safeClone v m.fresh
    { m with
      fresh := p.2,
      slot := { m.slot with subscribers := m.slot.subscribers ++ [sid] },
      trace := m.trace ++ [.replayed sid p.1, .subAdded sid] }

def runConts (m : Machine) (cs : List (DeferredGetter × Option Obj)) :
    Machine :=
  cs.foldl runCont m

/-- The fan-out loop of `notifySubscribers` (storage.ts lines 283-290):
deliver `safeClone(value)` to each live subscriber in registration order. -/
def notifyAux (st : Option Obj) (f : Nat) : List Nat → Nat × List Event
  | [] => (f, [])
  | sid :: rest =>
    let p := safeClone st f
    let r := notifyAux st p.2 rest
    (r.1, .notified sid p.1 :: r.2)

def notifySubscribers (m : Machine) : Machine :=
  let r := notifyAux m.slot.state m.fresh m.slot.subscribers
  { m with fresh := r.1, trace := m.trace ++ r.2 }

/-- The tail of `internalGetState` (storage.ts line 225): when the slot is
not busy after the drain attempt, resolve the queued reads at once (the
slot is idle, so reads must not wait for a future drain); their
continuations then run as microtasks. -/
def resolvePhase (m1 : Machine) : Machine :=
  if m1.slot.isBusy then m1
  else
    let r := resolveDefferedGetters m1
    runConts r.1 r.2

/-- The body of `internalGetState` (storage.ts lines 213-227) shared by
`getState`, `suspendState` and the replay path: queue a `DeferredGetter`
(into `suspendedGetters` when suspended, else `deferredGetters`), trigger
`reduceDeferred(.., false)`, and when the slot is not busy afterwards, run
`resolveDefferedGetters` (whose continuations then run as microtasks). -/
def internalGetState (m : Machine) (k : GetterKind) : Machine :=
  let g : DeferredGetter := ⟨m.nextGid, k⟩
  let slot :=
    if m.slot.isStateSuspended then
      { m.slot with suspendedGetters := m.slot.suspendedGetters ++ [g] }
    else
      { m.slot with deferredGetters := m.slot.deferredGetters ++ [g] }
  resolvePhase (driveReduce { m with slot := slot, nextGid := m.nextGid + 1 })

/-- The first half of `reduceDeferred`'s continuation after `await promise`
(storage.ts lines 322-330): clear `isStateSuspended` unconditionally, store
`safeClone(newState)` as the new snapshot (`undefined` when the transform
rejected, since the local `newState` was never assigned), and settle this
mutation's completion signal — resolved on success, rejected with the
handler's error on failure. -/
def settleApply (m : Machine) (rid : Nat) (out : Outcome) : Machine :=
  let stf : Option Obj × Nat :=
    match out with
    | .ok v => (some ⟨m.fresh, v⟩, m.fresh + 1)
    | .err _ => (none, m.fresh)
  let stored :=
    match stf.1 with
    | some o => m.storedIds ++ [o.id]
    | none => m.storedIds
  let cev : Event :=
    match out with
    | .ok _ => .mutResolved rid
    | .err e => .mutRejected rid e
  { m with
    slot := { m.slot with isStateSuspended := false, state := stf.1 },
    fresh := stf.2,
    storedIds := stored,
    awaiting := none,
    settledOutcomes := m.settledOutcomes ++ [out],
    trace := m.trace ++ [cev] }

/-- End of a drain (storage.ts lines 337-341): resolve the pending reads,
notify the subscribers, clear `isBusy`; the promise-resolution
continuations collected by the read resolution then run as microtasks. -/
def drainEnd (m1 : Machine) : Machine :=
  let r := resolveDefferedGetters m1
  let m2 := notifySubscribers r.1
  runConts { m2 with slot := { m2.slot with isBusy := false } } r.2

/-- The full continuation of `reduceDeferred` after `await promise`
(storage.ts lines 322-342): apply the settle, then either continue
draining with the next queued mutation (the forced recursive call) or,
when the queue is empty, finish the drain. -/
def settleStep (m : Machine) (out : Outcome) : Machine :=
  match m.awaiting with
  | none => m
  | some rid =>
    let m1 := settleApply m rid out
    match m1.slot.deferredReducers with
    | rid2 :: rest => startNext m1 rid2 rest
    | [] => drainEnd m1

/-- Environment commands: enqueue a mutation (`reduce` / `lazyReduce`,
distinguished by the `isDeferred` flag), request a read (`getState`),
create an observable (`internalGetObservableState` up to returning the
`Observable`, capturing the replay flag), attach a subscriber to a
previously created observable (the body of the `Observable` constructor
callback), run a subscription's `finalize` callback (`unsubscribe`),
call `suspendState`, and settle the in-flight transform. -/
inductive Cmd where
  | reduce (deferred : Bool)
  | getState
  | createObservable
  | attach (obs : Nat)
  | unsubscribe (sid : Nat)
  | suspend
  | settle (out : Outcome)
deriving DecidableEq, Repr

def lookupFlag (l : List (Nat × Bool)) (obs : Nat) : Option Bool :=
  (l.find? fun p => p.1 == obs).map Prod.snd

/-- The `Observable` constructor callback of `internalGetObservableState`
(storage.ts lines 235-249), run when a subscriber attaches, with the
replay flag that was captured when the observable was created.  When the
flag is set, the current state is fetched through `internalGetState` and
the subscriber is pushed onto `subscribers` only after the replay delivery
(both inside the promise continuation); otherwise the subscriber is pushed
directly with no replay. -/
def attachStep (m : Machine) (flag : Bool) : Machine :=
  if flag then
    internalGetState
      { m with
          nextSid := m.nextSid + 1,
          replayOrigin := m.replayOrigin ++ [m.nextSid] }
      (.replay m.nextSid)
  else
    { m with
        nextSid := m.nextSid + 1,
        directOrigin := m.directOrigin ++ [m.nextSid],
        slot := { m.slot with
                    subscribers := m.slot.subscribers ++ [m.nextSid] },
        trace := m.trace ++ [.subAdded m.nextSid] }

lemma attachStep_true (m : Machine) :
    attachStep m true = internalGetState
      { m with
          nextSid := m.nextSid + 1,
          replayOrigin := m.replayOrigin ++ [m.nextSid] }
      (.replay m.nextSid) := rfl

lemma attachStep_false (m : Machine) :
    attachStep m false =
      { m with
          nextSid := m.nextSid + 1,
          directOrigin := m.directOrigin ++ [m.nextSid],
          slot := { m.slot with
                      subscribers := m.slot.subscribers ++ [m.nextSid] },
          trace := m.trace ++ [.subAdded m.nextSid] } := rfl

def step (m : Machine) : Cmd → Machine
  | .reduce d =>
    let m1 :=
      { m with
        slot := { m.slot with
                    isStateInitiated := true,
                    deferredReducers := m.slot.deferredReducers ++ [m.nextRid] },
        nextRid := m.nextRid + 1 }
    if d then m1 else driveReduce m1
  | .getState => internalGetState m .plain
  | .suspend => internalGetState m .susp
  | .createObservable =>
    { m with
      obsFlags := m.obsFlags ++
        [(m.nextObs, m.slot.isStateInitiated && !m.slot.isStateSuspended)],
      nextObs := m.nextObs + 1 }
  | .attach obs =>
    match lookupFlag m.obsFlags obs with
    | none => m
    | some flag => attachStep m flag
  | .unsubscribe sid =>
    if sid < m.nextSid ∧ sid ∉ m.closed then
      let subs :=
        match m.slot.subscribers.findIdx? (· = sid) with
        | some i => m.slot.subscribers.take i ++ m.slot.subscribers.drop (i + 1)
        | none => m.slot.subscribers.take (m.slot.subscribers.length - 1)
      { m with
        closed := m.closed ++ [sid],
        slot := { m.slot with subscribers := subs } }
    else m
  | .settle out => settleStep m out

def run (cs : List Cmd) : Machine := cs.foldl step Machine.initial

/-! ### DeferredTask (classes.ts lines 104-122, claim C9) -/

/-- The default `delayMilliseconds` of `DeferredTask` (classes.ts line
110). -/
def defaultDelayMilliseconds : Nat := 300

/-- State of one `DeferredTask` instance: `pending` is the live timer (its
fire time and the arguments the scheduling `execute` call captured —
`cancelToken` plus the closure over `a1..a6` in the source), `execs`
records the invocations of the wrapped work so far (fire time,
arguments). -/
structure DeferredTask (α : Type) where
  pending : Option (Nat × α)
  execs : List (Nat × α)
deriving DecidableEq, Repr

def DeferredTask.empty {α : Type} : DeferredTask α := ⟨none, []⟩

/-- `execute` (classes.ts lines 113-121) called at wall-clock time `t`: a
timer already due (fire time ≤ t) has fired before this call runs; then
`clearTimeout(this.cancelToken)` cancels the pending timer and a new
`setTimeout` schedules the wrapped work with THESE arguments one full
delay window later. -/
def DeferredTask.execute {α : Type} (delay : Nat) (s : DeferredTask α)
    (t : Nat) (a : α) : DeferredTask α :=
  match s.pending with
  | none => ⟨some (t + delay, a), s.execs⟩
  | some p =>
    if p.1 ≤ t then ⟨some (t + delay, a), s.execs ++ [p]⟩
    else ⟨some (t + delay, a), s.execs⟩

/-- Run a sequence of timestamped `execute` calls against a fresh task,
then let the final pending timer (if any) fire: the full observable
execution history of the burst. -/
def debounceRun {α : Type} (delay : Nat) (calls : List (Nat × α)) :
    List (Nat × α) :=
  let s := calls.foldl
    (fun s c => DeferredTask.execute delay s c.1 c.2) DeferredTask.empty
  match s.pending with
  | some p => s.execs ++ [p]
  | none => s.execs

/-! ### Mutation-serialization invariant (claims C1, C4) -/

/-- A mutation-related event: a transform start (with the payload of the
state it was given) or a completion-signal settlement (with the rejection
error, if any). -/
inductive MEvt where
  | start (rid : Nat) (v : Option V)
  | complete (rid : Nat) (e : Option Err)
deriving DecidableEq, Repr

def mutEvt : Event → Option MEvt
  | .transformStart r i => some (.start r (i.map Obj.val))
  | .mutResolved r => some (.complete r none)
  | .mutRejected r e => some (.complete r (some e))
  | _ => none

/-- The subsequence of mutation-related events of a trace. -/
def mutTrace (t : List Event) : List MEvt := t.filterMap mutEvt

def completeEvt (i : Nat) : Outcome → MEvt
  | .ok _ => .complete i none
  | .err e => .complete i (some e)

/-- The strictly alternating pattern start 0, complete 0, start 1,
complete 1, … in which transform `n` receives the value produced by
settling transform `n-1` (`prev` for the first). -/
def chainFrom (prev : Option V) (i : Nat) : List Outcome → List MEvt
  | [] => []
  | o :: rest =>
    .start i prev :: completeEvt i o :: chainFrom o.newStateVal (i + 1) rest

/-- The snapshot payload after a sequence of settles, starting from
`prev`. -/
def lastVal (prev : Option V) : List Outcome → Option V
  | [] => prev
  | o :: rest => lastVal o.newStateVal rest

/-- The inputs handed to the successive transforms. -/
def inputsFrom (prev : Option V) : List Outcome → List (Option V)
  | [] => []
  | o :: rest => prev :: inputsFrom o.newStateVal rest

lemma lastVal_concat (prev : Option V) (l : List Outcome) (o : Outcome) :
    lastVal prev (l ++ [o]) = o.newStateVal := by
  induction l generalizing prev with
  | nil => rfl
  | cons a rest ih => simpa [lastVal] using ih a.newStateVal

lemma inputsFrom_concat (prev : Option V) (l : List Outcome) (o : Outcome) :
    inputsFrom prev (l ++ [o]) = inputsFrom prev l ++ [lastVal prev l] := by
  induction l generalizing prev with
  | nil => rfl
  | cons a rest ih => simp [inputsFrom, lastVal, ih]

lemma chainFrom_concat (prev : Option V) (i : Nat) (l : List Outcome)
    (o : Outcome) :
    chainFrom prev i (l ++ [o]) =
      chainFrom prev i l ++
        [.start (i + l.length) (lastVal prev l),
         completeEvt (i + l.length) o] := by
  induction l generalizing prev i with
  | nil => simp [chainFrom, lastVal]
  | cons a rest ih =>
    have hn : i + (rest.length + 1) = (i + 1) + rest.length := by omega
    simp [chainFrom, lastVal, ih, hn]

/-- Transforms started so far: every settled one plus the in-flight one. -/
def Machine.startedCount (m : Machine) : Nat :=
  m.settledOutcomes.length + (if m.slot.isBusy then 1 else 0)

/-- The serialization invariant: the mutation queue holds exactly the
not-yet-started rids in FIFO order, at most one transform is in flight
(`awaiting`, synced with `isBusy`), the inputs recorded for the started
transforms form the chain `none, out₀, out₁, …`, the snapshot payload is
the value of the last settle, and the mutation-event subsequence of the
trace is the strictly alternating start/complete pattern. -/
def SInv (m : Machine) : Prop :=
  m.slot.deferredReducers =
    List.range' m.startedCount (m.nextRid - m.startedCount)
  ∧ m.startedCount ≤ m.nextRid
  ∧ m.awaiting =
      (if m.slot.isBusy then some m.settledOutcomes.length else none)
  ∧ m.startedInputs =
      inputsFrom none m.settledOutcomes ++
        (if m.slot.isBusy then [lastVal none m.settledOutcomes] else [])
  ∧ m.slot.state.map Obj.val = lastVal none m.settledOutcomes
  ∧ mutTrace m.trace =
      chainFrom none 0 m.settledOutcomes ++
        (if m.slot.isBusy then
          [MEvt.start m.settledOutcomes.length (lastVal none m.settledOutcomes)]
        else [])

lemma sinv_initial : SInv Machine.initial := by
  simp [SInv, Machine.initial, StateData.initial, Machine.startedCount,
    inputsFrom, lastVal, chainFrom, mutTrace]

/-- Fields of the machine that the serialization invariant depends on;
getter resolution, subscriber fan-out and microtask continuations leave
all of them untouched. -/
def SFrame (m m' : Machine) : Prop :=
  m'.slot.state = m.slot.state ∧ m'.slot.isBusy = m.slot.isBusy ∧
  m'.slot.deferredReducers = m.slot.deferredReducers ∧
  m'.awaiting = m.awaiting ∧ m'.nextRid = m.nextRid ∧
  m'.startedInputs = m.startedInputs ∧
  m'.settledOutcomes = m.settledOutcomes ∧
  mutTrace m'.trace = mutTrace m.trace

lemma sframe_refl (m : Machine) : SFrame m m := by
  simp [SFrame]

lemma sframe_trans {a b c : Machine} (h1 : SFrame a b) (h2 : SFrame b c) :
    SFrame a c := by
  obtain ⟨x1, x2, x3, x4, x5, x6, x7, x8⟩ := h1
  obtain ⟨y1, y2, y3, y4, y5, y6, y7, y8⟩ := h2
  exact ⟨y1.trans x1, y2.trans x2, y3.trans x3, y4.trans x4, y5.trans x5,
    y6.trans x6, y7.trans x7, y8.trans x8⟩

lemma sinv_of_sframe {m m' : Machine} (hf : SFrame m m') (h : SInv m) :
    SInv m' := by
  obtain ⟨x1, x2, x3, x4, x5, x6, x7, x8⟩ := hf
  obtain ⟨h1, h2, h3, h4, h5, h6⟩ := h
  refine ⟨?_, ?_, ?_, ?_, ?_, ?_⟩ <;>
    simp_all [Machine.startedCount]

lemma mutTrace_append (t u : List Event) :
    mutTrace (t ++ u) = mutTrace t ++ mutTrace u :=
  List.filterMap_append t u mutEvt

lemma resolveAux_events_mut (st : Option Obj) (f : Nat)
    (gs : List DeferredGetter) : mutTrace (resolveAux st f gs).2.1 = [] := by
  induction gs generalizing f with
  | nil => rfl
  | cons g rest ih =>
    have h := ih (safeClone st f).2
    simp only [mutTrace, List.filterMap_eq_nil_iff] at h ⊢
    intro e he
    simp [resolveAux] at he
    rcases he with he | he
    · simp [he, mutEvt]
    · exact h e he

lemma notifyAux_events_mut (st : Option Obj) (f : Nat) (l : List Nat) :
    mutTrace (notifyAux st f l).2 = [] := by
  induction l generalizing f with
  | nil => rfl
  | cons sid rest ih =>
    have h := ih (safeClone st f).2
    simp only [mutTrace, List.filterMap_eq_nil_iff] at h ⊢
    intro e he
    simp [notifyAux] at he
    rcases he with he | he
    · simp [he, mutEvt]
    · exact h e he

lemma sframe_runCont (m : Machine) (c : DeferredGetter × Option Obj) :
    SFrame m (runCont m c) := by
  obtain ⟨⟨g, k⟩, v⟩ := c
  cases k <;>
    simp [runCont, SFrame, mutTrace_append, mutTrace, mutEvt]

lemma sframe_runConts (m : Machine) (cs : List (DeferredGetter × Option Obj)) :
    SFrame m (runConts m cs) := by
  induction cs generalizing m with
  | nil => exact sframe_refl m
  | cons c rest ih =>
    exact sframe_trans (sframe_runCont m c) (ih (runCont m c))

lemma sframe_resolveDefferedGetters (m : Machine) :
    SFrame m (resolveDefferedGetters m).1 := by
  simp [resolveDefferedGetters, SFrame, mutTrace_append,
    resolveAux_events_mut]

lemma sframe_notifySubscribers (m : Machine) :
    SFrame m (notifySubscribers m) := by
  simp [notifySubscribers, SFrame, mutTrace_append, notifyAux_events_mut]

lemma mutTrace_start (r : Nat) (i : Option Obj) :
    mutTrace [Event.transformStart r i] = [MEvt.start r (i.map Obj.val)] :=
  rfl

lemma mutTrace_resolved (r : Nat) :
    mutTrace [Event.mutResolved r] = [MEvt.complete r none] :=
  rfl

lemma mutTrace_rejected (r : Nat) (e : Err) :
    mutTrace [Event.mutRejected r e] = [MEvt.complete r (some e)] :=
  rfl

/-- The serialization clauses at a point where no transform is in flight,
regardless of the value of `isBusy` (they hold both for an idle machine
and for the intermediate machine right after a settle has been applied,
before the drain continues or finishes). -/
def MidInv (m : Machine) : Prop :=
  m.slot.deferredReducers =
    List.range' m.settledOutcomes.length
      (m.nextRid - m.settledOutcomes.length)
  ∧ m.settledOutcomes.length ≤ m.nextRid
  ∧ m.awaiting = none
  ∧ m.startedInputs = inputsFrom none m.settledOutcomes
  ∧ m.slot.state.map Obj.val = lastVal none m.settledOutcomes
  ∧ mutTrace m.trace = chainFrom none 0 m.settledOutcomes

lemma midinv_of_sinv_idle {m : Machine} (h : SInv m)
    (hb : m.slot.isBusy = false) : MidInv m := by
  obtain ⟨h1, h2, h3, h4, h5, h6⟩ := h
  simp only [Machine.startedCount, hb] at h1 h2 h3 h4 h6
  simp at h1 h2 h3 h4 h6
  exact ⟨h1, h2, h3, h4, h5, h6⟩

lemma sinv_of_midinv_idle {m : Machine} (h : MidInv m)
    (hb : m.slot.isBusy = false) : SInv m := by
  obtain ⟨h1, h2, h3, h4, h5, h6⟩ := h
  refine ⟨?_, ?_, ?_, ?_, ?_, ?_⟩ <;>
    simp [Machine.startedCount, hb, h1, h2, h3, h4, h5, h6]

lemma sinv_startNext {m : Machine} (h : MidInv m) {rid : Nat}
    {rest : List Nat} (hq : m.slot.deferredReducers = rid :: rest) :
    SInv (startNext m rid rest) := by
  obtain ⟨h1, h2, h3, h4, h5, h6⟩ := h
  rw [hq] at h1
  cases hn : m.nextRid - m.settledOutcomes.length with
  | zero => rw [hn] at h1; simp [List.range'] at h1
  | succ k =>
    rw [hn, List.range'_succ] at h1
    obtain ⟨hrid, hrest⟩ := List.cons_eq_cons.mp h1
    refine ⟨?_, ?_, ?_, ?_, ?_, ?_⟩ <;>
      simp [startNext, Machine.startedCount, hrid, hrest, h3, h4, h5, h6,
        mutTrace_append, mutTrace_start]
    · have he : m.nextRid - (m.settledOutcomes.length + 1) = k := by omega
      rw [he]
    · omega

lemma midinv_settleApply {m : Machine} (h : SInv m) {rid : Nat}
    (ha : m.awaiting = some rid) (out : Outcome) :
    MidInv (settleApply m rid out) ∧ rid = m.settledOutcomes.length := by
  obtain ⟨h1, h2, h3, h4, h5, h6⟩ := h
  have hb : m.slot.isBusy = true := by
    by_contra hb'
    rw [Bool.not_eq_true] at hb'
    rw [hb'] at h3
    simp at h3
    rw [h3] at ha
    cases ha
  simp only [Machine.startedCount, hb, if_pos rfl] at h1 h2 h3 h4 h6
  simp at h1 h2 h3 h4 h6
  have hrid : rid = m.settledOutcomes.length := by
    rw [h3] at ha; exact (Option.some_inj.mp ha).symm
  refine ⟨⟨?_, ?_, ?_, ?_, ?_, ?_⟩, hrid⟩
  · cases out <;> simp [settleApply, h1]
  · cases out <;> simp [settleApply] <;> omega
  · cases out <;> simp [settleApply]
  · cases out <;> simp [settleApply, h4, inputsFrom_concat]
  · cases out <;> simp [settleApply, lastVal_concat, Outcome.newStateVal]
  · cases out <;>
      simp [settleApply, mutTrace_append, h6, chainFrom_concat, hrid,
        completeEvt, mutTrace_resolved, mutTrace_rejected]

lemma sinv_drainEnd {m : Machine} (h : MidInv m)
    (_hq : m.slot.deferredReducers = []) : SInv (drainEnd m) := by
  obtain ⟨h1, h2, h3, h4, h5, h6⟩ := h
  unfold drainEnd
  apply sinv_of_sframe (sframe_runConts _ _)
  obtain ⟨f1, f2, f3, f4, f5, f6, f7, f8⟩ :=
    sframe_trans (sframe_resolveDefferedGetters m)
      (sframe_notifySubscribers _)
  refine ⟨?_, ?_, ?_, ?_, ?_, ?_⟩ <;>
    simp [Machine.startedCount, f1, f2, f3, f4, f5, f6, f7, f8,
      h1, h2, h3, h4, h5, h6]

lemma sinv_driveReduce {m : Machine} (h : SInv m) : SInv (driveReduce m) := by
  unfold driveReduce
  by_cases hb : m.slot.isBusy
  · simpa [hb] using h
  · simp only [hb, if_false, Bool.false_eq_true]
    cases hd : m.slot.deferredReducers with
    | nil => exact h
    | cons rid rest =>
      exact sinv_startNext
        (midinv_of_sinv_idle h (Bool.not_eq_true _ ▸ hb)) hd

lemma sinv_settleStep {m : Machine} (h : SInv m) (out : Outcome) :
    SInv (settleStep m out) := by
  cases ha : m.awaiting with
  | none => simpa [settleStep, ha] using h
  | some rid =>
    obtain ⟨hm, hrid⟩ := midinv_settleApply h ha out
    simp only [settleStep, ha]
    cases hq : (settleApply m rid out).slot.deferredReducers with
    | nil => exact sinv_drainEnd hm hq
    | cons rid2 rest => exact sinv_startNext hm hq

lemma sinv_resolvePhase {m1 : Machine} (h : SInv m1) :
    SInv (resolvePhase m1) := by
  unfold resolvePhase
  split
  · exact h
  · exact sinv_of_sframe
      (sframe_trans (sframe_resolveDefferedGetters m1)
        (sframe_runConts _ _)) h

lemma sinv_internalGetState {m : Machine} (h : SInv m) (k : GetterKind) :
    SInv (internalGetState m k) := by
  simp only [internalGetState]
  apply sinv_resolvePhase
  apply sinv_driveReduce
  apply sinv_of_sframe _ h
  split <;> simp [SFrame]

lemma sinv_step {m : Machine} (h : SInv m) (c : Cmd) : SInv (step m c) := by
  cases c with
  | reduce d =>
    have henq : SInv
        { m with
          slot := { m.slot with
                      isStateInitiated := true,
                      deferredReducers :=
                        m.slot.deferredReducers ++ [m.nextRid] },
          nextRid := m.nextRid + 1 } := by
      obtain ⟨h1, h2, h3, h4, h5, h6⟩ := h
      refine ⟨?_, ?_, ?_, ?_, ?_, ?_⟩ <;>
        simp [Machine.startedCount, h1, h3, h4, h5, h6]
      · have h' : m.nextRid + 1 - m.startedCount =
            (m.nextRid - m.startedCount) + 1 := by
          simp [Machine.startedCount] at h2 ⊢
          omega
        simp only [Machine.startedCount] at h'
        rw [h', List.range'_concat]
        have h'' : m.nextRid =
            m.settledOutcomes.length + (if m.slot.isBusy then 1 else 0) +
              1 * (m.nextRid -
                (m.settledOutcomes.length +
                  (if m.slot.isBusy then 1 else 0))) := by
          simp [Machine.startedCount] at h2
          omega
        rw [← h'']
      · simp [Machine.startedCount] at h2
        omega
    simp only [step]
    split
    · exact henq
    · exact sinv_driveReduce henq
  | getState => exact sinv_internalGetState h .plain
  | suspend => exact sinv_internalGetState h .susp
  | createObservable =>
    apply sinv_of_sframe _ h
    simp [step, SFrame]
  | attach obs =>
    simp only [step]
    cases hf : lookupFlag m.obsFlags obs with
    | none => exact h
    | some flag =>
      cases flag with
      | true =>
        show SInv (attachStep m true)
        rw [attachStep_true]
        apply sinv_internalGetState
        apply sinv_of_sframe _ h
        simp [SFrame]
      | false =>
        show SInv (attachStep m false)
        rw [attachStep_false]
        apply sinv_of_sframe _ h
        simp [SFrame, mutTrace_append, mutTrace, mutEvt]
  | unsubscribe sid =>
    simp only [step]
    split
    · apply sinv_of_sframe _ h
      simp [SFrame]
    · exact h
  | settle out => exact sinv_settleStep h out

lemma sinv_foldl : ∀ (cs : List Cmd) (m : Machine),
    SInv m → SInv (cs.foldl step m) := by
  intro cs
  induction cs with
  | nil => intro m h; exact h
  | cons c rest ih => intro m h; exact ih (step m c) (sinv_step h c)

lemma sinv_run (cs : List Cmd) : SInv (run cs) :=
  sinv_foldl cs Machine.initial sinv_initial

def isStartB : MEvt → Bool
  | .start _ _ => true
  | .complete _ _ => false

def isCompleteB : MEvt → Bool
  | .start _ _ => false
  | .complete _ _ => true

lemma count_chainFrom (outs : List Outcome) : ∀ (prev : Option V) (i : Nat)
    (tail : List MEvt) (k : Nat),
    (tail = [] ∨ ∃ r v, tail = [MEvt.start r v]) →
    ((chainFrom prev i outs ++ tail).take k).countP isStartB ≤
      ((chainFrom prev i outs ++ tail).take k).countP isCompleteB + 1 := by
  induction outs with
  | nil =>
    intro prev i tail k ht
    rcases ht with ht | ⟨r, v, ht⟩ <;> subst ht
    · simp [chainFrom]
    · cases k with
      | zero => simp
      | succ k1 => simp [chainFrom, List.countP_cons, isStartB, isCompleteB]
  | cons o rest ih =>
    intro prev i tail k ht
    cases k with
    | zero => simp
    | succ k1 =>
      cases k1 with
      | zero => simp [chainFrom, List.countP_cons, isStartB, isCompleteB]
      | succ k2 =>
        have h := ih o.newStateVal (i + 1) tail k2 ht
        cases o <;>
          simpa [chainFrom, completeEvt, List.countP_cons, isStartB,
            isCompleteB] using h

lemma chain_get {prev : Option V} {outs : List Outcome}
    {tail : List (Option V)}
    (htail : tail = [] ∨ tail = [lastVal prev outs]) :
    ∀ (n : Nat) (o : Outcome) (x : Option V), outs[n]? = some o →
      (inputsFrom prev outs ++ tail)[n + 1]? = some x →
      x = o.newStateVal := by
  induction outs generalizing prev with
  | nil => intro n o x ho; simp at ho
  | cons a rest ih =>
    intro n o x ho hx
    have htail' : tail = [] ∨ tail = [lastVal a.newStateVal rest] := htail
    cases n with
    | zero =>
      simp at ho
      subst ho
      cases rest with
      | nil =>
        rcases htail' with ht | ht <;> subst ht
        · simp [inputsFrom] at hx
        · simp [inputsFrom, lastVal] at hx
          exact hx.symm
      | cons b rs =>
        simp [inputsFrom] at hx
        exact hx.symm
    | succ k =>
      have hx' : (inputsFrom a.newStateVal rest ++ tail)[k + 1]? = some x := by
        simpa [inputsFrom] using hx
      have ho' : rest[k]? = some o := by simpa using ho
      exact ih htail' k o x ho' hx'

/-- Projection selecting completion events from a trace together with the
identity of the mutation and the rejection error, if any. -/
def completionOf : Event → Option (Nat × Option Err)
  | .mutResolved r => some (r, none)
  | .mutRejected r e => some (r, some e)
  | _ => none

def completions (t : List Event) : List (Nat × Option Err) :=
  t.filterMap completionOf

/-- The error with which a settle rejects the completion signal (`none`
when the signal resolves). -/
def errOf : Outcome → Option Err
  | .ok _ => none
  | .err e => some e

/-- The completion signals that FIFO draining produces: the n-th settled
signal belongs to the n-th enqueued mutation and carries exactly its own
outcome's error. -/
def completionsOf (i : Nat) : List Outcome → List (Nat × Option Err)
  | [] => []
  | o :: rest => (i, errOf o) :: completionsOf (i + 1) rest

def projC : MEvt → Option (Nat × Option Err)
  | .complete r e => some (r, e)
  | .start _ _ => none

lemma completions_eq_mutTrace (t : List Event) :
    completions t = (mutTrace t).filterMap projC := by
  rw [completions, mutTrace, List.filterMap_filterMap]
  congr 1
  funext e
  cases e <;> rfl

lemma chain_completions (outs : List Outcome) : ∀ (prev : Option V) (i : Nat)
    (tail : List MEvt),
    (tail = [] ∨ ∃ r v, tail = [MEvt.start r v]) →
    (chainFrom prev i outs ++ tail).filterMap projC = completionsOf i outs := by
  induction outs with
  | nil =>
    intro prev i tail ht
    rcases ht with ht | ⟨r, v, ht⟩ <;> subst ht <;>
      simp [chainFrom, completionsOf, projC]
  | cons o rest ih =>
    intro prev i tail ht
    have h := ih o.newStateVal (i + 1) tail ht
    cases o <;>
      simpa [chainFrom, completeEvt, completionsOf, projC, errOf] using h

lemma inputsFrom_length (prev : Option V) (outs : List Outcome) :
    (inputsFrom prev outs).length = outs.length := by
  induction outs generalizing prev with
  | nil => rfl
  | cons o rest ih => simp [inputsFrom, ih]

lemma run_tail_shape (cs : List Cmd) :
    ((if (run cs).slot.isBusy then
        [MEvt.start (run cs).settledOutcomes.length
          (lastVal none (run cs).settledOutcomes)]
      else []) = []) ∨
    (∃ r v, (if (run cs).slot.isBusy then
        [MEvt.start (run cs).settledOutcomes.length
          (lastVal none (run cs).settledOutcomes)]
      else []) = [MEvt.start r v]) := by
  by_cases hb : (run cs).slot.isBusy = true
  · rw [if_pos hb]; exact Or.inr ⟨_, _, rfl⟩
  · rw [if_neg hb]; exact Or.inl rfl

/-! ### Clone-independence invariant (claims C2, C3) -/

/-- The state object delivered across the store boundary by an event, when
the event hands one out: read resolutions, subscriber replays, and fan-out
notifications.  (Transform starts are deliberately not included: the
source passes `stateData.state` to `reduceAsync` directly.) -/
def handedObj : Event → Option Obj
  | .getterResolved _ (some o) => some o
  | .replayed _ (some o) => some o
  | .notified _ (some o) => some o
  | _ => none

def handedObjs (t : List Event) : List Obj := t.filterMap handedObj

/-- Clone-independence, as a predicate of the trace, the fresh-allocation
counter, the history of ids ever stored in the slot, and the current
snapshot: every handed-out object was freshly allocated (so handed-out
objects are pairwise distinct and never alias any snapshot the slot ever
stored), while the objects passed to transforms are exactly stored
snapshots. -/
def FreshOk (t : List Event) (f : Nat) (stored : List Nat)
    (st : Option Obj) : Prop :=
  (∀ o ∈ handedObjs t, o.id < f)
  ∧ List.Pairwise (fun a b => a.id < b.id) (handedObjs t)
  ∧ (∀ i ∈ stored, i < f)
  ∧ (∀ o, st = some o → o.id ∈ stored)
  ∧ (∀ o ∈ handedObjs t, o.id ∉ stored)
  ∧ (∀ r o, Event.transformStart r (some o) ∈ t → o.id ∈ stored)

def FreshInv (m : Machine) : Prop :=
  FreshOk m.trace m.fresh m.storedIds m.slot.state

lemma handedObjs_append (t u : List Event) :
    handedObjs (t ++ u) = handedObjs t ++ handedObjs u :=
  List.filterMap_append t u handedObj

lemma handedObjs_mutResolved (r : Nat) :
    handedObjs [Event.mutResolved r] = [] := rfl

lemma handedObjs_mutRejected (r : Nat) (e : Err) :
    handedObjs [Event.mutRejected r e] = [] := rfl

lemma freshOk_extend {t : List Event} {f : Nat} {stored : List Nat}
    {st : Option Obj} (h : FreshOk t f stored st) {evs : List Event}
    {f' : Nat} (hff : f ≤ f')
    (hev1 : ∀ o ∈ handedObjs evs, f ≤ o.id ∧ o.id < f')
    (hev2 : List.Pairwise (fun a b => a.id < b.id) (handedObjs evs))
    (hts : ∀ r o, Event.transformStart r (some o) ∈ evs → o.id ∈ stored) :
    FreshOk (t ++ evs) f' stored st := by
  obtain ⟨h1, h2, h3, h4, h5, h6⟩ := h
  refine ⟨?_, ?_, ?_, h4, ?_, ?_⟩
  · intro o ho
    rw [handedObjs_append] at ho
    rcases List.mem_append.mp ho with ho | ho
    · exact lt_of_lt_of_le (h1 o ho) hff
    · exact (hev1 o ho).2
  · rw [handedObjs_append]
    refine List.pairwise_append.mpr ⟨h2, hev2, ?_⟩
    intro a ha b hb
    exact lt_of_lt_of_le (h1 a ha) (hev1 b hb).1
  · intro i hi
    exact lt_of_lt_of_le (h3 i hi) hff
  · intro o ho
    rw [handedObjs_append] at ho
    rcases List.mem_append.mp ho with ho | ho
    · exact h5 o ho
    · intro hmem
      exact absurd (h3 _ hmem) (not_lt.mpr (hev1 o ho).1)
  · intro r o ho
    rcases List.mem_append.mp ho with ho | ho
    · exact h6 r o ho
    · exact hts r o ho

/-- Bounds for the batch read resolution: the objects handed out by
`resolveAux` are allocated at consecutive fresh ids, and the continuation
values coincide with them. -/
lemma resolveAux_bounds (st : Option Obj) :
    ∀ (gs : List DeferredGetter) (f : Nat),
    f ≤ (resolveAux st f gs).1
    ∧ (∀ o ∈ handedObjs (resolveAux st f gs).2.1,
        f ≤ o.id ∧ o.id < (resolveAux st f gs).1)
    ∧ List.Pairwise (fun a b => a.id < b.id)
        (handedObjs (resolveAux st f gs).2.1)
    ∧ (∀ r o, Event.transformStart r (some o) ∉ (resolveAux st f gs).2.1) := by
  intro gs
  induction gs with
  | nil => intro f; simp [resolveAux, handedObjs]
  | cons g rest ih =>
    intro f
    cases st with
    | none =>
      obtain ⟨ha, hb, hc, hd⟩ := ih f
      have he : resolveAux none f (g :: rest) =
          ((resolveAux none f rest).1,
           Event.getterResolved g none :: (resolveAux none f rest).2.1,
           (g, none) :: (resolveAux none f rest).2.2) := by
        simp [resolveAux, safeClone]
      have hh : handedObjs (Event.getterResolved g none ::
          (resolveAux none f rest).2.1) =
          handedObjs (resolveAux none f rest).2.1 := by
        simp [handedObjs, List.filterMap_cons, handedObj]
      refine ⟨?_, ?_, ?_, ?_⟩ <;> rw [he]
      · exact ha
      · intro x hx
        rw [hh] at hx
        exact hb x hx
      · rw [hh]
        exact hc
      · intro r x hmem
        rcases List.mem_cons.mp hmem with hmem | hmem
        · cases hmem
        · exact hd r x hmem
    | some o =>
      obtain ⟨ha, hb, hc, hd⟩ := ih (f + 1)
      have he : resolveAux (some o) f (g :: rest) =
          ((resolveAux (some o) (f + 1) rest).1,
           Event.getterResolved g (some ⟨f, o.val⟩) ::
             (resolveAux (some o) (f + 1) rest).2.1,
           (g, some ⟨f, o.val⟩) :: (resolveAux (some o) (f + 1) rest).2.2) := by
        simp [resolveAux, safeClone]
      have hh : handedObjs (Event.getterResolved g (some ⟨f, o.val⟩) ::
          (resolveAux (some o) (f + 1) rest).2.1) =
          (⟨f, o.val⟩ : Obj) ::
            handedObjs (resolveAux (some o) (f + 1) rest).2.1 := by
        simp [handedObjs, List.filterMap_cons, handedObj]
      refine ⟨?_, ?_, ?_, ?_⟩ <;> rw [he]
      · omega
      · intro x hx
        rw [hh] at hx
        rcases List.mem_cons.mp hx with hx | hx
        · subst hx
          simp
          omega
        · have := hb x hx
          omega
      · rw [hh]
        refine List.pairwise_cons.mpr ⟨?_, hc⟩
        intro b hbmem
        have := hb b hbmem
        simp
        omega
      · intro r x hmem
        rcases List.mem_cons.mp hmem with hmem | hmem
        · cases hmem
        · exact hd r x hmem

/-- Bounds for the fan-out loop, analogous to `resolveAux_bounds`. -/
lemma notifyAux_bounds (st : Option Obj) :
    ∀ (l : List Nat) (f : Nat),
    f ≤ (notifyAux st f l).1
    ∧ (∀ o ∈ handedObjs (notifyAux st f l).2,
        f ≤ o.id ∧ o.id < (notifyAux st f l).1)
    ∧ List.Pairwise (fun a b => a.id < b.id) (handedObjs (notifyAux st f l).2)
    ∧ (∀ r o, Event.transformStart r (some o) ∉ (notifyAux st f l).2) := by
  intro l
  induction l with
  | nil => intro f; simp [notifyAux, handedObjs]
  | cons sid rest ih =>
    intro f
    cases st with
    | none =>
      obtain ⟨ha, hb, hc, hd⟩ := ih f
      have he : notifyAux none f (sid :: rest) =
          ((notifyAux none f rest).1,
           Event.notified sid none :: (notifyAux none f rest).2) := by
        simp [notifyAux, safeClone]
      have hh : handedObjs (Event.notified sid none ::
          (notifyAux none f rest).2) =
          handedObjs (notifyAux none f rest).2 := by
        simp [handedObjs, List.filterMap_cons, handedObj]
      refine ⟨?_, ?_, ?_, ?_⟩ <;> rw [he]
      · exact ha
      · intro x hx
        rw [hh] at hx
        exact hb x hx
      · rw [hh]
        exact hc
      · intro r x hmem
        rcases List.mem_cons.mp hmem with hmem | hmem
        · cases hmem
        · exact hd r x hmem
    | some o =>
      obtain ⟨ha, hb, hc, hd⟩ := ih (f + 1)
      have he : notifyAux (some o) f (sid :: rest) =
          ((notifyAux (some o) (f + 1) rest).1,
           Event.notified sid (some ⟨f, o.val⟩) ::
             (notifyAux (some o) (f + 1) rest).2) := by
        simp [notifyAux, safeClone]
      have hh : handedObjs (Event.notified sid (some ⟨f, o.val⟩) ::
          (notifyAux (some o) (f + 1) rest).2) =
          (⟨f, o.val⟩ : Obj) ::
            handedObjs (notifyAux (some o) (f + 1) rest).2 := by
        simp [handedObjs, List.filterMap_cons, handedObj]
      refine ⟨?_, ?_, ?_, ?_⟩ <;> rw [he]
      · omega
      · intro x hx
        rw [hh] at hx
        rcases List.mem_cons.mp hx with hx | hx
        · subst hx
          simp
          omega
        · have := hb x hx
          omega
      · rw [hh]
        refine List.pairwise_cons.mpr ⟨?_, hc⟩
        intro b hbmem
        have := hb b hbmem
        simp
        omega
      · intro r x hmem
        rcases List.mem_cons.mp hmem with hmem | hmem
        · cases hmem
        · exact hd r x hmem

lemma freshInv_startNext {m : Machine} (h : FreshInv m) (rid : Nat)
    (rest : List Nat) : FreshInv (startNext m rid rest) := by
  obtain ⟨h1, h2, h3, h4, h5, h6⟩ := h
  refine freshOk_extend ⟨h1, h2, h3, h4, h5, h6⟩ (le_refl _) ?_ ?_ ?_
  · intro o ho
    simp [handedObjs, handedObj] at ho
  · simp [handedObjs, handedObj]
  · intro r o ho
    simp at ho
    exact h4 o ho.2.symm

lemma freshInv_settleApply {m : Machine} (h : FreshInv m) (rid : Nat)
    (out : Outcome) : FreshInv (settleApply m rid out) := by
  obtain ⟨h1, h2, h3, h4, h5, h6⟩ := h
  cases out with
  | ok v =>
    have htr : handedObjs (settleApply m rid (.ok v)).trace =
        handedObjs m.trace := by
      rw [show (settleApply m rid (.ok v)).trace =
          m.trace ++ [Event.mutResolved rid] from rfl,
        handedObjs_append, handedObjs_mutResolved, List.append_nil]
    refine ⟨?_, ?_, ?_, ?_, ?_, ?_⟩
    · intro o ho
      rw [htr] at ho
      have : (settleApply m rid (.ok v)).fresh = m.fresh + 1 := rfl
      rw [this]
      exact Nat.lt_succ_of_lt (h1 o ho)
    · rw [htr]; exact h2
    · intro i hi
      rw [show (settleApply m rid (.ok v)).storedIds =
          m.storedIds ++ [m.fresh] from rfl] at hi
      rw [show (settleApply m rid (.ok v)).fresh = m.fresh + 1 from rfl]
      rcases List.mem_append.mp hi with hi | hi
      · exact Nat.lt_succ_of_lt (h3 i hi)
      · simp at hi
        simp [hi]
    · intro o ho
      rw [show (settleApply m rid (.ok v)).slot.state =
          some ⟨m.fresh, v⟩ from rfl] at ho
      rw [show (settleApply m rid (.ok v)).storedIds =
          m.storedIds ++ [m.fresh] from rfl]
      cases ho
      simp
    · intro o ho
      rw [htr] at ho
      rw [show (settleApply m rid (.ok v)).storedIds =
          m.storedIds ++ [m.fresh] from rfl]
      simp
      exact ⟨h5 o ho, fun he => absurd (he ▸ h1 o ho) (lt_irrefl _)⟩
    · intro r o ho
      rw [show (settleApply m rid (.ok v)).trace =
          m.trace ++ [Event.mutResolved rid] from rfl] at ho
      rw [show (settleApply m rid (.ok v)).storedIds =
          m.storedIds ++ [m.fresh] from rfl]
      rcases List.mem_append.mp ho with ho | ho
      · exact List.mem_append_left _ (h6 r o ho)
      · simp at ho
  | err e =>
    have htr : handedObjs (settleApply m rid (.err e)).trace =
        handedObjs m.trace := by
      rw [show (settleApply m rid (.err e)).trace =
          m.trace ++ [Event.mutRejected rid e] from rfl,
        handedObjs_append, handedObjs_mutRejected, List.append_nil]
    refine ⟨?_, ?_, ?_, ?_, ?_, ?_⟩
    · intro o ho
      rw [htr] at ho
      exact h1 o ho
    · rw [htr]; exact h2
    · intro i hi
      exact h3 i hi
    · intro o ho
      rw [show (settleApply m rid (.err e)).slot.state =
          none from rfl] at ho
      cases ho
    · intro o ho
      rw [htr] at ho
      exact h5 o ho
    · intro r o ho
      rw [show (settleApply m rid (.err e)).trace =
          m.trace ++ [Event.mutRejected rid e] from rfl] at ho
      rcases List.mem_append.mp ho with ho | ho
      · exact h6 r o ho
      · simp at ho

lemma freshInv_resolveDefferedGetters {m : Machine} (h : FreshInv m) :
    FreshInv (resolveDefferedGetters m).1 := by
  obtain ⟨ha, hb, hc, hd⟩ := resolveAux_bounds m.slot.state
    (if m.slot.isStateSuspended then m.slot.deferredGetters
     else m.slot.deferredGetters ++ m.slot.suspendedGetters) m.fresh
  refine freshOk_extend h ha hb hc ?_
  intro r o ho
  exact absurd ho (hd r o)

lemma freshInv_notifySubscribers {m : Machine} (h : FreshInv m) :
    FreshInv (notifySubscribers m) := by
  obtain ⟨ha, hb, hc, hd⟩ := notifyAux_bounds m.slot.state
    m.slot.subscribers m.fresh
  refine freshOk_extend h ha hb hc ?_
  intro r o ho
  exact absurd ho (hd r o)

lemma freshInv_runCont {m : Machine} (h : FreshInv m)
    (c : DeferredGetter × Option Obj) : FreshInv (runCont m c) := by
  obtain ⟨⟨g, k⟩, v⟩ := c
  cases k with
  | plain => exact h
  | susp =>
    refine freshOk_extend h (le_refl _) ?_ ?_ ?_
    · intro o ho; simp [handedObjs, handedObj] at ho
    · simp [handedObjs, handedObj]
    · intro r o ho; simp at ho
  | replay sid =>
    cases v with
    | none =>
      refine freshOk_extend h (le_refl _) ?_ ?_ ?_
      · intro o ho
        simp [safeClone, handedObjs, handedObj, List.filterMap_cons] at ho
      · simp [safeClone, handedObjs, handedObj, List.filterMap_cons]
      · intro r o ho; simp [safeClone] at ho
    | some o' =>
      refine freshOk_extend h (Nat.le_succ _) ?_ ?_ ?_
      · intro o ho
        simp [safeClone, handedObjs, handedObj, List.filterMap_cons] at ho
        simp [runCont, safeClone, ho]
      · simp [safeClone, handedObjs, handedObj, List.filterMap_cons]
      · intro r o ho; simp [safeClone] at ho

lemma freshInv_runConts {m : Machine}
    (cs : List (DeferredGetter × Option Obj)) (h : FreshInv m) :
    FreshInv (runConts m cs) := by
  induction cs generalizing m with
  | nil => exact h
  | cons c rest ih => exact ih (freshInv_runCont h c)

lemma freshInv_drainEnd {m : Machine} (h : FreshInv m) :
    FreshInv (drainEnd m) := by
  apply freshInv_runConts
  exact freshInv_notifySubscribers (freshInv_resolveDefferedGetters h)

lemma freshInv_driveReduce {m : Machine} (h : FreshInv m) :
    FreshInv (driveReduce m) := by
  unfold driveReduce
  split
  · exact h
  · split
    · exact h
    · exact freshInv_startNext h _ _

lemma freshInv_resolvePhase {m1 : Machine} (h : FreshInv m1) :
    FreshInv (resolvePhase m1) := by
  unfold resolvePhase
  split
  · exact h
  · exact freshInv_runConts _ (freshInv_resolveDefferedGetters h)

lemma freshInv_internalGetState {m : Machine} (h : FreshInv m)
    (k : GetterKind) : FreshInv (internalGetState m k) := by
  simp only [internalGetState]
  apply freshInv_resolvePhase
  apply freshInv_driveReduce
  by_cases hs : m.slot.isStateSuspended = true <;> simp [hs] <;> exact h

lemma freshInv_step {m : Machine} (h : FreshInv m) (c : Cmd) :
    FreshInv (step m c) := by
  cases c with
  | reduce d =>
    simp only [step]
    split
    · exact h
    · exact freshInv_driveReduce h
  | getState => exact freshInv_internalGetState h .plain
  | suspend => exact freshInv_internalGetState h .susp
  | createObservable => exact h
  | attach obs =>
    simp only [step]
    cases lookupFlag m.obsFlags obs with
    | none => exact h
    | some flag =>
      cases flag with
      | true =>
        show FreshInv (attachStep m true)
        rw [attachStep_true]
        have hX : FreshInv
            { m with
                nextSid := m.nextSid + 1,
                replayOrigin := m.replayOrigin ++ [m.nextSid] } := h
        exact freshInv_internalGetState hX (.replay m.nextSid)
      | false =>
        show FreshInv (attachStep m false)
        rw [attachStep_false]
        refine freshOk_extend h (le_refl _) ?_ ?_ ?_
        · intro o ho
          simp [handedObjs, handedObj, List.filterMap_cons] at ho
        · simp [handedObjs, handedObj, List.filterMap_cons]
        · intro r o ho; simp at ho
  | unsubscribe sid =>
    simp only [step]
    split
    · exact h
    · exact h
  | settle out =>
    cases ha : m.awaiting with
    | none => simpa [step, settleStep, ha] using h
    | some rid =>
      simp only [step, settleStep, ha]
      cases hq : (settleApply m rid out).slot.deferredReducers with
      | nil => exact freshInv_drainEnd (freshInv_settleApply h rid out)
      | cons rid2 rest =>
        exact freshInv_startNext (freshInv_settleApply h rid out) _ _

lemma freshInv_initial : FreshInv Machine.initial := by
  refine ⟨?_, ?_, ?_, ?_, ?_, ?_⟩ <;>
    simp [Machine.initial, StateData.initial, handedObjs]

lemma freshInv_run (cs : List Cmd) : FreshInv (run cs) := by
  have : ∀ (l : List Cmd) (m : Machine), FreshInv m →
      FreshInv (l.foldl step m) := by
    intro l
    induction l with
    | nil => intro m h; exact h
    | cons c rest ih => intro m h; exact ih (step m c) (freshInv_step h c)
  exact this cs Machine.initial freshInv_initial

/-! ### Initialization-flag invariant (claim C7) -/

def isReduceCmd : Cmd → Bool
  | .reduce _ => true
  | _ => false

lemma initFlag_runCont (m : Machine) (c : DeferredGetter × Option Obj) :
    (runCont m c).slot.isStateInitiated = m.slot.isStateInitiated := by
  obtain ⟨⟨g, k⟩, v⟩ := c
  cases k <;> simp [runCont]

lemma initFlag_runConts (cs : List (DeferredGetter × Option Obj)) :
    ∀ m : Machine,
    (runConts m cs).slot.isStateInitiated = m.slot.isStateInitiated := by
  induction cs with
  | nil => intro m; rfl
  | cons c rest ih =>
    intro m
    rw [show runConts m (c :: rest) = runConts (runCont m c) rest from rfl,
      ih, initFlag_runCont]

lemma initFlag_driveReduce (m : Machine) :
    (driveReduce m).slot.isStateInitiated = m.slot.isStateInitiated := by
  unfold driveReduce
  split
  · rfl
  · split
    · rfl
    · rfl

lemma initFlag_resolvePhase (m1 : Machine) :
    (resolvePhase m1).slot.isStateInitiated = m1.slot.isStateInitiated := by
  unfold resolvePhase
  split
  · rfl
  · rw [initFlag_runConts]
    rfl

lemma initFlag_internalGetState (m : Machine) (k : GetterKind) :
    (internalGetState m k).slot.isStateInitiated =
      m.slot.isStateInitiated := by
  simp only [internalGetState]
  rw [initFlag_resolvePhase, initFlag_driveReduce]
  split <;> rfl

lemma nextRid_driveReduce (m : Machine) :
    (driveReduce m).nextRid = m.nextRid := by
  unfold driveReduce
  split
  · rfl
  · split
    · rfl
    · rfl

lemma nextRid_resolvePhase (m1 : Machine) :
    (resolvePhase m1).nextRid = m1.nextRid := by
  unfold resolvePhase
  split
  · rfl
  · obtain ⟨f1, f2, f3, f4, f5, f6, f7, f8⟩ :=
      sframe_trans (sframe_resolveDefferedGetters m1) (sframe_runConts _ _)
    exact f5

lemma nextRid_internalGetState (m : Machine) (k : GetterKind) :
    (internalGetState m k).nextRid = m.nextRid := by
  simp only [internalGetState]
  rw [nextRid_resolvePhase, nextRid_driveReduce]

lemma nextRid_drainEnd (m1 : Machine) : (drainEnd m1).nextRid = m1.nextRid := by
  have h := sframe_runConts
    { notifySubscribers (resolveDefferedGetters m1).1 with
        slot := { (notifySubscribers (resolveDefferedGetters m1).1).slot with
                    isBusy := false } }
    (resolveDefferedGetters m1).2
  exact h.2.2.2.2.1

lemma initFlag_step (m : Machine) (c : Cmd) :
    (step m c).slot.isStateInitiated =
      (m.slot.isStateInitiated || isReduceCmd c) := by
  cases c with
  | reduce d =>
    simp only [step]
    split
    · simp [isReduceCmd]
    · rw [initFlag_driveReduce]
      simp [isReduceCmd]
  | getState => simp [step, initFlag_internalGetState, isReduceCmd]
  | suspend => simp [step, initFlag_internalGetState, isReduceCmd]
  | createObservable => simp [step, isReduceCmd]
  | attach obs =>
    simp only [step]
    cases lookupFlag m.obsFlags obs with
    | none => simp [isReduceCmd]
    | some flag =>
      cases flag with
      | true =>
        show (attachStep m true).slot.isStateInitiated = _
        rw [attachStep_true, initFlag_internalGetState]
        simp [isReduceCmd]
      | false =>
        show (attachStep m false).slot.isStateInitiated = _
        rw [attachStep_false]
        simp [isReduceCmd]
  | unsubscribe sid =>
    simp only [step]
    split <;> simp [isReduceCmd]
  | settle out =>
    cases ha : m.awaiting with
    | none => simp [step, settleStep, ha, isReduceCmd]
    | some rid =>
      simp only [step, settleStep, ha]
      cases hq : (settleApply m rid out).slot.deferredReducers with
      | nil =>
        unfold drainEnd
        rw [initFlag_runConts]
        simp [isReduceCmd]
        rfl
      | cons rid2 rest =>
        simp [startNext, isReduceCmd]
        rfl

lemma nextRid_step (m : Machine) (c : Cmd) :
    (step m c).nextRid = m.nextRid + (if isReduceCmd c then 1 else 0) := by
  cases c with
  | reduce d =>
    simp only [step]
    split
    · simp [isReduceCmd]
    · unfold driveReduce
      split
      · simp [isReduceCmd]
      · split <;> simp [startNext, isReduceCmd]
  | getState => simp [step, nextRid_internalGetState, isReduceCmd]
  | suspend => simp [step, nextRid_internalGetState, isReduceCmd]
  | createObservable => simp [step, isReduceCmd]
  | attach obs =>
    simp only [step]
    cases lookupFlag m.obsFlags obs with
    | none => simp [isReduceCmd]
    | some flag =>
      cases flag with
      | true =>
        show (attachStep m true).nextRid = _
        rw [attachStep_true, nextRid_internalGetState]
        simp [isReduceCmd]
      | false =>
        show (attachStep m false).nextRid = _
        rw [attachStep_false]
        simp [isReduceCmd]
  | unsubscribe sid =>
    simp only [step]
    split <;> simp [isReduceCmd]
  | settle out =>
    cases ha : m.awaiting with
    | none => simp [step, settleStep, ha, isReduceCmd]
    | some rid =>
      simp only [step, settleStep, ha]
      cases hq : (settleApply m rid out).slot.deferredReducers with
      | nil =>
        simp [isReduceCmd]
        rw [nextRid_drainEnd]
        rfl
      | cons rid2 rest =>
        simp [startNext, isReduceCmd]
        rfl

/-- The number of enqueued mutations equals the number of `reduce` /
`lazyReduce` calls issued. -/
lemma nextRid_run (cs : List Cmd) :
    (run cs).nextRid = cs.countP isReduceCmd := by
  have key : ∀ (l : List Cmd) (m : Machine),
      (l.foldl step m).nextRid = m.nextRid + l.countP isReduceCmd := by
    intro l
    induction l with
    | nil => intro m; simp
    | cons c rest ih =>
      intro m
      rw [show (c :: rest).foldl step m = rest.foldl step (step m c) from rfl,
        ih, nextRid_step, List.countP_cons]
      by_cases hc : isReduceCmd c = true
      · simp [hc]
        omega
      · simp [hc]
  rw [run, key]
  simp [Machine.initial]

lemma initFlag_run (cs : List Cmd) :
    (run cs).slot.isStateInitiated = (0 < cs.countP isReduceCmd) := by
  have key : ∀ (l : List Cmd) (m : Machine),
      (l.foldl step m).slot.isStateInitiated =
        (m.slot.isStateInitiated || decide (0 < l.countP isReduceCmd)) := by
    intro l
    induction l with
    | nil => intro m; simp
    | cons c rest ih =>
      intro m
      rw [show (c :: rest).foldl step m = rest.foldl step (step m c) from rfl,
        ih, initFlag_step, List.countP_cons]
      by_cases hc : isReduceCmd c = true
      · simp [hc]
      · simp [hc]
  rw [run, key]
  simp [Machine.initial, StateData.initial]

/-! ### Trace-extension toolkit: which events a step appends, and what the
values of its read resolutions are (claims C2, C5) -/

lemma resolveAux_values (st : Option Obj) :
    ∀ (gs : List DeferredGetter) (f : Nat) (g : DeferredGetter)
      (v : Option Obj),
    Event.getterResolved g v ∈ (resolveAux st f gs).2.1 →
    v.map Obj.val = st.map Obj.val := by
  intro gs
  induction gs with
  | nil => intro f g v h; simp [resolveAux] at h
  | cons g0 rest ih =>
    intro f g v h
    rw [show (resolveAux st f (g0 :: rest)).2.1 =
        Event.getterResolved g0 (safeClone st f).1 ::
          (resolveAux st (safeClone st f).2 rest).2.1 from rfl] at h
    rcases List.mem_cons.mp h with h | h
    · simp at h
      obtain ⟨hg, hv⟩ := h
      subst hv
      cases st <;> simp [safeClone]
    · exact ih _ g v h

lemma notifyAux_no_getter (st : Option Obj) :
    ∀ (l : List Nat) (f : Nat) (g : DeferredGetter) (v : Option Obj),
    Event.getterResolved g v ∉ (notifyAux st f l).2 := by
  intro l
  induction l with
  | nil => intro f g v h; simp [notifyAux] at h
  | cons sid rest ih =>
    intro f g v h
    rw [show (notifyAux st f (sid :: rest)).2 =
        Event.notified sid (safeClone st f).1 ::
          (notifyAux st (safeClone st f).2 rest).2 from rfl] at h
    rcases List.mem_cons.mp h with h | h
    · cases h
    · exact ih _ g v h

lemma runConts_ext (cs : List (DeferredGetter × Option Obj)) :
    ∀ m : Machine, ∃ ext, (runConts m cs).trace = m.trace ++ ext ∧
      ∀ g v, Event.getterResolved g v ∉ ext := by
  induction cs with
  | nil => intro m; exact ⟨[], by simp [runConts], by simp⟩
  | cons c rest ih =>
    intro m
    have h0 : ∃ e0, (runCont m c).trace = m.trace ++ e0 ∧
        ∀ g v, Event.getterResolved g v ∉ e0 := by
      obtain ⟨⟨gid0, k⟩, v⟩ := c
      cases k with
      | plain => exact ⟨[], by simp [runCont], by simp⟩
      | susp => exact ⟨[.suspendEffect], rfl, by simp⟩
      | replay sid =>
        exact ⟨[.replayed sid (safeClone v m.fresh).1, .subAdded sid],
          rfl, by simp⟩
    obtain ⟨e0, he0, hg0⟩ := h0
    obtain ⟨ext, he, hg⟩ := ih (runCont m c)
    refine ⟨e0 ++ ext, ?_, ?_⟩
    · rw [show runConts m (c :: rest) = runConts (runCont m c) rest from rfl,
        he, he0, List.append_assoc]
    · intro g v h
      rcases List.mem_append.mp h with h | h
      · exact hg0 g v h
      · exact hg g v h

lemma notifySubscribers_ext (m : Machine) :
    ∃ ext, (notifySubscribers m).trace = m.trace ++ ext ∧
      ∀ g v, Event.getterResolved g v ∉ ext :=
  ⟨_, rfl, fun g v h => notifyAux_no_getter _ _ _ g v h⟩

lemma resolveDefferedGetters_ext (m : Machine) :
    ∃ ext, (resolveDefferedGetters m).1.trace = m.trace ++ ext ∧
      ∀ g v, Event.getterResolved g v ∈ ext →
        v.map Obj.val = m.slot.state.map Obj.val :=
  ⟨_, rfl, fun g v h => resolveAux_values m.slot.state _ _ g v h⟩

lemma state_driveReduce (m : Machine) :
    (driveReduce m).slot.state = m.slot.state := by
  unfold driveReduce
  split
  · rfl
  · split
    · rfl
    · rfl

lemma state_resolvePhase (m1 : Machine) :
    (resolvePhase m1).slot.state = m1.slot.state := by
  unfold resolvePhase
  split
  · rfl
  · exact (sframe_trans (sframe_resolveDefferedGetters m1)
      (sframe_runConts _ _)).1

lemma state_drainEnd (m1 : Machine) :
    (drainEnd m1).slot.state = m1.slot.state := by
  have h := sframe_runConts
    { notifySubscribers (resolveDefferedGetters m1).1 with
        slot := { (notifySubscribers (resolveDefferedGetters m1).1).slot with
                    isBusy := false } }
    (resolveDefferedGetters m1).2
  exact h.1

lemma driveReduce_ext (m : Machine) :
    ∃ ext, (driveReduce m).trace = m.trace ++ ext ∧
      ∀ g v, Event.getterResolved g v ∉ ext := by
  unfold driveReduce
  split
  · exact ⟨[], by simp, by simp⟩
  · split
    · exact ⟨[], by simp, by simp⟩
    · exact ⟨[.transformStart _ m.slot.state], rfl, by simp⟩

lemma resolvePhase_ext (m1 : Machine) :
    ∃ ext, (resolvePhase m1).trace = m1.trace ++ ext ∧
      ∀ g v, Event.getterResolved g v ∈ ext →
        v.map Obj.val = m1.slot.state.map Obj.val := by
  unfold resolvePhase
  split
  · exact ⟨[], by simp, by simp⟩
  · obtain ⟨e1, he1, hv1⟩ := resolveDefferedGetters_ext m1
    obtain ⟨e2, he2, hg2⟩ := runConts_ext (resolveDefferedGetters m1).2
      (resolveDefferedGetters m1).1
    refine ⟨e1 ++ e2, ?_, ?_⟩
    · rw [he2, he1, List.append_assoc]
    · intro g v h
      rcases List.mem_append.mp h with h | h
      · exact hv1 g v h
      · exact absurd h (hg2 g v)

lemma drainEnd_ext (m1 : Machine) :
    ∃ ext, (drainEnd m1).trace = m1.trace ++ ext ∧
      ∀ g v, Event.getterResolved g v ∈ ext →
        v.map Obj.val = m1.slot.state.map Obj.val := by
  obtain ⟨e1, he1, hv1⟩ := resolveDefferedGetters_ext m1
  obtain ⟨e2, he2, hg2⟩ := notifySubscribers_ext (resolveDefferedGetters m1).1
  obtain ⟨e3, he3, hg3⟩ := runConts_ext (resolveDefferedGetters m1).2
    { notifySubscribers (resolveDefferedGetters m1).1 with
        slot := { (notifySubscribers (resolveDefferedGetters m1).1).slot with
                    isBusy := false } }
  refine ⟨e1 ++ e2 ++ e3, ?_, ?_⟩
  · show (runConts _ _).trace = _
    rw [he3]
    rw [show ({ notifySubscribers (resolveDefferedGetters m1).1 with
        slot := { (notifySubscribers (resolveDefferedGetters m1).1).slot with
                    isBusy := false } } : Machine).trace =
        (notifySubscribers (resolveDefferedGetters m1).1).trace from rfl]
    rw [he2, he1]
    simp [List.append_assoc]
  · intro g v h
    rcases List.mem_append.mp h with h | h
    · rcases List.mem_append.mp h with h | h
      · exact hv1 g v h
      · exact absurd h (hg2 g v)
    · exact absurd h (hg3 g v)

/-- Every step appends to the trace, and every read resolution it appends
carries exactly the payload of the slot's snapshot as it is when the step
completes — the snapshot at resolution time (nothing changes the snapshot
between a read resolution and the end of its step). -/
lemma step_read_values (m : Machine) (c : Cmd) :
    ∃ ext, (step m c).trace = m.trace ++ ext ∧
      ∀ g v, Event.getterResolved g v ∈ ext →
        v.map Obj.val = (step m c).slot.state.map Obj.val := by
  have getPhase : ∀ X : Machine,
      ∃ ext, (resolvePhase (driveReduce X)).trace = X.trace ++ ext ∧
        ∀ g v, Event.getterResolved g v ∈ ext →
          v.map Obj.val =
            (resolvePhase (driveReduce X)).slot.state.map Obj.val := by
    intro X
    obtain ⟨e1, he1, hg1⟩ := driveReduce_ext X
    obtain ⟨e2, he2, hv2⟩ := resolvePhase_ext (driveReduce X)
    refine ⟨e1 ++ e2, by rw [he2, he1, List.append_assoc], ?_⟩
    intro g v h
    rcases List.mem_append.mp h with h | h
    · exact absurd h (hg1 g v)
    · rw [hv2 g v h, state_resolvePhase, state_driveReduce]
  cases c with
  | reduce d =>
    simp only [step]
    split
    · exact ⟨[], by simp, by simp⟩
    · obtain ⟨e, he, hg⟩ := driveReduce_ext _
      exact ⟨e, he, fun g v h => absurd h (hg g v)⟩
  | getState => exact getPhase _
  | suspend => exact getPhase _
  | createObservable => exact ⟨[], by simp [step], by simp⟩
  | attach obs =>
    simp only [step]
    cases lookupFlag m.obsFlags obs with
    | none => exact ⟨[], by simp, by simp⟩
    | some flag =>
      cases flag with
      | true =>
        show ∃ ext, (attachStep m true).trace = m.trace ++ ext ∧ _
        rw [attachStep_true]
        exact getPhase _
      | false =>
        show ∃ ext, (attachStep m false).trace = m.trace ++ ext ∧ _
        rw [attachStep_false]
        exact ⟨[.subAdded m.nextSid], rfl, by simp⟩
  | unsubscribe sid =>
    simp only [step]
    split
    · exact ⟨[], by simp, by simp⟩
    · exact ⟨[], by simp, by simp⟩
  | settle out =>
    cases ha : m.awaiting with
    | none =>
      simp only [step, settleStep, ha]
      exact ⟨[], by simp, by simp⟩
    | some rid =>
      simp only [step, settleStep, ha]
      have hap : (settleApply m rid out).trace =
          m.trace ++ [match out with
            | .ok _ => Event.mutResolved rid
            | .err e => Event.mutRejected rid e] := by
        cases out <;> rfl
      cases hq : (settleApply m rid out).slot.deferredReducers with
      | nil =>
        obtain ⟨e1, he1, hv1⟩ := drainEnd_ext (settleApply m rid out)
        refine ⟨[match out with
            | Outcome.ok _ => Event.mutResolved rid
            | Outcome.err e0 => Event.mutRejected rid e0] ++ e1, ?_, ?_⟩
        · show (drainEnd (settleApply m rid out)).trace = _
          rw [he1, hap, List.append_assoc]
        · intro g v h
          rcases List.mem_append.mp h with h | h
          · cases out <;> simp at h
          · show _ = Option.map Obj.val
              (drainEnd (settleApply m rid out)).slot.state
            rw [hv1 g v h, state_drainEnd]
      | cons rid2 rest =>
        refine ⟨[match out with
            | Outcome.ok _ => Event.mutResolved rid
            | Outcome.err e0 => Event.mutRejected rid e0] ++
          [Event.transformStart rid2
            (settleApply m rid out).slot.state], ?_, ?_⟩
        · show (startNext (settleApply m rid out) rid2 rest).trace = _
          rw [show (startNext (settleApply m rid out) rid2 rest).trace =
            (settleApply m rid out).trace ++
              [Event.transformStart rid2
                (settleApply m rid out).slot.state] from rfl, hap,
            List.append_assoc]
        · intro g v h
          rcases List.mem_append.mp h with h | h
          · cases out <;> simp at h
          · simp at h

/-- C1: for every sequence of commands against the slot, at most one
reducer transform is in flight at any point of the run (in every prefix of
the mutation-event subsequence the number of transform starts exceeds the
number of completions by at most one), the first transform receives the
initial absent state, and the state passed to transform `n+1` is exactly
the state produced by (successfully) settling transform `n` — regardless
of when the mutations were submitted or whether a drain was in flight. -/
theorem C1_mutation_chain (cs : List Cmd) :
    (∀ k, ((mutTrace (run cs).trace).take k).countP isStartB ≤
        ((mutTrace (run cs).trace).take k).countP isCompleteB + 1)
  ∧ (∀ x, (run cs).startedInputs[0]? = some x → x = none)
  ∧ (∀ n v x, (run cs).settledOutcomes[n]? = some (.ok v) →
        (run cs).startedInputs[n + 1]? = some x → x = some v) := by
  obtain ⟨h1, h2, h3, h4, h5, h6⟩ := sinv_run cs
  refine ⟨?_, ?_, ?_⟩
  · intro k
    rw [h6]
    exact count_chainFrom _ none 0 _ k (run_tail_shape cs)
  · intro x hx
    rw [h4] at hx
    cases houts : (run cs).settledOutcomes with
    | nil =>
      rw [houts] at hx
      simp [inputsFrom, lastVal] at hx
      by_cases hb : (run cs).slot.isBusy = true
      · rw [if_pos hb] at hx
        simp at hx
        exact hx.symm
      · rw [if_neg hb] at hx
        simp at hx
    | cons o rest =>
      rw [houts] at hx
      simp [inputsFrom] at hx
      exact hx.symm
  · intro n v x ho hx
    rw [h4] at hx
    have ht : (if (run cs).slot.isBusy then
          [lastVal none (run cs).settledOutcomes] else []) = [] ∨
        (if (run cs).slot.isBusy then
          [lastVal none (run cs).settledOutcomes] else []) =
          [lastVal none (run cs).settledOutcomes] := by
      by_cases hb : (run cs).slot.isBusy = true
      · rw [if_pos hb]; exact Or.inr rfl
      · rw [if_neg hb]; exact Or.inl rfl
    simpa [Outcome.newStateVal] using chain_get ht n (.ok v) x ho hx

/-- Witness for C1 on a concrete run: the first mutation settles with
payload 5 and the second transform receives exactly that payload. -/
theorem C1_mutation_chain_witness :
    (run [Cmd.reduce false, Cmd.settle (Outcome.ok 5),
      Cmd.reduce false]).settledOutcomes[0]? = some (Outcome.ok 5)
  ∧ (run [Cmd.reduce false, Cmd.settle (Outcome.ok 5),
      Cmd.reduce false]).startedInputs[1]? = some (some 5)
  ∧ (some 5 : Option V) = some 5 :=
  ⟨by decide, by decide,
    (C1_mutation_chain [Cmd.reduce false, Cmd.settle (Outcome.ok 5),
      Cmd.reduce false]).2.2 0 5 (some 5) (by decide) (by decide)⟩

/-- C4: the completion signals settle strictly in enqueue (FIFO) order —
the n-th settled signal belongs to the n-th enqueued mutation and is
rejected with exactly that mutation's own error (`none` meaning resolved),
so a failing transform rejects only its own signal and the queue keeps
draining; moreover a signal never waits for mutations enqueued after its
own (the number of started transforms never exceeds the number of settled
signals by more than one, and the mutation events form the strictly
alternating start/complete pattern). -/
theorem C4_completion_signals (cs : List Cmd) :
    completions (run cs).trace = completionsOf 0 (run cs).settledOutcomes
  ∧ (run cs).startedInputs.length ≤ (run cs).settledOutcomes.length + 1
  ∧ mutTrace (run cs).trace =
      chainFrom none 0 (run cs).settledOutcomes ++
        (if (run cs).slot.isBusy then
          [MEvt.start (run cs).settledOutcomes.length
            (lastVal none (run cs).settledOutcomes)]
        else []) := by
  obtain ⟨h1, h2, h3, h4, h5, h6⟩ := sinv_run cs
  refine ⟨?_, ?_, h6⟩
  · rw [completions_eq_mutTrace, h6]
    exact chain_completions _ none 0 _ (run_tail_shape cs)
  · rw [h4]
    by_cases hb : (run cs).slot.isBusy = true
    · rw [if_pos hb]
      simp [inputsFrom_length]
    · rw [if_neg hb]
      simp [inputsFrom_length]

/-- Witness for C4 on a concrete run: mutation 0 succeeds, mutation 1
fails with error 7; the completion signals settle as exactly
`(0, resolved), (1, rejected 7)`. -/
theorem C4_completion_signals_witness :
    completionsOf 0 (run [Cmd.reduce false, Cmd.settle (Outcome.ok 5),
        Cmd.reduce false, Cmd.settle (Outcome.err 7)]).settledOutcomes =
      [(0, none), (1, some 7)]
  ∧ completions (run [Cmd.reduce false, Cmd.settle (Outcome.ok 5),
        Cmd.reduce false, Cmd.settle (Outcome.err 7)]).trace =
      completionsOf 0 (run [Cmd.reduce false, Cmd.settle (Outcome.ok 5),
        Cmd.reduce false, Cmd.settle (Outcome.err 7)]).settledOutcomes :=
  ⟨by decide,
    (C4_completion_signals [Cmd.reduce false, Cmd.settle (Outcome.ok 5),
      Cmd.reduce false, Cmd.settle (Outcome.err 7)]).1⟩

/-- C2 as stated is false: after a transform failure the slot's snapshot is
NOT left at its prior value.  `reduceDeferred` runs
`stateData.state = this.safeClone(newState)` unconditionally, and on a
rejection the local `newState` was never assigned, so the snapshot becomes
`undefined`.  Concretely: mutation 0 settles with payload 5, mutation 1
fails — the snapshot is then absent, and a read issued after the slot is
idle resolves with `undefined`, not with the last successfully settled
snapshot 5. -/
theorem C2_counterexample :
    (run [Cmd.reduce false, Cmd.settle (Outcome.ok 5), Cmd.reduce false,
      Cmd.settle (Outcome.err 7)]).slot.state = none
  ∧ (run [Cmd.reduce false, Cmd.settle (Outcome.ok 5), Cmd.reduce false,
      Cmd.settle (Outcome.err 7)]).settledOutcomes =
      [Outcome.ok 5, Outcome.err 7]
  ∧ Event.getterResolved ⟨0, GetterKind.plain⟩ none ∈
      (run [Cmd.reduce false, Cmd.settle (Outcome.ok 5), Cmd.reduce false,
        Cmd.settle (Outcome.err 7), Cmd.getState]).trace :=
  ⟨by decide, by decide, by decide⟩

/-- C2 amended: when a transform fails, the slot's snapshot is set to the
absent value (`undefined`) — not left at its prior value — and every read
resolution delivers exactly the payload of the slot's snapshot at
resolution time, so reads resolved after a failure return the absent
value rather than the last successfully settled snapshot. -/
theorem C2_failure_resets_state (cs : List Cmd) (e : Err) (c : Cmd) :
    ((run cs).awaiting.isSome = true →
      (step (run cs) (.settle (.err e))).slot.state = none)
  ∧ (∃ ext, (step (run cs) c).trace = (run cs).trace ++ ext ∧
      ∀ g v, Event.getterResolved g v ∈ ext →
        v.map Obj.val = (step (run cs) c).slot.state.map Obj.val) := by
  refine ⟨?_, step_read_values (run cs) c⟩
  intro h
  cases ha : (run cs).awaiting with
  | none => rw [ha] at h; cases h
  | some rid =>
    simp only [step, settleStep, ha]
    cases hq : (settleApply (run cs) rid (.err e)).slot.deferredReducers with
    | nil =>
      rw [state_drainEnd]
      rfl
    | cons rid2 rest => rfl

/-- Witness for C2's amended statement: with one transform in flight, a
failed settle leaves the snapshot absent. -/
theorem C2_failure_resets_state_witness :
    (run [Cmd.reduce false]).awaiting.isSome = true
  ∧ (step (run [Cmd.reduce false])
      (Cmd.settle (Outcome.err 7))).slot.state = none :=
  ⟨by decide,
    (C2_failure_resets_state [Cmd.reduce false] 7 Cmd.getState).1 (by decide)⟩

/-- C3 as stated is false: not every state value handed across the store
boundary is an independent clone of `current` — the active mutation
transform receives the stored snapshot object itself, because
`reduceDeferred` calls `reduceAsync(stateData.state, ...)` without cloning.
In this run the second transform is started with the very object
(allocation id 0) that is the slot's stored `current` at that moment, so
mutating the received value would mutate the stored snapshot. -/
theorem C3_counterexample :
    Event.transformStart 1 (some ⟨0, 5⟩) ∈
      (run [Cmd.reduce false, Cmd.settle (Outcome.ok 5),
        Cmd.reduce false]).trace
  ∧ (run [Cmd.reduce false, Cmd.settle (Outcome.ok 5),
      Cmd.reduce false]).slot.state = some ⟨0, 5⟩ :=
  ⟨by decide, by decide⟩

/-- C3 amended: every value handed to a reader, a replayed subscriber or a
fan-out delivery is an independent clone — handed-out objects are pairwise
distinct and never alias any snapshot ever stored in the slot (in
particular never the current one), so mutating a received value affects
neither the stored snapshot nor any other recipient's value — but the
active mutation transform is the exception: the object it receives is
always one of the stored snapshots itself, not a clone. -/
theorem C3_clone_independence (cs : List Cmd) :
    List.Pairwise (fun a b => a.id ≠ b.id) (handedObjs (run cs).trace)
  ∧ (∀ o ∈ handedObjs (run cs).trace, o.id ∉ (run cs).storedIds)
  ∧ (∀ o o', (run cs).slot.state = some o' →
      o ∈ handedObjs (run cs).trace → o.id ≠ o'.id)
  ∧ (∀ r o, Event.transformStart r (some o) ∈ (run cs).trace →
      o.id ∈ (run cs).storedIds) := by
  obtain ⟨h1, h2, h3, h4, h5, h6⟩ := freshInv_run cs
  refine ⟨?_, h5, ?_, h6⟩
  · exact h2.imp fun hab => Nat.ne_of_lt hab
  · intro o o' hst ho heq
    exact h5 o ho (heq ▸ h4 o' hst)

/-- Witness for C3's amended statement: in a concrete run the object the
second transform received is a stored snapshot id. -/
theorem C3_clone_independence_witness :
    Event.transformStart 1 (some ⟨0, 5⟩) ∈
      (run [Cmd.reduce false, Cmd.settle (Outcome.ok 5),
        Cmd.reduce false]).trace
  ∧ (0 : Nat) ∈ (run [Cmd.reduce false, Cmd.settle (Outcome.ok 5),
      Cmd.reduce false]).storedIds :=
  ⟨by decide,
    (C3_clone_independence [Cmd.reduce false, Cmd.settle (Outcome.ok 5),
      Cmd.reduce false]).2.2.2 1 ⟨0, 5⟩ (by decide)⟩

/-- C7 as stated is false: `internalReduce` sets `isStateInitiated = true`
at enqueue time, before any transform has run — merely enqueuing a
deferred (lazy) mutation that never executes already sets the flag, with
zero mutations completed and zero transforms even started. -/
theorem C7_counterexample :
    (run [Cmd.reduce true]).slot.isStateInitiated = true
  ∧ (run [Cmd.reduce true]).settledOutcomes = []
  ∧ (run [Cmd.reduce true]).startedInputs = [] :=
  ⟨by decide, by decide, by decide⟩

/-- C7 amended: the initialized flag is true exactly when at least one
mutation has ever been ENQUEUED for the key (via `reduce` or `lazyReduce`,
deferred or not), regardless of whether any has completed; `nextRid`
counts exactly the enqueued mutations. -/
theorem C7_initiated_flag (cs : List Cmd) :
    (run cs).slot.isStateInitiated = (0 < cs.countP isReduceCmd)
  ∧ (run cs).nextRid = cs.countP isReduceCmd :=
  ⟨initFlag_run cs, nextRid_run cs⟩

/-- Witness for C7's amended statement at a concrete run. -/
theorem C7_initiated_flag_witness :
    (run [Cmd.reduce true]).slot.isStateInitiated =
      (0 < [Cmd.reduce true].countP isReduceCmd) :=
  (C7_initiated_flag [Cmd.reduce true]).1

lemma debounce_loop {α : Type} (delay : Nat) :
    ∀ (rest : List (Nat × α)) (p last : Nat × α),
    List.Chain (fun p q => p.1 < q.1 ∧ q.1 < p.1 + delay) p rest →
    (p :: rest).getLast? = some last →
    rest.foldl (fun s c => DeferredTask.execute delay s c.1 c.2)
      ⟨some (p.1 + delay, p.2), []⟩ =
    (⟨some (last.1 + delay, last.2), []⟩ : DeferredTask α) := by
  intro rest
  induction rest with
  | nil =>
    intro p last _ hlast
    simp at hlast
    subst hlast
    rfl
  | cons q rest' ih =>
    intro p last hchain hlast
    rw [List.chain_cons] at hchain
    obtain ⟨⟨hpq1, hpq2⟩, hchain'⟩ := hchain
    have hstep : DeferredTask.execute delay
        (⟨some (p.1 + delay, p.2), []⟩ : DeferredTask α) q.1 q.2 =
        ⟨some (q.1 + delay, q.2), []⟩ := by
      unfold DeferredTask.execute
      simp
      omega
    rw [show (q :: rest').foldl
        (fun s c => DeferredTask.execute delay s c.1 c.2)
        (⟨some (p.1 + delay, p.2), []⟩ : DeferredTask α) =
      rest'.foldl (fun s c => DeferredTask.execute delay s c.1 c.2)
        (DeferredTask.execute delay ⟨some (p.1 + delay, p.2), []⟩ q.1 q.2)
      from rfl, hstep]
    exact ih q last hchain' (by rwa [List.getLast?_cons_cons] at hlast)

/-- C9: for every burst of `execute` calls within the delay window (each
call strictly later than the previous one but before the previous call's
timer fires), each call cancels the pending timer and reschedules, so the
wrapped work executes exactly once, with the arguments of the last call of
the burst, one full delay window after that last call. -/
theorem C9_debounce {α : Type} (delay : Nat) (c0 : Nat × α)
    (rest : List (Nat × α)) (last : Nat × α)
    (hchain : List.Chain (fun p q => p.1 < q.1 ∧ q.1 < p.1 + delay) c0 rest)
    (hlast : (c0 :: rest).getLast? = some last) :
    debounceRun delay (c0 :: rest) = [(last.1 + delay, last.2)] := by
  unfold debounceRun
  have h1 : DeferredTask.execute delay DeferredTask.empty c0.1 c0.2 =
      (⟨some (c0.1 + delay, c0.2), []⟩ : DeferredTask α) := rfl
  rw [show (c0 :: rest).foldl
      (fun s c => DeferredTask.execute delay s c.1 c.2)
      DeferredTask.empty =
    rest.foldl (fun s c => DeferredTask.execute delay s c.1 c.2)
      (DeferredTask.execute delay DeferredTask.empty c0.1 c0.2) from rfl,
    h1, debounce_loop delay rest c0 last hchain hlast]
  rfl

/-! ### Subscriber and suspension machinery (claims C5, C6, C8, C10) -/

/-- Does the getter deliver a replay to subscriber `sid`? -/
def replayGetterB (sid : Nat) (g : DeferredGetter) : Bool :=
  g.kind == GetterKind.replay sid

def qCount (l : List DeferredGetter) (sid : Nat) : Nat :=
  l.countP (replayGetterB sid)

/-- Number of queued replay getters for `sid` across both read queues. -/
def pendQ (m : Machine) (sid : Nat) : Nat :=
  qCount (m.slot.deferredGetters ++ m.slot.suspendedGetters) sid

def isReplayEvt (sid : Nat) : Event → Bool
  | .replayed s _ => s == sid
  | _ => false

/-- Number of replay deliveries to `sid` recorded in the trace. -/
def replayedN (t : List Event) (sid : Nat) : Nat :=
  t.countP (isReplayEvt sid)

def isCompletionEvt : Event → Bool
  | .mutResolved _ => true
  | .mutRejected _ _ => true
  | _ => false

/-- Projection of read-resolution events: the getter and the payload it
received. -/
def getterEvt : Event → Option (DeferredGetter × Option V)
  | .getterResolved g v => some (g, v.map Obj.val)
  | _ => none

lemma qCount_append (a b : List DeferredGetter) (sid : Nat) :
    qCount (a ++ b) sid = qCount a sid + qCount b sid := by
  simp [qCount, List.countP_append]

lemma replayedN_append (t u : List Event) (sid : Nat) :
    replayedN (t ++ u) sid = replayedN t sid + replayedN u sid := by
  simp [replayedN, List.countP_append]

lemma replayedN_no (sid : Nat) (ext : List Event)
    (h : ∀ v, Event.replayed sid v ∉ ext) : replayedN ext sid = 0 := by
  rw [replayedN, List.countP_eq_zero]
  intro e he
  cases e <;> simp [isReplayEvt]
  rintro rfl
  exact absurd he (h _)

/-- The subscriber `sid` has not yet appeared anywhere: not in the
subscriber list, no replay delivered, no fan-out delivery, no list
insertion recorded. -/
def SidFresh (m : Machine) (sid : Nat) : Prop :=
  sid ∉ m.slot.subscribers ∧ replayedN m.trace sid = 0 ∧
  (∀ v, Event.notified sid v ∉ m.trace) ∧
  Event.subAdded sid ∉ m.trace

/-- A replay-origin subscriber whose replay getter is still queued. -/
def SidPending (m : Machine) (sid : Nat) : Prop :=
  pendQ m sid = 1 ∧ SidFresh m sid

/-- A replay-origin subscriber whose replay getter has been resolved but
whose replay continuation has not yet run (intermediate state inside a
resolution step). -/
def Armed (m : Machine) (sid : Nat) : Prop :=
  pendQ m sid = 0 ∧ SidFresh m sid

/-- A replay-origin subscriber whose replay has been delivered: exactly one
replay event, and every fan-out delivery and the list insertion occur
after it in the trace. -/
def SidDone (m : Machine) (sid : Nat) : Prop :=
  pendQ m sid = 0 ∧ replayedN m.trace sid = 1 ∧
  ∃ t1 v t2, m.trace = t1 ++ Event.replayed sid v :: t2 ∧
    (∀ w, Event.notified sid w ∉ t1) ∧ Event.subAdded sid ∉ t1

/-- Structural clauses of the subscriber invariant: queue getters have
distinct gids below the gid counter; queued replay getters belong to
replay-origin subscribers; all recorded sids are below the sid counter;
no subscriber is both replay-origin and direct-origin. -/
def SubBase (m : Machine) : Prop :=
  ((m.slot.deferredGetters ++ m.slot.suspendedGetters).map
    DeferredGetter.gid).Nodup
  ∧ (∀ g ∈ m.slot.deferredGetters ++ m.slot.suspendedGetters,
      g.gid < m.nextGid)
  ∧ (∀ g ∈ m.slot.deferredGetters ++ m.slot.suspendedGetters,
      ∀ sid, g.kind = GetterKind.replay sid → sid ∈ m.replayOrigin)
  ∧ (∀ sid ∈ m.replayOrigin, sid < m.nextSid)
  ∧ (∀ sid ∈ m.directOrigin, sid < m.nextSid)
  ∧ (∀ sid ∈ m.slot.subscribers, sid < m.nextSid)
  ∧ (∀ sid v, Event.replayed sid v ∈ m.trace → sid < m.nextSid)
  ∧ (∀ sid, Event.subAdded sid ∈ m.trace → sid < m.nextSid)
  ∧ (∀ sid v, Event.notified sid v ∈ m.trace → sid < m.nextSid)
  ∧ (∀ sid ∈ m.replayOrigin, sid ∉ m.directOrigin)

/-- The subscriber/suspension invariant: structural clauses; directly added
subscribers are never replayed; and every replay-origin subscriber is
either still pending or done. -/
def SubInv (m : Machine) : Prop :=
  SubBase m
  ∧ (∀ sid ∈ m.directOrigin,
      replayedN m.trace sid = 0 ∧ pendQ m sid = 0)
  ∧ (∀ sid ∈ m.replayOrigin, SidPending m sid ∨ SidDone m sid)

lemma resolveAux_conts_fst (st : Option Obj) :
    ∀ (gs : List DeferredGetter) (f : Nat),
    (resolveAux st f gs).2.2.map Prod.fst = gs := by
  intro gs
  induction gs with
  | nil => intro f; rfl
  | cons g rest ih =>
    intro f
    rw [show (resolveAux st f (g :: rest)).2.2 =
      (g, (safeClone st f).1) ::
        (resolveAux st (safeClone st f).2 rest).2.2 from rfl]
    simp [ih]

lemma resolveAux_getterEvt (st : Option Obj) :
    ∀ (gs : List DeferredGetter) (f : Nat),
    (resolveAux st f gs).2.1.filterMap getterEvt =
      gs.map (fun g => (g, st.map Obj.val)) := by
  intro gs
  induction gs with
  | nil => intro f; rfl
  | cons g rest ih =>
    intro f
    rw [show (resolveAux st f (g :: rest)).2.1 =
      Event.getterResolved g (safeClone st f).1 ::
        (resolveAux st (safeClone st f).2 rest).2.1 from rfl]
    rw [List.filterMap_cons]
    have hval : ((safeClone st f).1).map Obj.val = st.map Obj.val := by
      cases st <;> simp [safeClone]
    simp [getterEvt, hval, ih]

lemma resolveAux_getters_mem (st : Option Obj) :
    ∀ (gs : List DeferredGetter) (f : Nat) (g : DeferredGetter)
      (v : Option Obj),
    Event.getterResolved g v ∈ (resolveAux st f gs).2.1 → g ∈ gs := by
  intro gs
  induction gs with
  | nil => intro f g v h; simp [resolveAux] at h
  | cons g0 rest ih =>
    intro f g v h
    rw [show (resolveAux st f (g0 :: rest)).2.1 =
      Event.getterResolved g0 (safeClone st f).1 ::
        (resolveAux st (safeClone st f).2 rest).2.1 from rfl] at h
    rcases List.mem_cons.mp h with h | h
    · simp at h
      simp [h.1]
    · exact List.mem_cons_of_mem _ (ih _ g v h)

/-- Replay conts pending for `sid` in a continuation list. -/
def ctsSids (cts : List (DeferredGetter × Option Obj)) (sid : Nat) : Nat :=
  qCount (cts.map Prod.fst) sid

/-- The subscriber states mid-resolution: every replay-origin subscriber is
either untouched by the scheduled continuations (and pending or done), or
armed with exactly one scheduled replay continuation. -/
def MidSub (m : Machine) (cts : List (DeferredGetter × Option Obj)) : Prop :=
  ∀ sid ∈ m.replayOrigin,
    (ctsSids cts sid = 0 ∧ (SidPending m sid ∨ SidDone m sid))
    ∨ (ctsSids cts sid = 1 ∧ Armed m sid)

def CtsOk (R : List Nat) (cts : List (DeferredGetter × Option Obj)) : Prop :=
  ∀ p ∈ cts, ∀ sid, p.1.kind = GetterKind.replay sid → sid ∈ R

lemma sidFresh_mono {m m' : Machine} {sid : Nat}
    (hsub : sid ∈ m'.slot.subscribers → sid ∈ m.slot.subscribers)
    (ext : List Event) (htr : m'.trace = m.trace ++ ext)
    (h1 : ∀ v, Event.replayed sid v ∉ ext)
    (h2 : ∀ v, Event.notified sid v ∉ ext)
    (h3 : Event.subAdded sid ∉ ext) :
    SidFresh m sid → SidFresh m' sid := by
  rintro ⟨p1, p2, p3, p4⟩
  refine ⟨fun hx => p1 (hsub hx), ?_, ?_, ?_⟩
  · rw [htr, replayedN_append, p2, replayedN_no sid ext h1]
  · intro v hv
    rw [htr] at hv
    rcases List.mem_append.mp hv with hv | hv
    · exact p3 v hv
    · exact h2 v hv
  · intro hv
    rw [htr] at hv
    rcases List.mem_append.mp hv with hv | hv
    · exact p4 hv
    · exact h3 hv

lemma sidDone_mono {m m' : Machine} {sid : Nat}
    (hq : pendQ m' sid = pendQ m sid)
    (ext : List Event) (htr : m'.trace = m.trace ++ ext)
    (h1 : ∀ v, Event.replayed sid v ∉ ext) :
    SidDone m sid → SidDone m' sid := by
  rintro ⟨p1, p2, t1, v, t2, hdec, hnot, hadd⟩
  refine ⟨hq.trans p1, ?_, t1, v, t2 ++ ext, ?_, hnot, hadd⟩
  · rw [htr, replayedN_append, p2, replayedN_no sid ext h1]
  · rw [htr, hdec]
    simp

lemma runCont_no_getter_trace (m : Machine)
    (c : DeferredGetter × Option Obj) :
    ∃ ext, (runCont m c).trace = m.trace ++ ext ∧
      (∀ sid v, Event.replayed sid v ∈ ext →
        c.1.kind = GetterKind.replay sid) ∧
      (∀ sid, Event.subAdded sid ∈ ext →
        c.1.kind = GetterKind.replay sid) ∧
      (∀ sid v, Event.notified sid v ∉ ext) ∧
      (∀ g v, Event.getterResolved g v ∉ ext) := by
  obtain ⟨⟨gid0, k⟩, v⟩ := c
  cases k with
  | plain => exact ⟨[], by simp [runCont], by simp, by simp, by simp, by simp⟩
  | susp =>
    refine ⟨[.suspendEffect], rfl, ?_, ?_, ?_, ?_⟩ <;> (intros; simp_all)
  | replay s =>
    refine ⟨[.replayed s (safeClone v m.fresh).1, .subAdded s], rfl,
      ?_, ?_, ?_, ?_⟩ <;> (intros; simp_all)

/-- What `runConts` does to the machine: only the trace (replay deliveries,
list insertions, suspend effects), the subscriber list (appending sids of
scheduled replay continuations), the suspension flag and the fresh counter
change. -/
lemma runConts_char : ∀ (cts : List (DeferredGetter × Option Obj))
    (m : Machine),
    (runConts m cts).slot.deferredGetters = m.slot.deferredGetters
  ∧ (runConts m cts).slot.suspendedGetters = m.slot.suspendedGetters
  ∧ (runConts m cts).replayOrigin = m.replayOrigin
  ∧ (runConts m cts).directOrigin = m.directOrigin
  ∧ (runConts m cts).nextSid = m.nextSid
  ∧ (runConts m cts).nextGid = m.nextGid
  ∧ ∃ ext sapp, (runConts m cts).trace = m.trace ++ ext
      ∧ (runConts m cts).slot.subscribers = m.slot.subscribers ++ sapp
      ∧ (∀ sid v, Event.replayed sid v ∈ ext → 0 < ctsSids cts sid)
      ∧ (∀ sid, Event.subAdded sid ∈ ext → 0 < ctsSids cts sid)
      ∧ (∀ sid v, Event.notified sid v ∉ ext)
      ∧ (∀ g v, Event.getterResolved g v ∉ ext)
      ∧ (∀ s ∈ sapp, 0 < ctsSids cts s) := by
  intro cts
  induction cts with
  | nil =>
    intro m
    refine ⟨rfl, rfl, rfl, rfl, rfl, rfl, [], [], by simp [runConts], by
      simp [runConts], by simp, by simp, by simp, by simp, by simp⟩
  | cons c rest ih =>
    intro m
    obtain ⟨q1, q2, q3, q4, q5, q6, ext, sapp, htr, hsub, hr, ha, hn, hg,
      hsapp⟩ := ih (runCont m c)
    have hcont : ∃ e0 s0, (runCont m c).trace = m.trace ++ e0 ∧
        (runCont m c).slot.subscribers = m.slot.subscribers ++ s0 ∧
        (runCont m c).slot.deferredGetters = m.slot.deferredGetters ∧
        (runCont m c).slot.suspendedGetters = m.slot.suspendedGetters ∧
        (runCont m c).replayOrigin = m.replayOrigin ∧
        (runCont m c).directOrigin = m.directOrigin ∧
        (runCont m c).nextSid = m.nextSid ∧
        (runCont m c).nextGid = m.nextGid ∧
        (∀ sid v, Event.replayed sid v ∈ e0 →
          c.1.kind = GetterKind.replay sid) ∧
        (∀ sid, Event.subAdded sid ∈ e0 →
          c.1.kind = GetterKind.replay sid) ∧
        (∀ sid v, Event.notified sid v ∉ e0) ∧
        (∀ g v, Event.getterResolved g v ∉ e0) ∧
        (∀ s ∈ s0, c.1.kind = GetterKind.replay s) := by
      obtain ⟨⟨gid0, k⟩, v⟩ := c
      cases k with
      | plain =>
        exact ⟨[], [], by simp [runCont], by simp [runCont], rfl, rfl, rfl,
          rfl, rfl, rfl, by simp, by simp, by simp, by simp, by simp⟩
      | susp =>
        refine ⟨[.suspendEffect], [], rfl, by simp [runCont], rfl, rfl, rfl,
          rfl, rfl, rfl, ?_, ?_, ?_, ?_, ?_⟩ <;> (intros; simp_all)
      | replay s =>
        refine ⟨[.replayed s (safeClone v m.fresh).1, .subAdded s], [s],
          rfl, rfl, rfl, rfl, rfl, rfl, rfl, rfl, ?_, ?_, ?_, ?_, ?_⟩ <;>
          (intros; simp_all)
    obtain ⟨e0, s0, c1, c2, c3, c4, c5, c6, c7, c8, c9, c10, c11, c12,
      c13⟩ := hcont
    have hstep : runConts m (c :: rest) = runConts (runCont m c) rest := rfl
    have hcount : ∀ sid, c.1.kind = GetterKind.replay sid →
        0 < ctsSids (c :: rest) sid := by
      intro sid hk
      rw [show ctsSids (c :: rest) sid =
        (if replayGetterB sid c.1 then 1 else 0) + ctsSids rest sid from by
          simp [ctsSids, qCount, List.countP_cons, Nat.add_comm]]
      have : replayGetterB sid c.1 = true := by
        simp [replayGetterB, hk]
      simp [this]
    have hcount2 : ∀ sid, 0 < ctsSids rest sid →
        0 < ctsSids (c :: rest) sid := by
      intro sid h
      have : ctsSids (c :: rest) sid =
          (if replayGetterB sid c.1 then 1 else 0) + ctsSids rest sid := by
        simp [ctsSids, qCount, List.countP_cons, Nat.add_comm]
      omega
    refine ⟨hstep ▸ q1.trans c3, hstep ▸ q2.trans c4, hstep ▸ q3.trans c5,
      hstep ▸ q4.trans c6, hstep ▸ q5.trans c7, hstep ▸ q6.trans c8,
      e0 ++ ext, s0 ++ sapp, ?_, ?_, ?_, ?_, ?_, ?_, ?_⟩
    · rw [hstep, htr, c1, List.append_assoc]
    · rw [hstep, hsub, c2, List.append_assoc]
    · intro sid v hv
      rcases List.mem_append.mp hv with hv | hv
      · exact hcount sid (c9 sid v hv)
      · exact hcount2 sid (hr sid v hv)
    · intro sid hv
      rcases List.mem_append.mp hv with hv | hv
      · exact hcount sid (c10 sid hv)
      · exact hcount2 sid (ha sid hv)
    · intro sid v hv
      rcases List.mem_append.mp hv with hv | hv
      · exact c11 sid v hv
      · exact hn sid v hv
    · intro g v hv
      rcases List.mem_append.mp hv with hv | hv
      · exact c12 g v hv
      · exact hg g v hv
    · intro s hs
      rcases List.mem_append.mp hs with hs | hs
      · exact hcount s (c13 s hs)
      · exact hcount2 s (hsapp s hs)

lemma ctsSids_cons (c : DeferredGetter × Option Obj)
    (rest : List (DeferredGetter × Option Obj)) (sid : Nat) :
    ctsSids (c :: rest) sid =
      ctsSids rest sid +
        (if c.1.kind = GetterKind.replay sid then 1 else 0) := by
  simp [ctsSids, qCount, List.countP_cons, replayGetterB, beq_iff_eq]

lemma qCount_zero {l : List DeferredGetter} {sid : Nat}
    (h : ∀ g ∈ l, g.kind ≠ GetterKind.replay sid) : qCount l sid = 0 := by
  rw [qCount, List.countP_eq_zero]
  intro g hg
  simp only [replayGetterB, beq_iff_eq]
  exact h g hg

lemma resolveAux_events_shape (st : Option Obj) :
    ∀ (gs : List DeferredGetter) (f : Nat) (e : Event),
    e ∈ (resolveAux st f gs).2.1 → ∃ g v, e = Event.getterResolved g v := by
  intro gs
  induction gs with
  | nil => intro f e h; simp [resolveAux] at h
  | cons g rest ih =>
    intro f e h
    rw [show (resolveAux st f (g :: rest)).2.1 =
      Event.getterResolved g (safeClone st f).1 ::
        (resolveAux st (safeClone st f).2 rest).2.1 from rfl] at h
    rcases List.mem_cons.mp h with h | h
    · exact ⟨g, _, h⟩
    · exact ih _ e h

lemma notifyAux_events_shape (st : Option Obj) :
    ∀ (l : List Nat) (f : Nat) (e : Event),
    e ∈ (notifyAux st f l).2 → ∃ s ∈ l, ∃ v, e = Event.notified s v := by
  intro l
  induction l with
  | nil => intro f e h; simp [notifyAux] at h
  | cons s rest ih =>
    intro f e h
    rw [show (notifyAux st f (s :: rest)).2 =
      Event.notified s (safeClone st f).1 ::
        (notifyAux st (safeClone st f).2 rest).2 from rfl] at h
    rcases List.mem_cons.mp h with h | h
    · exact ⟨s, List.mem_cons_self s rest, _, h⟩
    · obtain ⟨s', hs', v, hv⟩ := ih _ e h
      exact ⟨s', List.mem_cons_of_mem _ hs', v, hv⟩

/-- The invariant in the middle of a resolution step, with the microtask
continuations `cts` still to run. -/
def SubMid (m : Machine) (cts : List (DeferredGetter × Option Obj)) : Prop :=
  SubBase m
  ∧ CtsOk m.replayOrigin cts
  ∧ (∀ sid ∈ m.directOrigin,
      replayedN m.trace sid = 0 ∧ pendQ m sid = 0 ∧ ctsSids cts sid = 0)
  ∧ MidSub m cts

lemma subMid_nil_iff (m : Machine) : SubMid m [] ↔ SubInv m := by
  constructor
  · rintro ⟨hb, _, hd, hr⟩
    refine ⟨hb, fun sid hs => ⟨(hd sid hs).1, (hd sid hs).2.1⟩,
      fun sid hs => ?_⟩
    rcases hr sid hs with ⟨_, h⟩ | ⟨hc, _⟩
    · exact h
    · simp [ctsSids, qCount] at hc
  · rintro ⟨hb, hd, hr⟩
    refine ⟨hb, fun p hp => absurd hp (List.not_mem_nil p),
      fun sid hs => ⟨(hd sid hs).1, (hd sid hs).2, by simp [ctsSids, qCount]⟩,
      fun sid hs => Or.inl ⟨by simp [ctsSids, qCount], hr sid hs⟩⟩

/-- Structural clauses are stable when the queues, subscriber list and
origin records are preserved and the new trace events stay below the sid
counter. -/
lemma subBase_frame {m m' : Machine}
    (hdG : m'.slot.deferredGetters = m.slot.deferredGetters)
    (hsG : m'.slot.suspendedGetters = m.slot.suspendedGetters)
    (hrO : m'.replayOrigin = m.replayOrigin)
    (hdO : m'.directOrigin = m.directOrigin)
    (hGid : m'.nextGid = m.nextGid)
    (hSid : m'.nextSid = m.nextSid)
    (hsubs : ∀ sid ∈ m'.slot.subscribers,
      sid ∈ m.slot.subscribers ∨ sid < m.nextSid)
    (ext : List Event) (htr : m'.trace = m.trace ++ ext)
    (hext : ∀ e ∈ ext,
      (∀ sid v, e = Event.replayed sid v → sid < m.nextSid) ∧
      (∀ sid, e = Event.subAdded sid → sid < m.nextSid) ∧
      (∀ sid v, e = Event.notified sid v → sid < m.nextSid))
    (h : SubBase m) : SubBase m' := by
  obtain ⟨b1, b2, b3, b4, b5, b6, b7, b8, b9, b10⟩ := h
  refine ⟨?_, ?_, ?_, ?_, ?_, ?_, ?_, ?_, ?_, ?_⟩
  · rw [hdG, hsG]; exact b1
  · rw [hdG, hsG, hGid]; exact b2
  · rw [hdG, hsG, hrO]; exact b3
  · rw [hrO, hSid]; exact b4
  · rw [hdO, hSid]; exact b5
  · intro sid hs
    rw [hSid]
    rcases hsubs sid hs with h | h
    · exact b6 sid h
    · exact h
  · intro sid v hv
    rw [hSid]
    rw [htr] at hv
    rcases List.mem_append.mp hv with hv | hv
    · exact b7 sid v hv
    · exact (hext _ hv).1 sid v rfl
  · intro sid hv
    rw [hSid]
    rw [htr] at hv
    rcases List.mem_append.mp hv with hv | hv
    · exact b8 sid hv
    · exact (hext _ hv).2.1 sid rfl
  · intro sid v hv
    rw [hSid]
    rw [htr] at hv
    rcases List.mem_append.mp hv with hv | hv
    · exact b9 sid v hv
    · exact (hext _ hv).2.2 sid v rfl
  · rw [hrO, hdO]; exact b10

/-- The full invariant is stable under pure-frame steps: queues, subscriber
list, origin records and counters untouched, no subscriber-related trace
events added. -/
lemma subInv_frame {m m' : Machine}
    (hdG : m'.slot.deferredGetters = m.slot.deferredGetters)
    (hsG : m'.slot.suspendedGetters = m.slot.suspendedGetters)
    (hsubs : m'.slot.subscribers = m.slot.subscribers)
    (hrO : m'.replayOrigin = m.replayOrigin)
    (hdO : m'.directOrigin = m.directOrigin)
    (hGid : m'.nextGid = m.nextGid)
    (hSid : m'.nextSid = m.nextSid)
    (ext : List Event) (htr : m'.trace = m.trace ++ ext)
    (hR : ∀ sid v, Event.replayed sid v ∉ ext)
    (hA : ∀ sid, Event.subAdded sid ∉ ext)
    (hN : ∀ sid v, Event.notified sid v ∉ ext)
    (h : SubInv m) : SubInv m' := by
  obtain ⟨hb, hd, hr⟩ := h
  have hpend : ∀ sid, pendQ m' sid = pendQ m sid := by
    intro sid; rw [pendQ, pendQ, hdG, hsG]
  refine ⟨subBase_frame hdG hsG hrO hdO hGid hSid
      (fun sid hs => Or.inl (hsubs ▸ hs)) ext htr ?_ hb, ?_, ?_⟩
  · intro e he
    refine ⟨?_, ?_, ?_⟩
    · intro sid v hv; exact absurd (hv ▸ he) (hR sid v)
    · intro sid hv; exact absurd (hv ▸ he) (hA sid)
    · intro sid v hv; exact absurd (hv ▸ he) (hN sid v)
  · intro sid hs
    rw [hdO] at hs
    obtain ⟨x1, x2⟩ := hd sid hs
    refine ⟨?_, (hpend sid).trans x2⟩
    rw [htr, replayedN_append, x1, replayedN_no sid ext (fun v => hR sid v)]
  · intro sid hs
    rw [hrO] at hs
    rcases hr sid hs with ⟨hp, hf⟩ | hdone
    · exact Or.inl ⟨(hpend sid).trans hp,
        sidFresh_mono (fun hx => hsubs ▸ hx) ext htr (hR sid) (hN sid)
          (hA sid) hf⟩
    · exact Or.inr (sidDone_mono (hpend sid) ext htr (fun v => hR sid v)
        hdone)

/-- Core of the resolution entry: extracting `gs` from the queues and
resolving them turns the invariant into the mid-resolution invariant for
the scheduled continuations. -/
lemma submid_resolve_core (m : Machine) (gs sg : List DeferredGetter)
    (hq : m.slot.deferredGetters ++ m.slot.suspendedGetters = gs ++ sg)
    (h : SubInv m) :
    SubMid
      { m with
        slot := { m.slot with deferredGetters := [], suspendedGetters := sg },
        fresh := (resolveAux m.slot.state m.fresh gs).1,
        trace := m.trace ++ (resolveAux m.slot.state m.fresh gs).2.1 }
      (resolveAux m.slot.state m.fresh gs).2.2 := by
  obtain ⟨⟨b1, b2, b3, b4, b5, b6, b7, b8, b9, b10⟩, hd, hr⟩ := h
  have hfst : ((resolveAux m.slot.state m.fresh gs).2.2).map Prod.fst = gs :=
    resolveAux_conts_fst _ _ _
  have hevR : ∀ sid v,
      Event.replayed sid v ∉ (resolveAux m.slot.state m.fresh gs).2.1 := by
    intro sid v hv
    obtain ⟨g, w, he⟩ := resolveAux_events_shape _ _ _ _ hv
    exact Event.noConfusion he
  have hevA : ∀ sid,
      Event.subAdded sid ∉ (resolveAux m.slot.state m.fresh gs).2.1 := by
    intro sid hv
    obtain ⟨g, w, he⟩ := resolveAux_events_shape _ _ _ _ hv
    exact Event.noConfusion he
  have hevN : ∀ sid v,
      Event.notified sid v ∉ (resolveAux m.slot.state m.fresh gs).2.1 := by
    intro sid v hv
    obtain ⟨g, w, he⟩ := resolveAux_events_shape _ _ _ _ hv
    exact Event.noConfusion he
  have hcts : ∀ sid, ctsSids (resolveAux m.slot.state m.fresh gs).2.2 sid =
      qCount gs sid := by
    intro sid
    rw [ctsSids, hfst]
  have hsplit : ∀ sid, pendQ m sid = qCount gs sid + qCount sg sid := by
    intro sid
    rw [pendQ, hq, qCount_append]
  have hpend' : ∀ sid,
      pendQ { m with
        slot := { m.slot with deferredGetters := [], suspendedGetters := sg },
        fresh := (resolveAux m.slot.state m.fresh gs).1,
        trace := m.trace ++ (resolveAux m.slot.state m.fresh gs).2.1 } sid =
      qCount sg sid := by
    intro sid
    simp [pendQ, qCount]
  have hmemq : ∀ g ∈ gs,
      g ∈ m.slot.deferredGetters ++ m.slot.suspendedGetters := by
    intro g hg
    rw [hq]
    exact List.mem_append.mpr (Or.inl hg)
  have hmemsg : ∀ g ∈ sg,
      g ∈ m.slot.deferredGetters ++ m.slot.suspendedGetters := by
    intro g hg
    rw [hq]
    exact List.mem_append.mpr (Or.inr hg)
  refine ⟨⟨?_, ?_, ?_, b4, b5, b6, ?_, ?_, ?_, b10⟩, ?_, ?_, ?_⟩
  · show (([] ++ sg).map DeferredGetter.gid).Nodup
    rw [List.nil_append]
    exact List.Nodup.sublist
      ((List.sublist_append_right gs sg).map DeferredGetter.gid) (hq ▸ b1)
  · intro g hg
    exact b2 g (hmemsg g (by simpa using hg))
  · intro g hg sid hkind
    exact b3 g (hmemsg g (by simpa using hg)) sid hkind
  · intro sid v hv
    rcases List.mem_append.mp hv with hv | hv
    · exact b7 sid v hv
    · exact absurd hv (hevR sid v)
  · intro sid hv
    rcases List.mem_append.mp hv with hv | hv
    · exact b8 sid hv
    · exact absurd hv (hevA sid)
  · intro sid v hv
    rcases List.mem_append.mp hv with hv | hv
    · exact b9 sid v hv
    · exact absurd hv (hevN sid v)
  · intro p hp sid hkind
    have hpfst : p.1 ∈ gs := by
      rw [← hfst]
      exact List.mem_map_of_mem Prod.fst hp
    exact b3 p.1 (hmemq _ hpfst) sid hkind
  · intro sid hs
    obtain ⟨x1, x2⟩ := hd sid hs
    have hz := hsplit sid
    refine ⟨?_, ?_, ?_⟩
    · rw [replayedN_append, x1,
        replayedN_no sid _ (fun v => hevR sid v)]
    · rw [hpend' sid]; omega
    · rw [hcts sid]; omega
  · intro sid hs
    have hz := hsplit sid
    rcases hr sid hs with ⟨hp1, hfr⟩ | ⟨hp0, hrn, t1, v, t2, hdec, hn1, ha1⟩
    · rw [hp1] at hz
      have hfr' : SidFresh
          { m with
            slot := { m.slot with
                        deferredGetters := [], suspendedGetters := sg },
            fresh := (resolveAux m.slot.state m.fresh gs).1,
            trace := m.trace ++ (resolveAux m.slot.state m.fresh gs).2.1 }
          sid :=
        sidFresh_mono
          (show _ → sid ∈ m.slot.subscribers from fun hx => hx)
          ((resolveAux m.slot.state m.fresh gs).2.1)
          (show _ = m.trace ++ (resolveAux m.slot.state m.fresh gs).2.1
            from rfl) (hevR sid)
          (hevN sid) (hevA sid) hfr
      rcases Nat.eq_zero_or_pos (qCount gs sid) with hg0 | hgpos
      · refine Or.inl ⟨by rw [hcts sid, hg0], Or.inl ⟨?_, hfr'⟩⟩
        rw [hpend' sid]; omega
      · refine Or.inr ⟨by rw [hcts sid]; omega, ?_, hfr'⟩
        rw [hpend' sid]; omega
    · rw [hp0] at hz
      refine Or.inl ⟨by rw [hcts sid]; omega, Or.inr ?_⟩
      refine ⟨by rw [hpend' sid]; omega, ?_,
        t1, v, t2 ++ (resolveAux m.slot.state m.fresh gs).2.1, ?_, hn1, ha1⟩
      · show replayedN (m.trace ++ (resolveAux m.slot.state m.fresh gs).2.1)
          sid = 1
        rw [replayedN_append, hrn,
          replayedN_no sid _ (fun v => hevR sid v)]
      · show m.trace ++ (resolveAux m.slot.state m.fresh gs).2.1 =
          t1 ++ Event.replayed sid v :: (t2 ++ _)
        rw [hdec]
        simp

lemma submid_resolve {m : Machine} (h : SubInv m) :
    SubMid (resolveDefferedGetters m).1 (resolveDefferedGetters m).2 := by
  cases hsusp : m.slot.isStateSuspended
  · have heq : resolveDefferedGetters m =
        ({ m with
            slot := { m.slot with
                        deferredGetters := [],
                        suspendedGetters := [] },
            fresh := (resolveAux m.slot.state m.fresh
              (m.slot.deferredGetters ++ m.slot.suspendedGetters)).1,
            trace := m.trace ++ (resolveAux m.slot.state m.fresh
              (m.slot.deferredGetters ++ m.slot.suspendedGetters)).2.1 },
          (resolveAux m.slot.state m.fresh
            (m.slot.deferredGetters ++ m.slot.suspendedGetters)).2.2) := by
      simp [resolveDefferedGetters, hsusp]
    rw [heq]
    exact submid_resolve_core m
      (m.slot.deferredGetters ++ m.slot.suspendedGetters) []
      (by simp) h
  · have heq : resolveDefferedGetters m =
        ({ m with
            slot := { m.slot with
                        deferredGetters := [],
                        suspendedGetters := m.slot.suspendedGetters },
            fresh := (resolveAux m.slot.state m.fresh
              m.slot.deferredGetters).1,
            trace := m.trace ++ (resolveAux m.slot.state m.fresh
              m.slot.deferredGetters).2.1 },
          (resolveAux m.slot.state m.fresh
            m.slot.deferredGetters).2.2) := by
      simp [resolveDefferedGetters, hsusp]
    rw [heq]
    exact submid_resolve_core m m.slot.deferredGetters
      m.slot.suspendedGetters rfl h

/-- The mid-resolution invariant survives the subscriber fan-out: only
already-listed subscribers are notified, and pending or armed subscribers
are not yet listed. -/
lemma submid_notify {m : Machine}
    {cts : List (DeferredGetter × Option Obj)} (h : SubMid m cts) :
    SubMid (notifySubscribers m) cts := by
  obtain ⟨hb, hcts, hd, hmid⟩ := h
  have hsh : ∀ e ∈ (notifyAux m.slot.state m.fresh m.slot.subscribers).2,
      ∃ s ∈ m.slot.subscribers, ∃ v, e = Event.notified s v :=
    fun e he => notifyAux_events_shape _ _ _ e he
  have hevR : ∀ sid v, Event.replayed sid v ∉
      (notifyAux m.slot.state m.fresh m.slot.subscribers).2 := by
    intro sid v hv
    obtain ⟨s, _, w, he⟩ := hsh _ hv
    exact Event.noConfusion he
  have hevA : ∀ sid, Event.subAdded sid ∉
      (notifyAux m.slot.state m.fresh m.slot.subscribers).2 := by
    intro sid hv
    obtain ⟨s, _, w, he⟩ := hsh _ hv
    exact Event.noConfusion he
  have hevN : ∀ sid, sid ∉ m.slot.subscribers → ∀ v,
      Event.notified sid v ∉
        (notifyAux m.slot.state m.fresh m.slot.subscribers).2 := by
    intro sid hns v hv
    obtain ⟨s, hs, w, he⟩ := hsh _ hv
    cases he
    exact hns hs
  have htr : (notifySubscribers m).trace =
      m.trace ++ (notifyAux m.slot.state m.fresh m.slot.subscribers).2 := rfl
  have hpend : ∀ sid, pendQ (notifySubscribers m) sid = pendQ m sid :=
    fun _ => rfl
  have hb6 : ∀ sid ∈ m.slot.subscribers, sid < m.nextSid := hb.2.2.2.2.2.1
  refine ⟨?_, hcts, ?_, ?_⟩
  · refine subBase_frame ?_ ?_ ?_ ?_ ?_ ?_ ?_ _ htr ?_ hb
    · rfl
    · rfl
    · rfl
    · rfl
    · rfl
    · rfl
    · exact fun sid hs => Or.inl hs
    intro e he
    obtain ⟨s, hs, w, hew⟩ := hsh _ he
    subst hew
    refine ⟨?_, ?_, ?_⟩
    · intro sid v hv; exact Event.noConfusion hv
    · intro sid hv; exact Event.noConfusion hv
    · intro sid v hv
      cases hv
      exact hb6 s hs
  · intro sid hs
    obtain ⟨x1, x2, x3⟩ := hd sid hs
    refine ⟨?_, (hpend sid).trans x2, x3⟩
    rw [htr, replayedN_append, x1,
      replayedN_no sid _ (fun v => hevR sid v)]
  · intro sid hs
    rcases hmid sid hs with ⟨hc0, hpd | hdone⟩ | ⟨hc1, harm⟩
    · refine Or.inl ⟨hc0, Or.inl ⟨(hpend sid).trans hpd.1, ?_⟩⟩
      exact sidFresh_mono
        (show _ → sid ∈ m.slot.subscribers from fun hx => hx) _ htr
        (hevR sid) (hevN sid hpd.2.1) (hevA sid) hpd.2
    · exact Or.inl ⟨hc0, Or.inr (sidDone_mono (hpend sid) _ htr
        (fun v => hevR sid v) hdone)⟩
    · refine Or.inr ⟨hc1, (hpend sid).trans harm.1, ?_⟩
      exact sidFresh_mono
        (show _ → sid ∈ m.slot.subscribers from fun hx => hx) _ htr
        (hevR sid) (hevN sid harm.2.1) (hevA sid) harm.2

/-- Running one scheduled continuation consumes its head entry of the
mid-resolution invariant. -/
lemma submid_runCont {m : Machine} {c : DeferredGetter × Option Obj}
    {rest : List (DeferredGetter × Option Obj)}
    (h : SubMid m (c :: rest)) : SubMid (runCont m c) rest := by
  obtain ⟨hb, hcts, hd, hmid⟩ := h
  have hcons : ∀ sid, ctsSids (c :: rest) sid =
      ctsSids rest sid +
        (if c.1.kind = GetterKind.replay sid then 1 else 0) :=
    ctsSids_cons c rest
  obtain ⟨⟨gid0, k⟩, v⟩ := c
  cases k with
  | plain =>
    show SubMid m rest
    have hc0 : ∀ sid, ctsSids
        ((⟨⟨gid0, GetterKind.plain⟩, v⟩ : DeferredGetter × Option Obj)
          :: rest) sid = ctsSids rest sid := by
      intro sid
      rw [hcons sid]
      simp
    refine ⟨hb, fun p hp => hcts p (List.mem_cons_of_mem _ hp), ?_, ?_⟩
    · intro sid hs
      obtain ⟨x1, x2, x3⟩ := hd sid hs
      exact ⟨x1, x2, by rw [← hc0 sid]; exact x3⟩
    · intro sid hs
      rcases hmid sid hs with ⟨hz, hpd⟩ | ⟨ho, ha⟩
      · exact Or.inl ⟨(hc0 sid).symm.trans hz, hpd⟩
      · exact Or.inr ⟨(hc0 sid).symm.trans ho, ha⟩
  | susp =>
    show SubMid
      { m with
        slot := { m.slot with isStateSuspended := true },
        trace := m.trace ++ [.suspendEffect] } rest
    have hc0 : ∀ sid, ctsSids
        ((⟨⟨gid0, GetterKind.susp⟩, v⟩ : DeferredGetter × Option Obj)
          :: rest) sid = ctsSids rest sid := by
      intro sid
      rw [hcons sid]
      simp
    have htr : ({ m with
        slot := { m.slot with isStateSuspended := true },
        trace := m.trace ++ [.suspendEffect] } : Machine).trace =
      m.trace ++ [.suspendEffect] := rfl
    have hevR : ∀ sid v, Event.replayed sid v ∉ [Event.suspendEffect] := by
      intro sid v hv
      exact Event.noConfusion (List.mem_singleton.mp hv)
    have hevA : ∀ sid, Event.subAdded sid ∉ [Event.suspendEffect] := by
      intro sid hv
      exact Event.noConfusion (List.mem_singleton.mp hv)
    have hevN : ∀ sid v, Event.notified sid v ∉ [Event.suspendEffect] := by
      intro sid v hv
      exact Event.noConfusion (List.mem_singleton.mp hv)
    refine ⟨?_, fun p hp => hcts p (List.mem_cons_of_mem _ hp), ?_, ?_⟩
    · refine subBase_frame ?_ ?_ ?_ ?_ ?_ ?_ ?_ _ htr ?_ hb
      · rfl
      · rfl
      · rfl
      · rfl
      · rfl
      · rfl
      · exact fun sid hs => Or.inl hs
      intro e he
      rcases List.mem_singleton.mp he with rfl
      refine ⟨?_, ?_, ?_⟩
      · intro sid v hv; exact Event.noConfusion hv
      · intro sid hv; exact Event.noConfusion hv
      · intro sid v hv; exact Event.noConfusion hv
    · intro sid hs
      obtain ⟨x1, x2, x3⟩ := hd sid hs
      refine ⟨?_, x2, by rw [← hc0 sid]; exact x3⟩
      rw [htr, replayedN_append, x1,
        replayedN_no sid _ (fun v => hevR sid v)]
    · intro sid hs
      rcases hmid sid hs with ⟨hz, hpd | hdone⟩ | ⟨ho, ha⟩
      · exact Or.inl ⟨(hc0 sid).symm.trans hz, Or.inl ⟨hpd.1,
          sidFresh_mono
            (show _ → sid ∈ m.slot.subscribers from fun hx => hx) _ htr
            (hevR sid) (hevN sid) (hevA sid) hpd.2⟩⟩
      · exact Or.inl ⟨(hc0 sid).symm.trans hz, Or.inr
          (sidDone_mono (show _ = pendQ m sid from rfl) _ htr
            (fun v => hevR sid v) hdone)⟩
      · exact Or.inr ⟨(hc0 sid).symm.trans ho, ha.1,
          sidFresh_mono
            (show _ → sid ∈ m.slot.subscribers from fun hx => hx) _ htr
            (hevR sid) (hevN sid) (hevA sid) ha.2⟩
  | replay s =>
    show SubMid
      { m with
        fresh := (safeClone v m.fresh).2,
        slot := { m.slot with
                    subscribers := m.slot.subscribers ++ [s] },
        trace := m.trace ++
          [.replayed s (safeClone v m.fresh).1, .subAdded s] } rest
    have hsO : s ∈ m.replayOrigin :=
      hcts ⟨⟨gid0, GetterKind.replay s⟩, v⟩ (List.mem_cons_self _ _) s rfl
    have hslt : s < m.nextSid := hb.2.2.2.1 s hsO
    have hsdO : s ∉ m.directOrigin := hb.2.2.2.2.2.2.2.2.2 s hsO
    have hcemma : ctsSids
        ((⟨⟨gid0, GetterKind.replay s⟩, v⟩ : DeferredGetter × Option Obj)
          :: rest) s = ctsSids rest s + 1 := by
      rw [hcons s]
      simp
    have hcne : ∀ sid, sid ≠ s → ctsSids
        ((⟨⟨gid0, GetterKind.replay s⟩, v⟩ : DeferredGetter × Option Obj)
          :: rest) sid = ctsSids rest sid := by
      intro sid hne
      rw [hcons sid]
      simp [GetterKind.replay.injEq]
      omega
    have harm : ctsSids rest s = 0 ∧ Armed m s := by
      rcases hmid s hsO with ⟨hz, _⟩ | ⟨ho, ha⟩
      · rw [hcemma] at hz
        omega
      · rw [hcemma] at ho
        exact ⟨by omega, ha⟩
    obtain ⟨hrest0, hpend0, hfr⟩ := harm
    obtain ⟨f1, f2, f3, f4⟩ := hfr
    have htr : ({ m with
        fresh := (safeClone v m.fresh).2,
        slot := { m.slot with
                    subscribers := m.slot.subscribers ++ [s] },
        trace := m.trace ++
          [.replayed s (safeClone v m.fresh).1, .subAdded s] }
        : Machine).trace =
      m.trace ++ [.replayed s (safeClone v m.fresh).1, .subAdded s] := rfl
    have hextR : ∀ sid, sid ≠ s → ∀ w, Event.replayed sid w ∉
        [Event.replayed s (safeClone v m.fresh).1, Event.subAdded s] := by
      intro sid hne w hv
      rcases List.mem_cons.mp hv with hv | hv
      · cases hv
        exact hne rfl
      · exact Event.noConfusion (List.mem_singleton.mp hv)
    have hextA : ∀ sid, sid ≠ s → Event.subAdded sid ∉
        [Event.replayed s (safeClone v m.fresh).1, Event.subAdded s] := by
      intro sid hne hv
      rcases List.mem_cons.mp hv with hv | hv
      · exact Event.noConfusion hv
      · cases List.mem_singleton.mp hv
        exact hne rfl
    have hextN : ∀ sid w, Event.notified sid w ∉
        [Event.replayed s (safeClone v m.fresh).1, Event.subAdded s] := by
      intro sid w hv
      rcases List.mem_cons.mp hv with hv | hv
      · exact Event.noConfusion hv
      · exact Event.noConfusion (List.mem_singleton.mp hv)
    refine ⟨?_, fun p hp => hcts p (List.mem_cons_of_mem _ hp), ?_, ?_⟩
    · refine subBase_frame ?_ ?_ ?_ ?_ ?_ ?_ ?_ _ htr ?_ hb
      · rfl
      · rfl
      · rfl
      · rfl
      · rfl
      · rfl
      · intro sid hs
        rcases List.mem_append.mp hs with hs | hs
        · exact Or.inl hs
        · cases List.mem_singleton.mp hs
          exact Or.inr hslt
      intro e he
      rcases List.mem_cons.mp he with rfl | he
      · refine ⟨?_, ?_, ?_⟩
        · intro sid w hv
          cases hv
          exact hslt
        · intro sid hv; exact Event.noConfusion hv
        · intro sid w hv; exact Event.noConfusion hv
      · cases List.mem_singleton.mp he
        refine ⟨?_, ?_, ?_⟩
        · intro sid w hv; exact Event.noConfusion hv
        · intro sid hv
          cases hv
          exact hslt
        · intro sid w hv; exact Event.noConfusion hv
    · intro sid hs
      have hne : sid ≠ s := fun he => hsdO (he ▸ hs)
      obtain ⟨x1, x2, x3⟩ := hd sid hs
      refine ⟨?_, x2, by rw [← hcne sid hne]; exact x3⟩
      rw [htr, replayedN_append, x1,
        replayedN_no sid _ (fun w => hextR sid hne w)]
    · intro sid hs
      by_cases hne : sid = s
      · subst hne
        refine Or.inl ⟨hrest0, Or.inr ⟨hpend0, ?_, m.trace,
          (safeClone v m.fresh).1, [Event.subAdded sid], rfl, f3, f4⟩⟩
        rw [htr, replayedN_append, f2]
        simp [replayedN, List.countP_cons, isReplayEvt]
      · rcases hmid sid hs with ⟨hz, hpd | hdone⟩ | ⟨ho, ha⟩
        · refine Or.inl ⟨(hcne sid hne).symm.trans hz, Or.inl ⟨hpd.1, ?_⟩⟩
          refine sidFresh_mono ?_ _ htr (hextR sid hne) (hextN sid)
            (hextA sid hne) hpd.2
          intro hx
          rcases List.mem_append.mp hx with hx | hx
          · exact hx
          · exact absurd (List.mem_singleton.mp hx) hne
        · exact Or.inl ⟨(hcne sid hne).symm.trans hz, Or.inr
            (sidDone_mono (show _ = pendQ m sid from rfl) _ htr
              (fun w => hextR sid hne w) hdone)⟩
        · refine Or.inr ⟨(hcne sid hne).symm.trans ho, ha.1, ?_⟩
          refine sidFresh_mono ?_ _ htr (hextR sid hne) (hextN sid)
            (hextA sid hne) ha.2
          intro hx
          rcases List.mem_append.mp hx with hx | hx
          · exact hx
          · exact absurd (List.mem_singleton.mp hx) hne

lemma subInv_runConts : ∀ (cts : List (DeferredGetter × Option Obj))
    (m : Machine), SubMid m cts → SubInv (runConts m cts) := by
  intro cts
  induction cts with
  | nil =>
    intro m h
    exact (subMid_nil_iff m).mp h
  | cons c rest ih =>
    intro m h
    exact ih (runCont m c) (submid_runCont h)

/-- The queueing prefix of `internalGetState` (storage.ts lines 214-222):
allocate the getter and push it onto the queue selected by the suspension
flag. -/
def pushG (m : Machine) (k : GetterKind) : Machine :=
  { m with
    slot :=
      if m.slot.isStateSuspended then
        { m.slot with
            suspendedGetters :=
              m.slot.suspendedGetters ++ [⟨m.nextGid, k⟩] }
      else
        { m.slot with
            deferredGetters :=
              m.slot.deferredGetters ++ [⟨m.nextGid, k⟩] },
    nextGid := m.nextGid + 1 }

lemma internalGetState_eq (m : Machine) (k : GetterKind) :
    internalGetState m k = resolvePhase (driveReduce (pushG m k)) := rfl

lemma pushG_queue_perm (m : Machine) (k : GetterKind) :
    ((pushG m k).slot.deferredGetters ++
        (pushG m k).slot.suspendedGetters).Perm
      ((m.slot.deferredGetters ++ m.slot.suspendedGetters) ++
        [⟨m.nextGid, k⟩]) := by
  cases hsusp : m.slot.isStateSuspended
  · rw [show (pushG m k).slot.deferredGetters =
        m.slot.deferredGetters ++ [⟨m.nextGid, k⟩] from by
          simp [pushG, hsusp],
      show (pushG m k).slot.suspendedGetters =
        m.slot.suspendedGetters from by simp [pushG, hsusp],
      List.append_assoc, List.append_assoc]
    exact List.Perm.append_left _ List.perm_append_comm
  · rw [show (pushG m k).slot.deferredGetters =
        m.slot.deferredGetters from by simp [pushG, hsusp],
      show (pushG m k).slot.suspendedGetters =
        m.slot.suspendedGetters ++ [⟨m.nextGid, k⟩] from by
          simp [pushG, hsusp],
      ← List.append_assoc]

lemma pushG_subs (m : Machine) (k : GetterKind) :
    (pushG m k).slot.subscribers = m.slot.subscribers := by
  cases hsusp : m.slot.isStateSuspended <;> simp [pushG, hsusp]

lemma pendQ_pushG (m : Machine) (k : GetterKind) (sid : Nat) :
    pendQ (pushG m k) sid =
      pendQ m sid + (if k = GetterKind.replay sid then 1 else 0) := by
  rw [pendQ, pendQ, qCount, qCount,
    (pushG_queue_perm m k).countP_eq, List.countP_append]
  simp [List.countP_cons, replayGetterB, beq_iff_eq]

lemma subBase_pushG {m : Machine} {k : GetterKind}
    (hk : ∀ sid, k = GetterKind.replay sid → sid ∈ m.replayOrigin)
    (h : SubBase m) : SubBase (pushG m k) := by
  obtain ⟨b1, b2, b3, b4, b5, b6, b7, b8, b9, b10⟩ := h
  have hperm := pushG_queue_perm m k
  have hmem : ∀ g ∈ (pushG m k).slot.deferredGetters ++
      (pushG m k).slot.suspendedGetters,
      g ∈ m.slot.deferredGetters ++ m.slot.suspendedGetters ∨
        g = ⟨m.nextGid, k⟩ := by
    intro g hg
    rcases List.mem_append.mp (hperm.mem_iff.mp hg) with h | h
    · exact Or.inl h
    · exact Or.inr (List.mem_singleton.mp h)
  refine ⟨?_, ?_, ?_, b4, b5, ?_, b7, b8, b9, b10⟩
  · refine ((hperm.map DeferredGetter.gid).nodup_iff).mpr ?_
    rw [List.map_append]
    refine List.Nodup.append b1 (List.nodup_singleton _) ?_
    intro a ha
    simp only [List.mem_map] at ha
    obtain ⟨g, hg, rfl⟩ := ha
    simp only [List.map_cons, List.map_nil, List.mem_singleton]
    exact Nat.ne_of_lt (b2 g hg)
  · intro g hg
    show g.gid < m.nextGid + 1
    rcases hmem g hg with h | h
    · exact Nat.lt_succ_of_lt (b2 g h)
    · subst h
      exact Nat.lt_succ_self _
  · intro g hg sid hkind
    rcases hmem g hg with h | h
    · exact b3 g h sid hkind
    · subst h
      exact hk sid hkind
  · intro sid hs
    rw [pushG_subs] at hs
    exact b6 sid hs

lemma subInv_pushG {m : Machine} {k : GetterKind}
    (hk : ∀ sid, k ≠ GetterKind.replay sid) (h : SubInv m) :
    SubInv (pushG m k) := by
  obtain ⟨hb, hd, hr⟩ := h
  have hpend : ∀ sid, pendQ (pushG m k) sid = pendQ m sid := by
    intro sid
    rw [pendQ_pushG]
    simp [hk sid]
  refine ⟨subBase_pushG (fun sid hs => absurd hs (hk sid)) hb, ?_, ?_⟩
  · intro sid hs
    obtain ⟨x1, x2⟩ := hd sid hs
    exact ⟨x1, (hpend sid).trans x2⟩
  · intro sid hs
    rcases hr sid hs with ⟨hp, hf⟩ | hdone
    · refine Or.inl ⟨(hpend sid).trans hp, ?_⟩
      refine sidFresh_mono ?_ []
        ((List.append_nil m.trace).symm) ?_ ?_ ?_ hf
      · intro hx
        rwa [pushG_subs] at hx
      · intro v hv; exact absurd hv (List.not_mem_nil _)
      · intro v hv; exact absurd hv (List.not_mem_nil _)
      · intro hv; exact absurd hv (List.not_mem_nil _)
    · refine Or.inr (sidDone_mono ((hpend sid).trans ?_) []
        ((List.append_nil m.trace).symm) ?_ hdone)
      · rfl
      · intro v hv; exact absurd hv (List.not_mem_nil _)

lemma subInv_startNext {m : Machine} (rid : Nat) (rest : List Nat)
    (h : SubInv m) : SubInv (startNext m rid rest) := by
  refine subInv_frame ?_ ?_ ?_ ?_ ?_ ?_ ?_
    [.transformStart rid m.slot.state] ?_ ?_ ?_ ?_ h
  · rfl
  · rfl
  · rfl
  · rfl
  · rfl
  · rfl
  · rfl
  · rfl
  · intro sid v hv
    exact Event.noConfusion (List.mem_singleton.mp hv)
  · intro sid hv
    exact Event.noConfusion (List.mem_singleton.mp hv)
  · intro sid v hv
    exact Event.noConfusion (List.mem_singleton.mp hv)

lemma subInv_driveReduce {m : Machine} (h : SubInv m) :
    SubInv (driveReduce m) := by
  unfold driveReduce
  split
  · exact h
  · split
    · exact h
    · exact subInv_startNext _ _ h

lemma subInv_settleApply {m : Machine} (rid : Nat) (out : Outcome)
    (h : SubInv m) : SubInv (settleApply m rid out) := by
  cases out with
  | ok v =>
    refine subInv_frame ?_ ?_ ?_ ?_ ?_ ?_ ?_
      [.mutResolved rid] ?_ ?_ ?_ ?_ h
    · rfl
    · rfl
    · rfl
    · rfl
    · rfl
    · rfl
    · rfl
    · rfl
    · intro sid w hv
      exact Event.noConfusion (List.mem_singleton.mp hv)
    · intro sid hv
      exact Event.noConfusion (List.mem_singleton.mp hv)
    · intro sid w hv
      exact Event.noConfusion (List.mem_singleton.mp hv)
  | err e =>
    refine subInv_frame ?_ ?_ ?_ ?_ ?_ ?_ ?_
      [.mutRejected rid e] ?_ ?_ ?_ ?_ h
    · rfl
    · rfl
    · rfl
    · rfl
    · rfl
    · rfl
    · rfl
    · rfl
    · intro sid w hv
      exact Event.noConfusion (List.mem_singleton.mp hv)
    · intro sid hv
      exact Event.noConfusion (List.mem_singleton.mp hv)
    · intro sid w hv
      exact Event.noConfusion (List.mem_singleton.mp hv)

lemma subInv_resolvePhase {m1 : Machine} (h : SubInv m1) :
    SubInv (resolvePhase m1) := by
  unfold resolvePhase
  split
  · exact h
  · exact subInv_runConts _ _ (submid_resolve h)

lemma subInv_drainEnd {m1 : Machine} (h : SubInv m1) :
    SubInv (drainEnd m1) := by
  have h2 : SubMid (notifySubscribers (resolveDefferedGetters m1).1)
      (resolveDefferedGetters m1).2 := submid_notify (submid_resolve h)
  exact subInv_runConts _ _ h2

lemma subInv_settleStep {m : Machine} (out : Outcome) (h : SubInv m) :
    SubInv (settleStep m out) := by
  cases ha : m.awaiting with
  | none => simpa [settleStep, ha] using h
  | some rid =>
    simp only [settleStep, ha]
    cases hq : (settleApply m rid out).slot.deferredReducers with
    | nil => exact subInv_drainEnd (subInv_settleApply rid out h)
    | cons rid2 rest =>
      exact subInv_startNext _ _ (subInv_settleApply rid out h)

lemma subInv_internalGetState {m : Machine} {k : GetterKind}
    (hk : ∀ sid, k ≠ GetterKind.replay sid) (h : SubInv m) :
    SubInv (internalGetState m k) := by
  rw [internalGetState_eq]
  exact subInv_resolvePhase (subInv_driveReduce (subInv_pushG hk h))

lemma pendQ_fresh_sid {m : Machine} (h : SubInv m) :
    pendQ m m.nextSid = 0 := by
  obtain ⟨⟨b1, b2, b3, b4, b5, b6, b7, b8, b9, b10⟩, hd, hr⟩ := h
  rw [pendQ]
  refine qCount_zero ?_
  intro g hg hcontra
  exact absurd (b4 m.nextSid (b3 g hg m.nextSid hcontra))
    (lt_irrefl m.nextSid)

lemma subInv_attach_true {m : Machine} (h : SubInv m) :
    SubInv (attachStep m true) := by
  rw [attachStep_true, internalGetState_eq]
  apply subInv_resolvePhase
  apply subInv_driveReduce
  have hq0 : pendQ m m.nextSid = 0 := pendQ_fresh_sid h
  obtain ⟨⟨b1, b2, b3, b4, b5, b6, b7, b8, b9, b10⟩, hd, hr⟩ := h
  have hbA : SubBase
      { m with
          nextSid := m.nextSid + 1,
          replayOrigin := m.replayOrigin ++ [m.nextSid] } := by
    refine ⟨b1, b2, ?_, ?_, ?_, ?_, ?_, ?_, ?_, ?_⟩
    · intro g hg sid hkind
      exact List.mem_append.mpr (Or.inl (b3 g hg sid hkind))
    · intro sid hs
      rcases List.mem_append.mp hs with hs | hs
      · exact Nat.lt_succ_of_lt (b4 sid hs)
      · cases List.mem_singleton.mp hs
        exact Nat.lt_succ_self _
    · intro sid hs
      exact Nat.lt_succ_of_lt (b5 sid hs)
    · intro sid hs
      exact Nat.lt_succ_of_lt (b6 sid hs)
    · intro sid v hv
      exact Nat.lt_succ_of_lt (b7 sid v hv)
    · intro sid hv
      exact Nat.lt_succ_of_lt (b8 sid hv)
    · intro sid v hv
      exact Nat.lt_succ_of_lt (b9 sid v hv)
    · intro sid hs
      rcases List.mem_append.mp hs with hs | hs
      · exact b10 sid hs
      · cases List.mem_singleton.mp hs
        intro hmem
        exact absurd (b5 _ hmem) (lt_irrefl _)
  have hne_of_lt : ∀ sid, sid < m.nextSid →
      (GetterKind.replay m.nextSid = GetterKind.replay sid → False) := by
    intro sid hlt he
    injection he with he2
    exact absurd (he2 ▸ hlt) (lt_irrefl _)
  have hpend' : ∀ sid, sid < m.nextSid →
      pendQ (pushG
        { m with
            nextSid := m.nextSid + 1,
            replayOrigin := m.replayOrigin ++ [m.nextSid] }
        (GetterKind.replay m.nextSid)) sid = pendQ m sid := by
    intro sid hlt
    rw [pendQ_pushG]
    rw [if_neg (hne_of_lt sid hlt)]
    exact Nat.add_zero _
  refine ⟨subBase_pushG ?_ hbA, ?_, ?_⟩
  · intro sid hkind
    injection hkind with he
    exact he ▸ List.mem_append.mpr (Or.inr (List.mem_singleton.mpr rfl))
  · intro sid hs
    obtain ⟨x1, x2⟩ := hd sid hs
    exact ⟨x1, (hpend' sid (b5 sid hs)).trans x2⟩
  · intro sid hs
    rcases List.mem_append.mp hs with hs | hs
    · have hlt := b4 sid hs
      rcases hr sid hs with ⟨hp, hf⟩ | hdone
      · refine Or.inl ⟨(hpend' sid hlt).trans hp, ?_⟩
        refine sidFresh_mono ?_ [] ((List.append_nil m.trace).symm)
          ?_ ?_ ?_ hf
        · intro hx
          rwa [pushG_subs] at hx
        · intro v hv; exact absurd hv (List.not_mem_nil _)
        · intro v hv; exact absurd hv (List.not_mem_nil _)
        · intro hv; exact absurd hv (List.not_mem_nil _)
      · refine Or.inr (sidDone_mono ((hpend' sid hlt).trans ?_) []
          ((List.append_nil m.trace).symm) ?_ hdone)
        · rfl
        · intro v hv; exact absurd hv (List.not_mem_nil _)
    · cases List.mem_singleton.mp hs
      refine Or.inl ⟨?_, ?_, ?_, ?_, ?_⟩
      · rw [pendQ_pushG, if_pos rfl]
        show pendQ m m.nextSid + 1 = 1
        rw [hq0]
      · rw [pushG_subs]
        intro hmem
        exact absurd (b6 _ hmem) (lt_irrefl _)
      · exact replayedN_no _ _
          (fun v hv => absurd (b7 _ v hv) (lt_irrefl _))
      · exact fun v hv => absurd (b9 _ v hv) (lt_irrefl _)
      · exact fun hv => absurd (b8 _ hv) (lt_irrefl _)

lemma subInv_attach_false {m : Machine} (h : SubInv m) :
    SubInv (attachStep m false) := by
  rw [attachStep_false]
  have hq0 : pendQ m m.nextSid = 0 := pendQ_fresh_sid h
  obtain ⟨⟨b1, b2, b3, b4, b5, b6, b7, b8, b9, b10⟩, hd, hr⟩ := h
  have hextR : ∀ sid v,
      Event.replayed sid v ∉ [Event.subAdded m.nextSid] := by
    intro sid v hv
    exact Event.noConfusion (List.mem_singleton.mp hv)
  have hextN : ∀ sid v,
      Event.notified sid v ∉ [Event.subAdded m.nextSid] := by
    intro sid v hv
    exact Event.noConfusion (List.mem_singleton.mp hv)
  refine ⟨⟨b1, b2, ?_, ?_, ?_, ?_, ?_, ?_, ?_, ?_⟩, ?_, ?_⟩
  · intro g hg sid hkind
    exact b3 g hg sid hkind
  · intro sid hs
    exact Nat.lt_succ_of_lt (b4 sid hs)
  · intro sid hs
    rcases List.mem_append.mp hs with hs | hs
    · exact Nat.lt_succ_of_lt (b5 sid hs)
    · cases List.mem_singleton.mp hs
      exact Nat.lt_succ_self _
  · intro sid hs
    rcases List.mem_append.mp hs with hs | hs
    · exact Nat.lt_succ_of_lt (b6 sid hs)
    · cases List.mem_singleton.mp hs
      exact Nat.lt_succ_self _
  · intro sid v hv
    rcases List.mem_append.mp hv with hv | hv
    · exact Nat.lt_succ_of_lt (b7 sid v hv)
    · exact absurd hv (hextR sid v)
  · intro sid hv
    rcases List.mem_append.mp hv with hv | hv
    · exact Nat.lt_succ_of_lt (b8 sid hv)
    · cases List.mem_singleton.mp hv
      exact Nat.lt_succ_self _
  · intro sid v hv
    rcases List.mem_append.mp hv with hv | hv
    · exact Nat.lt_succ_of_lt (b9 sid v hv)
    · exact absurd hv (hextN sid v)
  · intro sid hs hmem
    rcases List.mem_append.mp hmem with hm | hm
    · exact b10 sid hs hm
    · cases List.mem_singleton.mp hm
      exact absurd (b4 _ hs) (lt_irrefl _)
  · intro sid hs
    rcases List.mem_append.mp hs with hs | hs
    · obtain ⟨x1, x2⟩ := hd sid hs
      refine ⟨?_, x2⟩
      show replayedN (m.trace ++ [Event.subAdded m.nextSid]) sid = 0
      rw [replayedN_append, x1,
        replayedN_no sid _ (fun v => hextR sid v)]
    · cases List.mem_singleton.mp hs
      refine ⟨?_, hq0⟩
      show replayedN (m.trace ++ [Event.subAdded m.nextSid]) m.nextSid = 0
      rw [replayedN_append,
        replayedN_no _ m.trace
          (fun v hv => absurd (b7 _ v hv) (lt_irrefl _)),
        replayedN_no _ _ (fun v => hextR m.nextSid v)]
  · intro sid hs
    have hlt := b4 sid hs
    have hne : sid ≠ m.nextSid := Nat.ne_of_lt hlt
    have htr : ({ m with
        nextSid := m.nextSid + 1,
        directOrigin := m.directOrigin ++ [m.nextSid],
        slot := { m.slot with
                    subscribers := m.slot.subscribers ++ [m.nextSid] },
        trace := m.trace ++ [.subAdded m.nextSid] } : Machine).trace =
      m.trace ++ [Event.subAdded m.nextSid] := rfl
    have hsub : sid ∈ m.slot.subscribers ++ [m.nextSid] →
        sid ∈ m.slot.subscribers := by
      intro hx
      rcases List.mem_append.mp hx with hx | hx
      · exact hx
      · exact absurd (List.mem_singleton.mp hx) hne
    have hextA : Event.subAdded sid ∉ [Event.subAdded m.nextSid] := by
      intro hv
      cases List.mem_singleton.mp hv
      exact hne rfl
    rcases hr sid hs with ⟨hp, hf⟩ | hdone
    · exact Or.inl ⟨hp, sidFresh_mono hsub _ htr (hextR sid)
        (hextN sid) hextA hf⟩
    · exact Or.inr (sidDone_mono (show _ = pendQ m sid from rfl) _ htr
        (fun v => hextR sid v) hdone)

lemma subInv_subsShrink {m : Machine} (cl : List Nat) (subs' : List Nat)
    (hsubs : ∀ x ∈ subs', x ∈ m.slot.subscribers) (h : SubInv m) :
    SubInv { m with
      closed := cl,
      slot := { m.slot with subscribers := subs' } } := by
  obtain ⟨⟨b1, b2, b3, b4, b5, b6, b7, b8, b9, b10⟩, hd, hr⟩ := h
  refine ⟨⟨b1, b2, b3, b4, b5, ?_, b7, b8, b9, b10⟩, ?_, ?_⟩
  · intro sid hs
    exact b6 sid (hsubs sid hs)
  · intro sid hs
    exact hd sid hs
  · intro sid hs
    rcases hr sid hs with ⟨hp, hf⟩ | hdone
    · refine Or.inl ⟨hp, ?_⟩
      exact sidFresh_mono (fun hx => hsubs sid hx) []
        ((List.append_nil m.trace).symm)
        (fun v hv => absurd hv (List.not_mem_nil _))
        (fun v hv => absurd hv (List.not_mem_nil _))
        (fun hv => absurd hv (List.not_mem_nil _)) hf
    · exact Or.inr (sidDone_mono (show _ = pendQ m sid from rfl) []
        ((List.append_nil m.trace).symm)
        (fun v hv => absurd hv (List.not_mem_nil _)) hdone)

lemma subInv_step {m : Machine} (h : SubInv m) (c : Cmd) :
    SubInv (step m c) := by
  cases c with
  | reduce d =>
    simp only [step]
    split
    · exact h
    · exact subInv_driveReduce h
  | getState =>
    exact subInv_internalGetState
      (fun sid hk => GetterKind.noConfusion hk) h
  | suspend =>
    exact subInv_internalGetState
      (fun sid hk => GetterKind.noConfusion hk) h
  | createObservable => exact h
  | attach obs =>
    simp only [step]
    cases hf : lookupFlag m.obsFlags obs with
    | none => exact h
    | some flag =>
      cases flag with
      | true => exact subInv_attach_true h
      | false => exact subInv_attach_false h
  | unsubscribe sid =>
    simp only [step]
    split
    · cases hfind : m.slot.subscribers.findIdx? (· = sid) with
      | some i =>
        refine subInv_subsShrink _ _ ?_ h
        intro x hx
        rcases List.mem_append.mp hx with hx | hx
        · exact List.mem_of_mem_take hx
        · exact List.mem_of_mem_drop hx
      | none =>
        refine subInv_subsShrink _ _ ?_ h
        intro x hx
        exact List.mem_of_mem_take hx
    · exact h
  | settle out => exact subInv_settleStep out h

lemma subInv_initial : SubInv Machine.initial := by
  refine ⟨⟨?_, ?_, ?_, ?_, ?_, ?_, ?_, ?_, ?_, ?_⟩, ?_, ?_⟩ <;>
    simp [Machine.initial, StateData.initial, pendQ, qCount, replayedN]

lemma subInv_foldl : ∀ (cs : List Cmd) (m : Machine),
    SubInv m → SubInv (cs.foldl step m) := by
  intro cs
  induction cs with
  | nil => intro m h; exact h
  | cons c rest ih => intro m h; exact ih (step m c) (subInv_step h c)

lemma subInv_run (cs : List Cmd) : SubInv (run cs) :=
  subInv_foldl cs Machine.initial subInv_initial

/-- Witness for C9, the spec's own example: calls at t = 0, 50, 100 with
the default 300ms window yield exactly one execution, with the t = 100
call's argument, firing at t = 400. -/
theorem C9_debounce_witness :
    List.Chain
      (fun p q => p.1 < q.1 ∧ q.1 < p.1 + defaultDelayMilliseconds)
      ((0, 1) : Nat × Nat) [(50, 2), (100, 3)]
  ∧ debounceRun defaultDelayMilliseconds [(0, 1), (50, 2), (100, 3)] =
      [(400, 3)] :=
  ⟨by norm_num [List.chain_cons, defaultDelayMilliseconds],
    C9_debounce defaultDelayMilliseconds (0, 1) [(50, 2), (100, 3)] (100, 3)
      (by norm_num [List.chain_cons, defaultDelayMilliseconds]) (by decide)⟩

lemma findIdx_splice : ∀ (l : List Nat) (sid i : Nat),
    l.findIdx? (· = sid) = some i →
    ∃ l1 l2, l = l1 ++ sid :: l2 ∧ sid ∉ l1 ∧
      l.take i ++ l.drop (i + 1) = l1 ++ l2 := by
  intro l
  induction l with
  | nil =>
    intro sid i h
    simp [List.findIdx?] at h
  | cons a rest ih =>
    intro sid i h
    rw [List.findIdx?_cons] at h
    by_cases ha : a = sid
    · rw [if_pos (by simp [ha])] at h
      have hi : i = 0 := by
        cases h
        rfl
      subst hi
      subst ha
      exact ⟨[], rest, rfl, List.not_mem_nil _, by simp⟩
    · rw [if_neg (by simp [ha]), List.findIdx?_succ] at h
      obtain ⟨j, hj, hji⟩ := Option.map_eq_some'.mp h
      subst hji
      obtain ⟨l1, l2, hdec, hnot, hsplice⟩ := ih sid j hj
      refine ⟨a :: l1, l2, by rw [List.cons_append, hdec], ?_, ?_⟩
      · intro hm
        rcases List.mem_cons.mp hm with hm | hm
        · exact ha hm.symm
        · exact hnot hm
      · rw [List.take_succ_cons, List.drop_succ_cons, List.cons_append,
          hsplice]
        rfl

lemma obsFlags_runConts : ∀ (cts : List (DeferredGetter × Option Obj))
    (m : Machine), (runConts m cts).obsFlags = m.obsFlags := by
  intro cts
  induction cts with
  | nil => intro m; rfl
  | cons c rest ih =>
    intro m
    have h0 : (runCont m c).obsFlags = m.obsFlags := by
      obtain ⟨⟨gid0, k⟩, v⟩ := c
      cases k <;> rfl
    exact (ih (runCont m c)).trans h0

lemma obsFlags_driveReduce (m : Machine) :
    (driveReduce m).obsFlags = m.obsFlags := by
  unfold driveReduce
  split
  · rfl
  · split
    · rfl
    · rfl

lemma obsFlags_resolvePhase (m1 : Machine) :
    (resolvePhase m1).obsFlags = m1.obsFlags := by
  unfold resolvePhase
  split
  · rfl
  · exact (obsFlags_runConts _ _).trans rfl

lemma obsFlags_drainEnd (m1 : Machine) :
    (drainEnd m1).obsFlags = m1.obsFlags := by
  show (runConts _ _).obsFlags = m1.obsFlags
  exact (obsFlags_runConts _ _).trans rfl

lemma obsFlags_settleStep (m : Machine) (out : Outcome) :
    (settleStep m out).obsFlags = m.obsFlags := by
  cases ha : m.awaiting with
  | none => simp [settleStep, ha]
  | some rid =>
    simp only [settleStep, ha]
    cases hq : (settleApply m rid out).slot.deferredReducers with
    | nil => exact (obsFlags_drainEnd _).trans rfl
    | cons rid2 rest => rfl

lemma obsFlags_internalGetState (m : Machine) (k : GetterKind) :
    (internalGetState m k).obsFlags = m.obsFlags := by
  rw [internalGetState_eq]
  exact (obsFlags_resolvePhase _).trans
    ((obsFlags_driveReduce _).trans rfl)

lemma step_obsFlags (m : Machine) (c : Cmd) :
    ∃ app, (step m c).obsFlags = m.obsFlags ++ app := by
  cases c with
  | reduce d =>
    simp only [step]
    split
    · exact ⟨[], (List.append_nil _).symm⟩
    · exact ⟨[], (obsFlags_driveReduce _).trans (List.append_nil _).symm⟩
  | getState =>
    exact ⟨[], (obsFlags_internalGetState _ _).trans
      (List.append_nil _).symm⟩
  | suspend =>
    exact ⟨[], (obsFlags_internalGetState _ _).trans
      (List.append_nil _).symm⟩
  | createObservable =>
    exact ⟨[(m.nextObs,
      m.slot.isStateInitiated && !m.slot.isStateSuspended)], rfl⟩
  | attach obs =>
    simp only [step]
    cases lookupFlag m.obsFlags obs with
    | none => exact ⟨[], (List.append_nil _).symm⟩
    | some flag =>
      cases flag with
      | true =>
        refine ⟨[], ?_⟩
        show (attachStep m true).obsFlags = _
        rw [attachStep_true]
        exact (obsFlags_internalGetState _ _).trans
          (List.append_nil _).symm
      | false =>
        refine ⟨[], ?_⟩
        show (attachStep m false).obsFlags = _
        rw [attachStep_false]
        exact (List.append_nil _).symm
  | unsubscribe sid =>
    simp only [step]
    split
    · exact ⟨[], (List.append_nil _).symm⟩
    · exact ⟨[], (List.append_nil _).symm⟩
  | settle out =>
    exact ⟨[], (obsFlags_settleStep _ _).trans (List.append_nil _).symm⟩

lemma directOrigin_runConts (cts : List (DeferredGetter × Option Obj))
    (m : Machine) : (runConts m cts).directOrigin = m.directOrigin :=
  (runConts_char cts m).2.2.2.1

lemma directOrigin_driveReduce (m : Machine) :
    (driveReduce m).directOrigin = m.directOrigin := by
  unfold driveReduce
  split
  · rfl
  · split
    · rfl
    · rfl

lemma directOrigin_resolvePhase (m1 : Machine) :
    (resolvePhase m1).directOrigin = m1.directOrigin := by
  unfold resolvePhase
  split
  · rfl
  · exact (directOrigin_runConts _ _).trans rfl

lemma directOrigin_drainEnd (m1 : Machine) :
    (drainEnd m1).directOrigin = m1.directOrigin := by
  show (runConts _ _).directOrigin = m1.directOrigin
  exact (directOrigin_runConts _ _).trans rfl

lemma directOrigin_settleStep (m : Machine) (out : Outcome) :
    (settleStep m out).directOrigin = m.directOrigin := by
  cases ha : m.awaiting with
  | none => simp [settleStep, ha]
  | some rid =>
    simp only [settleStep, ha]
    cases hq : (settleApply m rid out).slot.deferredReducers with
    | nil => exact (directOrigin_drainEnd _).trans rfl
    | cons rid2 rest => rfl

lemma directOrigin_internalGetState (m : Machine) (k : GetterKind) :
    (internalGetState m k).directOrigin = m.directOrigin := by
  rw [internalGetState_eq]
  exact (directOrigin_resolvePhase _).trans
    ((directOrigin_driveReduce _).trans rfl)

lemma step_directOrigin (m : Machine) (c : Cmd) :
    ∃ app, (step m c).directOrigin = m.directOrigin ++ app := by
  cases c with
  | reduce d =>
    simp only [step]
    split
    · exact ⟨[], (List.append_nil _).symm⟩
    · exact ⟨[], (directOrigin_driveReduce _).trans
        (List.append_nil _).symm⟩
  | getState =>
    exact ⟨[], (directOrigin_internalGetState _ _).trans
      (List.append_nil _).symm⟩
  | suspend =>
    exact ⟨[], (directOrigin_internalGetState _ _).trans
      (List.append_nil _).symm⟩
  | createObservable => exact ⟨[], (List.append_nil _).symm⟩
  | attach obs =>
    simp only [step]
    cases lookupFlag m.obsFlags obs with
    | none => exact ⟨[], (List.append_nil _).symm⟩
    | some flag =>
      cases flag with
      | true =>
        refine ⟨[], ?_⟩
        show (attachStep m true).directOrigin = _
        rw [attachStep_true]
        exact (directOrigin_internalGetState _ _).trans
          (List.append_nil _).symm
      | false =>
        refine ⟨[m.nextSid], ?_⟩
        show (attachStep m false).directOrigin = _
        rw [attachStep_false]
  | unsubscribe sid =>
    simp only [step]
    split
    · exact ⟨[], (List.append_nil _).symm⟩
    · exact ⟨[], (List.append_nil _).symm⟩
  | settle out =>
    exact ⟨[], (directOrigin_settleStep _ _).trans
      (List.append_nil _).symm⟩

lemma obsFlags_foldl : ∀ (ext : List Cmd) (m : Machine),
    ∃ app, (ext.foldl step m).obsFlags = m.obsFlags ++ app := by
  intro ext
  induction ext with
  | nil => intro m; exact ⟨[], (List.append_nil _).symm⟩
  | cons c rest ih =>
    intro m
    obtain ⟨a1, h1⟩ := step_obsFlags m c
    obtain ⟨a2, h2⟩ := ih (step m c)
    exact ⟨a1 ++ a2, by rw [List.foldl_cons, h2, h1, List.append_assoc]⟩

lemma directOrigin_foldl : ∀ (ext : List Cmd) (m : Machine),
    ∃ app, (ext.foldl step m).directOrigin = m.directOrigin ++ app := by
  intro ext
  induction ext with
  | nil => intro m; exact ⟨[], (List.append_nil _).symm⟩
  | cons c rest ih =>
    intro m
    obtain ⟨a1, h1⟩ := step_directOrigin m c
    obtain ⟨a2, h2⟩ := ih (step m c)
    exact ⟨a1 ++ a2, by rw [List.foldl_cons, h2, h1, List.append_assoc]⟩

lemma lookupFlag_append (l app : List (Nat × Bool)) (obs : Nat) (b : Bool)
    (h : lookupFlag l obs = some b) :
    lookupFlag (l ++ app) obs = some b := by
  induction l with
  | nil => simp [lookupFlag] at h
  | cons p rest ih =>
    rw [lookupFlag] at h ⊢
    rw [List.cons_append]
    cases hp : (p.1 == obs) with
    | true =>
      simp only [List.find?, hp] at h ⊢
      exact h
    | false =>
      simp only [List.find?, hp] at h ⊢
      exact ih h

lemma run_append (cs ext : List Cmd) :
    run (cs ++ ext) = ext.foldl step (run cs) := by
  rw [run, run, List.foldl_append]

/-- C10: the replay-eligibility condition (initialized and not suspended)
is evaluated once, when the observable is created, not when a subscriber
attaches.  (1) A flag captured at creation never changes afterwards.
(2) Attaching through an observable whose captured flag is false pushes
the subscriber directly, with no replay read, and records it
direct-origin.  (3) A direct-origin subscriber is never replayed, at any
later point of any run — even if mutations complete in between.  (4) In a
concrete run, an observable obtained while eligible still replays its
subscriber although the slot was suspended before the attach. -/
theorem C10_flag_at_creation :
    (∀ (cs ext : List Cmd) (obs : Nat) (b : Bool),
      lookupFlag (run cs).obsFlags obs = some b →
      lookupFlag (run (cs ++ ext)).obsFlags obs = some b)
  ∧ (∀ (cs : List Cmd) (obs : Nat),
      lookupFlag (run cs).obsFlags obs = some false →
      (step (run cs) (.attach obs)).trace =
          (run cs).trace ++ [.subAdded (run cs).nextSid]
        ∧ (step (run cs) (.attach obs)).slot.subscribers =
          (run cs).slot.subscribers ++ [(run cs).nextSid]
        ∧ (run cs).nextSid ∈ (step (run cs) (.attach obs)).directOrigin)
  ∧ (∀ (cs ext : List Cmd) (sid : Nat),
      sid ∈ (run cs).directOrigin →
      sid ∈ (run (cs ++ ext)).directOrigin ∧
        replayedN (run (cs ++ ext)).trace sid = 0)
  ∧ (lookupFlag (run [Cmd.reduce false, Cmd.settle (Outcome.ok 1),
        Cmd.createObservable]).obsFlags 0 = some true
    ∧ (run [Cmd.reduce false, Cmd.settle (Outcome.ok 1),
        Cmd.createObservable, Cmd.suspend]).slot.isStateSuspended = true
    ∧ replayedN (run [Cmd.reduce false, Cmd.settle (Outcome.ok 1),
        Cmd.createObservable, Cmd.suspend, Cmd.attach 0,
        Cmd.reduce false, Cmd.settle (Outcome.ok 2)]).trace 0 = 1) := by
  refine ⟨?_, ?_, ?_, by decide, by decide, by decide⟩
  · intro cs ext obs b h
    rw [run_append]
    obtain ⟨app, happ⟩ := obsFlags_foldl ext (run cs)
    rw [happ]
    exact lookupFlag_append _ app obs b h
  · intro cs obs hlook
    have hstep : step (run cs) (.attach obs) = attachStep (run cs) false := by
      simp only [step, hlook]
    rw [hstep, attachStep_false]
    exact ⟨rfl, rfl, List.mem_append.mpr
      (Or.inr (List.mem_singleton.mpr rfl))⟩
  · intro cs ext sid hs
    rw [run_append]
    obtain ⟨app, happ⟩ := directOrigin_foldl ext (run cs)
    have hmem : sid ∈ (ext.foldl step (run cs)).directOrigin := by
      rw [happ]
      exact List.mem_append.mpr (Or.inl hs)
    refine ⟨hmem, ?_⟩
    have hinv := subInv_foldl ext (run cs) (subInv_run cs)
    exact (hinv.2.1 sid hmem).1

/-- Witness for C10 at concrete runs: an observable created before the
first mutation captures flag false; attaching through it after a mutation
has completed yields a direct push with no replay — and the subscriber is
still unreplayed after further mutations. -/
theorem C10_flag_at_creation_witness :
    lookupFlag (run [Cmd.createObservable, Cmd.reduce false,
        Cmd.settle (Outcome.ok 1)]).obsFlags 0 = some false
  ∧ (step (run [Cmd.createObservable, Cmd.reduce false,
        Cmd.settle (Outcome.ok 1)]) (.attach 0)).trace =
      (run [Cmd.createObservable, Cmd.reduce false,
        Cmd.settle (Outcome.ok 1)]).trace ++
        [.subAdded (run [Cmd.createObservable, Cmd.reduce false,
          Cmd.settle (Outcome.ok 1)]).nextSid]
  ∧ (0 ∈ (run ([Cmd.createObservable, Cmd.reduce false,
        Cmd.settle (Outcome.ok 1), Cmd.attach 0] ++
          [Cmd.reduce false, Cmd.settle (Outcome.ok 2)])).directOrigin ∧
      replayedN (run ([Cmd.createObservable, Cmd.reduce false,
        Cmd.settle (Outcome.ok 1), Cmd.attach 0] ++
          [Cmd.reduce false, Cmd.settle (Outcome.ok 2)])).trace 0 = 0) :=
  ⟨by decide,
    (C10_flag_at_creation.2.1 [Cmd.createObservable, Cmd.reduce false,
      Cmd.settle (Outcome.ok 1)] 0 (by decide)).1,
    C10_flag_at_creation.2.2.1 [Cmd.createObservable, Cmd.reduce false,
      Cmd.settle (Outcome.ok 1), Cmd.attach 0]
      [Cmd.reduce false, Cmd.settle (Outcome.ok 2)] 0 (by decide)⟩

lemma susp_driveReduce (m : Machine) :
    (driveReduce m).slot.isStateSuspended = m.slot.isStateSuspended := by
  unfold driveReduce
  split
  · rfl
  · split
    · rfl
    · rfl

lemma queues_driveReduce (m : Machine) :
    (driveReduce m).slot.deferredGetters = m.slot.deferredGetters ∧
    (driveReduce m).slot.suspendedGetters = m.slot.suspendedGetters := by
  unfold driveReduce
  split
  · exact ⟨rfl, rfl⟩
  · split
    · exact ⟨rfl, rfl⟩
    · exact ⟨rfl, rfl⟩

lemma busy_queues_settleApply (m : Machine) (rid : Nat) (out : Outcome) :
    (settleApply m rid out).slot.deferredReducers =
      m.slot.deferredReducers ∧
    (settleApply m rid out).slot.deferredGetters =
      m.slot.deferredGetters ∧
    (settleApply m rid out).slot.suspendedGetters =
      m.slot.suspendedGetters := ⟨rfl, rfl, rfl⟩

lemma susp_runConts_true : ∀ (cts : List (DeferredGetter × Option Obj))
    (m : Machine), m.slot.isStateSuspended = true →
    (runConts m cts).slot.isStateSuspended = true := by
  intro cts
  induction cts with
  | nil => intro m h; exact h
  | cons c rest ih =>
    intro m h
    refine ih (runCont m c) ?_
    obtain ⟨⟨gid0, k⟩, v⟩ := c
    cases k with
    | plain => exact h
    | susp => rfl
    | replay s => exact h

lemma susp_runConts_of_nosusp : ∀ (cts : List (DeferredGetter × Option Obj))
    (m : Machine), (∀ p ∈ cts, p.1.kind ≠ GetterKind.susp) →
    (runConts m cts).slot.isStateSuspended = m.slot.isStateSuspended := by
  intro cts
  induction cts with
  | nil => intro m _; rfl
  | cons c rest ih =>
    intro m h
    have htail := ih (runCont m c)
      (fun p hp => h p (List.mem_cons_of_mem _ hp))
    refine htail.trans ?_
    obtain ⟨⟨gid0, k⟩, v⟩ := c
    cases k with
    | plain => rfl
    | susp => exact absurd rfl (h _ (List.mem_cons_self _ _))
    | replay s => rfl

/-- While the slot is suspended, a resolution phase resolves only the
plain pending queue: the suspended queue is untouched and none of its
getters is resolved (their allocation ids are distinct from the resolved
ones). -/
lemma resolvePhase_suspended (m1 : Machine)
    (hnodup : ((m1.slot.deferredGetters ++
      m1.slot.suspendedGetters).map DeferredGetter.gid).Nodup)
    (hs : m1.slot.isStateSuspended = true) :
    ∃ ext, (resolvePhase m1).trace = m1.trace ++ ext ∧
      (resolvePhase m1).slot.isStateSuspended = true ∧
      (resolvePhase m1).slot.suspendedGetters =
        m1.slot.suspendedGetters ∧
      ∀ g v, g ∈ m1.slot.suspendedGetters →
        Event.getterResolved g v ∉ ext := by
  unfold resolvePhase
  split
  · exact ⟨[], by simp, hs, rfl, by simp⟩
  · have heq : resolveDefferedGetters m1 =
        ({ m1 with
            slot := { m1.slot with
                        deferredGetters := [],
                        suspendedGetters := m1.slot.suspendedGetters },
            fresh := (resolveAux m1.slot.state m1.fresh
              m1.slot.deferredGetters).1,
            trace := m1.trace ++ (resolveAux m1.slot.state m1.fresh
              m1.slot.deferredGetters).2.1 },
          (resolveAux m1.slot.state m1.fresh
            m1.slot.deferredGetters).2.2) := by
      simp [resolveDefferedGetters, hs]
    rw [heq]
    obtain ⟨q1, q2, q3, q4, q5, q6, ext2, sapp, htr2, hsub2, hr2, ha2,
      hn2, hg2, hsapp2⟩ := runConts_char
        (resolveAux m1.slot.state m1.fresh m1.slot.deferredGetters).2.2
        { m1 with
          slot := { m1.slot with
                      deferredGetters := [],
                      suspendedGetters := m1.slot.suspendedGetters },
          fresh := (resolveAux m1.slot.state m1.fresh
            m1.slot.deferredGetters).1,
          trace := m1.trace ++ (resolveAux m1.slot.state m1.fresh
            m1.slot.deferredGetters).2.1 }
    refine ⟨(resolveAux m1.slot.state m1.fresh
        m1.slot.deferredGetters).2.1 ++ ext2, ?_, ?_, ?_, ?_⟩
    · rw [htr2]
      exact (List.append_assoc _ _ _).symm ▸ rfl
    · exact susp_runConts_true _ _ hs
    · exact q2.trans rfl
    · intro g v hg hmem
      rcases List.mem_append.mp hmem with hmem | hmem
      · have hgs := resolveAux_getters_mem m1.slot.state
          m1.slot.deferredGetters m1.fresh g v hmem
        rw [List.map_append] at hnodup
        rcases (List.nodup_append.mp hnodup) with ⟨_, _, hdisj⟩
        exact hdisj (List.mem_map_of_mem DeferredGetter.gid hgs)
          (List.mem_map_of_mem DeferredGetter.gid hg)
      · exact hg2 g v hmem

/-- A read issued while the slot is suspended joins the suspended queue
and nothing already in that queue is resolved by it. -/
lemma internalGetState_suspended (m : Machine) (k : GetterKind)
    (hnodup : ((m.slot.deferredGetters ++
      m.slot.suspendedGetters).map DeferredGetter.gid).Nodup)
    (hbound : ∀ g ∈ m.slot.deferredGetters ++ m.slot.suspendedGetters,
      g.gid < m.nextGid)
    (hs : m.slot.isStateSuspended = true) :
    ∃ ext, (internalGetState m k).trace = m.trace ++ ext ∧
      (internalGetState m k).slot.isStateSuspended = true ∧
      (internalGetState m k).slot.suspendedGetters =
        m.slot.suspendedGetters ++ [(⟨m.nextGid, k⟩ : DeferredGetter)] ∧
      ∀ g v, g ∈ m.slot.suspendedGetters →
        Event.getterResolved g v ∉ ext := by
  rw [internalGetState_eq]
  have hP : pushG m k =
      { m with
        slot := { m.slot with
                    suspendedGetters :=
                      m.slot.suspendedGetters ++ [(⟨m.nextGid, k⟩ : DeferredGetter)] },
        nextGid := m.nextGid + 1 } := by
    simp [pushG, hs]
  rw [hP]
  obtain ⟨he1, he2⟩ := queues_driveReduce
    { m with
      slot := { m.slot with
                  suspendedGetters :=
                    m.slot.suspendedGetters ++ [(⟨m.nextGid, k⟩ : DeferredGetter)] },
      nextGid := m.nextGid + 1 }
  obtain ⟨e1, htr1, hng1⟩ := driveReduce_ext
    { m with
      slot := { m.slot with
                  suspendedGetters :=
                    m.slot.suspendedGetters ++ [(⟨m.nextGid, k⟩ : DeferredGetter)] },
      nextGid := m.nextGid + 1 }
  have hsusp1 := susp_driveReduce
    { m with
      slot := { m.slot with
                  suspendedGetters :=
                    m.slot.suspendedGetters ++ [(⟨m.nextGid, k⟩ : DeferredGetter)] },
      nextGid := m.nextGid + 1 }
  have hnodup1 : (((driveReduce
      { m with
        slot := { m.slot with
                    suspendedGetters :=
                      m.slot.suspendedGetters ++ [(⟨m.nextGid, k⟩ : DeferredGetter)] },
        nextGid := m.nextGid + 1 }).slot.deferredGetters ++
      (driveReduce
      { m with
        slot := { m.slot with
                    suspendedGetters :=
                      m.slot.suspendedGetters ++ [(⟨m.nextGid, k⟩ : DeferredGetter)] },
        nextGid := m.nextGid + 1 }).slot.suspendedGetters).map
        DeferredGetter.gid).Nodup := by
    rw [he1, he2]
    show ((m.slot.deferredGetters ++
      (m.slot.suspendedGetters ++ [(⟨m.nextGid, k⟩ : DeferredGetter)])).map
        DeferredGetter.gid).Nodup
    rw [← List.append_assoc, List.map_append]
    refine List.Nodup.append hnodup (List.nodup_singleton _) ?_
    intro a ha
    simp only [List.mem_map] at ha
    obtain ⟨g, hg, rfl⟩ := ha
    simp only [List.map_cons, List.map_nil, List.mem_singleton]
    exact Nat.ne_of_lt (hbound g hg)
  obtain ⟨e2, htr2, hsusp2, hq2, hng2⟩ := resolvePhase_suspended
    (driveReduce
      { m with
        slot := { m.slot with
                    suspendedGetters :=
                      m.slot.suspendedGetters ++ [(⟨m.nextGid, k⟩ : DeferredGetter)] },
        nextGid := m.nextGid + 1 }) hnodup1 (hsusp1.trans hs)
  refine ⟨e1 ++ e2, ?_, hsusp2, ?_, ?_⟩
  · rw [htr2, htr1]
    show (m.trace ++ e1) ++ e2 = m.trace ++ (e1 ++ e2)
    rw [List.append_assoc]
  · rw [hq2, he2]
  · intro g v hg hmem
    rcases List.mem_append.mp hmem with hmem | hmem
    · exact hng1 g v hmem
    · refine hng2 g v ?_ hmem
      rw [he2]
      exact List.mem_append.mpr (Or.inl hg)

lemma step_trace_ext (m : Machine) (c : Cmd) :
    ∃ e, (step m c).trace = m.trace ++ e := by
  obtain ⟨e, he, _⟩ := step_read_values m c
  exact ⟨e, he⟩

lemma trace_foldl_ext : ∀ (ext : List Cmd) (m : Machine),
    ∃ e, (ext.foldl step m).trace = m.trace ++ e := by
  intro ext
  induction ext with
  | nil => intro m; exact ⟨[], (List.append_nil _).symm⟩
  | cons c rest ih =>
    intro m
    obtain ⟨e1, h1⟩ := step_trace_ext m c
    obtain ⟨e2, h2⟩ := ih (step m c)
    exact ⟨e1 ++ e2, by rw [List.foldl_cons, h2, h1, List.append_assoc]⟩

/-- One step of a suspended machine: either the step settles the awaited
transform (a completion event is emitted), or the slot stays suspended,
the suspended queue only grows, and no suspended read is resolved. -/
lemma suspended_step (m : Machine) (c : Cmd)
    (hinv : SubInv m)
    (hs : m.slot.isStateSuspended = true) :
    ∃ ext, (step m c).trace = m.trace ++ ext ∧
      ((∃ e ∈ ext, isCompletionEvt e = true) ∨
        ((step m c).slot.isStateSuspended = true ∧
          (∃ app, (step m c).slot.suspendedGetters =
            m.slot.suspendedGetters ++ app) ∧
          (∀ g v, g ∈ m.slot.suspendedGetters →
            Event.getterResolved g v ∉ ext))) := by
  obtain ⟨⟨b1, b2, b3, b4, b5, b6, b7, b8, b9, b10⟩, _, _⟩ := hinv
  cases c with
  | reduce d =>
    simp only [step]
    split
    · exact ⟨[], (List.append_nil _).symm, Or.inr ⟨hs,
        ⟨[], (List.append_nil _).symm⟩, by simp⟩⟩
    · obtain ⟨e1, htr1, hng1⟩ := driveReduce_ext _
      refine ⟨e1, htr1, Or.inr ⟨(susp_driveReduce _).trans hs,
        ⟨[], ((queues_driveReduce _).2.trans
          (List.append_nil _).symm)⟩, ?_⟩⟩
      intro g v _ hmem
      exact hng1 g v hmem
  | getState =>
    obtain ⟨e, htr, hflag, hq, hng⟩ :=
      internalGetState_suspended m .plain b1 b2 hs
    exact ⟨e, htr, Or.inr ⟨hflag, ⟨_, hq⟩, hng⟩⟩
  | suspend =>
    obtain ⟨e, htr, hflag, hq, hng⟩ :=
      internalGetState_suspended m .susp b1 b2 hs
    exact ⟨e, htr, Or.inr ⟨hflag, ⟨_, hq⟩, hng⟩⟩
  | createObservable =>
    exact ⟨[], (List.append_nil _).symm, Or.inr ⟨hs,
      ⟨[], (List.append_nil _).symm⟩, by simp⟩⟩
  | attach obs =>
    simp only [step]
    cases lookupFlag m.obsFlags obs with
    | none =>
      exact ⟨[], (List.append_nil _).symm, Or.inr ⟨hs,
        ⟨[], (List.append_nil _).symm⟩, by simp⟩⟩
    | some flag =>
      cases flag with
      | true =>
        show ∃ ext, (attachStep m true).trace = m.trace ++ ext ∧ _
        rw [attachStep_true]
        obtain ⟨e, htr, hflag, hq, hng⟩ :=
          internalGetState_suspended
            { m with
                nextSid := m.nextSid + 1,
                replayOrigin := m.replayOrigin ++ [m.nextSid] }
            (.replay m.nextSid) b1 b2 hs
        exact ⟨e, htr, Or.inr ⟨hflag, ⟨_, hq⟩, hng⟩⟩
      | false =>
        show ∃ ext, (attachStep m false).trace = m.trace ++ ext ∧ _
        rw [attachStep_false]
        refine ⟨[.subAdded m.nextSid], rfl, Or.inr ⟨hs,
          ⟨[], (List.append_nil _).symm⟩, ?_⟩⟩
        intro g v _ hmem
        exact Event.noConfusion (List.mem_singleton.mp hmem)
  | unsubscribe sid =>
    simp only [step]
    split
    · exact ⟨[], (List.append_nil _).symm, Or.inr ⟨hs,
        ⟨[], (List.append_nil _).symm⟩, by simp⟩⟩
    · exact ⟨[], (List.append_nil _).symm, Or.inr ⟨hs,
        ⟨[], (List.append_nil _).symm⟩, by simp⟩⟩
  | settle out =>
    cases ha : m.awaiting with
    | none =>
      simp only [step, settleStep, ha]
      exact ⟨[], (List.append_nil _).symm, Or.inr ⟨hs,
        ⟨[], (List.append_nil _).symm⟩, by simp⟩⟩
    | some rid =>
      simp only [step, settleStep, ha]
      cases out with
      | ok v =>
        cases hq : (settleApply m rid (Outcome.ok v)).slot.deferredReducers
          with
        | nil =>
          obtain ⟨e1, he1, _⟩ := drainEnd_ext (settleApply m rid
            (Outcome.ok v))
          refine ⟨[Event.mutResolved rid] ++ e1, ?_,
            Or.inl ⟨Event.mutResolved rid, List.mem_append.mpr (Or.inl
              (List.mem_singleton.mpr rfl)), rfl⟩⟩
          show (drainEnd (settleApply m rid (Outcome.ok v))).trace = _
          rw [he1, show (settleApply m rid (Outcome.ok v)).trace =
            m.trace ++ [Event.mutResolved rid] from rfl,
            List.append_assoc]
        | cons rid2 rest =>
          refine ⟨[Event.mutResolved rid] ++
            [Event.transformStart rid2
              (settleApply m rid (Outcome.ok v)).slot.state], ?_,
            Or.inl ⟨Event.mutResolved rid, List.mem_append.mpr (Or.inl
              (List.mem_singleton.mpr rfl)), rfl⟩⟩
          show (startNext (settleApply m rid (Outcome.ok v))
            rid2 rest).trace = _
          rw [show (startNext (settleApply m rid (Outcome.ok v))
              rid2 rest).trace =
            (settleApply m rid (Outcome.ok v)).trace ++
              [Event.transformStart rid2
                (settleApply m rid (Outcome.ok v)).slot.state] from rfl,
            show (settleApply m rid (Outcome.ok v)).trace =
              m.trace ++ [Event.mutResolved rid] from rfl,
            List.append_assoc]
      | err e0 =>
        cases hq : (settleApply m rid
            (Outcome.err e0)).slot.deferredReducers with
        | nil =>
          obtain ⟨e1, he1, _⟩ := drainEnd_ext (settleApply m rid
            (Outcome.err e0))
          refine ⟨[Event.mutRejected rid e0] ++ e1, ?_,
            Or.inl ⟨Event.mutRejected rid e0, List.mem_append.mpr (Or.inl
              (List.mem_singleton.mpr rfl)), rfl⟩⟩
          show (drainEnd (settleApply m rid (Outcome.err e0))).trace = _
          rw [he1, show (settleApply m rid (Outcome.err e0)).trace =
            m.trace ++ [Event.mutRejected rid e0] from rfl,
            List.append_assoc]
        | cons rid2 rest =>
          refine ⟨[Event.mutRejected rid e0] ++
            [Event.transformStart rid2
              (settleApply m rid (Outcome.err e0)).slot.state], ?_,
            Or.inl ⟨Event.mutRejected rid e0, List.mem_append.mpr (Or.inl
              (List.mem_singleton.mpr rfl)), rfl⟩⟩
          show (startNext (settleApply m rid (Outcome.err e0))
            rid2 rest).trace = _
          rw [show (startNext (settleApply m rid (Outcome.err e0))
              rid2 rest).trace =
            (settleApply m rid (Outcome.err e0)).trace ++
              [Event.transformStart rid2
                (settleApply m rid (Outcome.err e0)).slot.state] from rfl,
            show (settleApply m rid (Outcome.err e0)).trace =
              m.trace ++ [Event.mutRejected rid e0] from rfl,
            List.append_assoc]

/-- Blocking, over a whole command extension: while no completion event
occurs, a suspended slot stays suspended, a queued suspended read stays
queued, and that read is never resolved. -/
lemma suspend_block_foldl : ∀ (ext : List Cmd) (m : Machine)
    (g : DeferredGetter), SubInv m →
    m.slot.isStateSuspended = true →
    g ∈ m.slot.suspendedGetters →
    (∀ e ∈ (ext.foldl step m).trace.drop m.trace.length,
      isCompletionEvt e = false) →
    (ext.foldl step m).slot.isStateSuspended = true ∧
    g ∈ (ext.foldl step m).slot.suspendedGetters ∧
    (∀ v, Event.getterResolved g v ∉
      (ext.foldl step m).trace.drop m.trace.length) := by
  intro ext
  induction ext with
  | nil =>
    intro m g hinv hs hg hnc
    refine ⟨hs, hg, ?_⟩
    intro v hv
    rw [show (List.foldl step m []) = m from rfl, List.drop_length] at hv
    exact absurd hv (List.not_mem_nil _)
  | cons c rest ih =>
    intro m g hinv hs hg hnc
    obtain ⟨e1, htr1, hcase⟩ := suspended_step m c hinv hs
    obtain ⟨e2, htr2⟩ := trace_foldl_ext rest (step m c)
    have htrF : (List.foldl step m (c :: rest)).trace =
        m.trace ++ (e1 ++ e2) := by
      rw [List.foldl_cons, htr2, htr1, List.append_assoc]
    have hdropF : (List.foldl step m (c :: rest)).trace.drop
        m.trace.length = e1 ++ e2 := by
      rw [htrF, List.drop_left]
    rw [hdropF] at hnc
    rcases hcase with ⟨e, hmem, hce⟩ | ⟨hflag1, ⟨app, happ⟩, hngr⟩
    · exact absurd (hnc e (List.mem_append.mpr (Or.inl hmem)))
        (by rw [hce]; exact fun hcontra => Bool.noConfusion hcontra)
    · have hdrop2 : (List.foldl step (step m c) rest).trace.drop
          (step m c).trace.length = e2 := by
        rw [htr2, List.drop_left]
      have hrest := ih (step m c) g (subInv_step hinv c) hflag1
        (happ ▸ List.mem_append.mpr (Or.inl hg))
        (by
          rw [hdrop2]
          intro e he
          exact hnc e (List.mem_append.mpr (Or.inr he)))
      obtain ⟨hf, hm, hng2⟩ := hrest
      refine ⟨by rw [List.foldl_cons]; exact hf,
        by rw [List.foldl_cons]; exact hm, ?_⟩
      intro v hv
      rw [hdropF] at hv
      rcases List.mem_append.mp hv with hv | hv
      · exact hngr g v hg hv
      · refine hng2 v ?_
        rw [hdrop2]
        exact hv

/-- The end of a drain on an unsuspended slot: both read queues are
emptied; FIFO, normal queue first, each read resolving with (a clone of)
the snapshot as of drain end; nothing else in the tail resolves reads; the
slot stays unsuspended unless one of the flushed reads was a
`suspendState` read. -/
lemma drainEnd_flush (A : Machine)
    (hsusp : A.slot.isStateSuspended = false) :
    ((drainEnd A).trace.drop A.trace.length).filterMap getterEvt =
      (A.slot.deferredGetters ++ A.slot.suspendedGetters).map
        (fun g => (g, A.slot.state.map Obj.val))
    ∧ (drainEnd A).slot.deferredGetters = []
    ∧ (drainEnd A).slot.suspendedGetters = []
    ∧ ((∀ g ∈ A.slot.deferredGetters ++ A.slot.suspendedGetters,
        g.kind ≠ GetterKind.susp) →
      (drainEnd A).slot.isStateSuspended = false) := by
  have heq : resolveDefferedGetters A =
      ({ A with
          slot := { A.slot with
                      deferredGetters := [],
                      suspendedGetters := [] },
          fresh := (resolveAux A.slot.state A.fresh
            (A.slot.deferredGetters ++ A.slot.suspendedGetters)).1,
          trace := A.trace ++ (resolveAux A.slot.state A.fresh
            (A.slot.deferredGetters ++ A.slot.suspendedGetters)).2.1 },
        (resolveAux A.slot.state A.fresh
          (A.slot.deferredGetters ++ A.slot.suspendedGetters)).2.2) := by
    simp [resolveDefferedGetters, hsusp]
  have hDE : drainEnd A =
      runConts
        { notifySubscribers (resolveDefferedGetters A).1 with
          slot := { (notifySubscribers
            (resolveDefferedGetters A).1).slot with isBusy := false } }
        (resolveDefferedGetters A).2 := rfl
  obtain ⟨q1, q2, q3, q4, q5, q6, ev3, sapp, htr3, hsub3, hr3, ha3, hn3,
    hg3, hsapp3⟩ := runConts_char (resolveDefferedGetters A).2
      { notifySubscribers (resolveDefferedGetters A).1 with
        slot := { (notifySubscribers
          (resolveDefferedGetters A).1).slot with isBusy := false } }
  have hfst : ((resolveDefferedGetters A).2).map Prod.fst =
      A.slot.deferredGetters ++ A.slot.suspendedGetters := by
    rw [heq]
    exact resolveAux_conts_fst _ _ _
  have hN : (notifySubscribers (resolveDefferedGetters A).1).trace =
      (resolveDefferedGetters A).1.trace ++
        (notifyAux (resolveDefferedGetters A).1.slot.state
          (resolveDefferedGetters A).1.fresh
          (resolveDefferedGetters A).1.slot.subscribers).2 := rfl
  have hevnil2 : (notifyAux (resolveDefferedGetters A).1.slot.state
      (resolveDefferedGetters A).1.fresh
      (resolveDefferedGetters A).1.slot.subscribers).2.filterMap
        getterEvt = [] := by
    rw [List.filterMap_eq_nil_iff]
    intro e he
    obtain ⟨s, _, w, hew⟩ := notifyAux_events_shape _ _ _ e he
    subst hew
    rfl
  have hevnil3 : ev3.filterMap getterEvt = [] := by
    rw [List.filterMap_eq_nil_iff]
    intro e he
    cases e with
    | getterResolved g v => exact absurd he (hg3 g v)
    | transformStart r i => rfl
    | mutResolved r => rfl
    | mutRejected r er => rfl
    | replayed s v => rfl
    | subAdded s => rfl
    | notified s v => rfl
    | suspendEffect => rfl
  have hfm1 : ((resolveAux A.slot.state A.fresh
      (A.slot.deferredGetters ++ A.slot.suspendedGetters)).2.1).filterMap
        getterEvt =
      (A.slot.deferredGetters ++ A.slot.suspendedGetters).map
        (fun g => (g, A.slot.state.map Obj.val)) :=
    resolveAux_getterEvt _ _ _
  have htrF : (drainEnd A).trace = A.trace ++
      ((resolveAux A.slot.state A.fresh
        (A.slot.deferredGetters ++ A.slot.suspendedGetters)).2.1 ++
        ((notifyAux (resolveDefferedGetters A).1.slot.state
          (resolveDefferedGetters A).1.fresh
          (resolveDefferedGetters A).1.slot.subscribers).2 ++ ev3)) := by
    rw [hDE, htr3,
      show ({ notifySubscribers (resolveDefferedGetters A).1 with
        slot := { (notifySubscribers
          (resolveDefferedGetters A).1).slot with
            isBusy := false } } : Machine).trace =
        (notifySubscribers (resolveDefferedGetters A).1).trace from rfl,
      hN, show (resolveDefferedGetters A).1.trace = A.trace ++
        (resolveAux A.slot.state A.fresh
          (A.slot.deferredGetters ++ A.slot.suspendedGetters)).2.1 from
        by rw [heq], List.append_assoc, List.append_assoc]
  refine ⟨?_, ?_, ?_, ?_⟩
  · rw [htrF, List.drop_left, List.filterMap_append, List.filterMap_append,
      hfm1, hevnil2, hevnil3]
    simp
  · rw [hDE, q1,
      show ({ notifySubscribers (resolveDefferedGetters A).1 with
        slot := { (notifySubscribers
          (resolveDefferedGetters A).1).slot with
            isBusy := false } } : Machine).slot.deferredGetters =
        (resolveDefferedGetters A).1.slot.deferredGetters from rfl, heq]
  · rw [hDE, q2,
      show ({ notifySubscribers (resolveDefferedGetters A).1 with
        slot := { (notifySubscribers
          (resolveDefferedGetters A).1).slot with
            isBusy := false } } : Machine).slot.suspendedGetters =
        (resolveDefferedGetters A).1.slot.suspendedGetters from rfl, heq]
  · intro hns
    rw [hDE, susp_runConts_of_nosusp _ _ ?_]
    · rw [show ({ notifySubscribers (resolveDefferedGetters A).1 with
        slot := { (notifySubscribers
          (resolveDefferedGetters A).1).slot with
            isBusy := false } } : Machine).slot.isStateSuspended =
          (resolveDefferedGetters A).1.slot.isStateSuspended from rfl,
        heq]
      exact hsusp
    · intro p hp
      refine hns p.1 ?_
      rw [← hfst]
      exact List.mem_map_of_mem Prod.fst hp

/-- Settling the awaited transform with an empty mutation queue ends the
drain: every queued read — normal queue first, then the suspended queue,
each in FIFO order — resolves with the post-drain snapshot. -/
lemma settle_flush (m : Machine) (out : Outcome) (rid : Nat)
    (ha : m.awaiting = some rid)
    (hq : m.slot.deferredReducers = []) :
    ((step m (.settle out)).trace.drop m.trace.length).filterMap
        getterEvt =
      (m.slot.deferredGetters ++ m.slot.suspendedGetters).map
        (fun g => (g, out.newStateVal))
    ∧ (step m (.settle out)).slot.deferredGetters = []
    ∧ (step m (.settle out)).slot.suspendedGetters = []
    ∧ ((∀ g ∈ m.slot.deferredGetters ++ m.slot.suspendedGetters,
        g.kind ≠ GetterKind.susp) →
      (step m (.settle out)).slot.isStateSuspended = false) := by
  simp only [step, settleStep, ha]
  cases out with
  | ok v =>
    cases hq3 : (settleApply m rid
        (Outcome.ok v)).slot.deferredReducers with
    | cons rid2 rest =>
      have hq4 : m.slot.deferredReducers = rid2 :: rest := hq3
      rw [hq] at hq4
      exact List.noConfusion hq4
    | nil =>
      obtain ⟨hF, hd, hsg, hlift⟩ :=
        drainEnd_flush (settleApply m rid (Outcome.ok v)) rfl
      obtain ⟨eD, hEd, _⟩ := drainEnd_ext (settleApply m rid
        (Outcome.ok v))
      have hAtr : (settleApply m rid (Outcome.ok v)).trace =
          m.trace ++ [Event.mutResolved rid] := rfl
      have h2 : (drainEnd (settleApply m rid
          (Outcome.ok v))).trace.drop
            (settleApply m rid (Outcome.ok v)).trace.length = eD := by
        rw [hEd, List.drop_left]
      have h1 : (drainEnd (settleApply m rid
          (Outcome.ok v))).trace.drop m.trace.length =
          [Event.mutResolved rid] ++ eD := by
        rw [hEd, hAtr, List.append_assoc, List.drop_left]
      refine ⟨?_, hd, hsg, fun hns => hlift hns⟩
      rw [h1, List.filterMap_append,
        show List.filterMap getterEvt [Event.mutResolved rid] = []
          from rfl, List.nil_append, ← h2]
      exact hF
  | err e0 =>
    cases hq3 : (settleApply m rid
        (Outcome.err e0)).slot.deferredReducers with
    | cons rid2 rest =>
      have hq4 : m.slot.deferredReducers = rid2 :: rest := hq3
      rw [hq] at hq4
      exact List.noConfusion hq4
    | nil =>
      obtain ⟨hF, hd, hsg, hlift⟩ :=
        drainEnd_flush (settleApply m rid (Outcome.err e0)) rfl
      obtain ⟨eD, hEd, _⟩ := drainEnd_ext (settleApply m rid
        (Outcome.err e0))
      have hAtr : (settleApply m rid (Outcome.err e0)).trace =
          m.trace ++ [Event.mutRejected rid e0] := rfl
      have h2 : (drainEnd (settleApply m rid
          (Outcome.err e0))).trace.drop
            (settleApply m rid (Outcome.err e0)).trace.length = eD := by
        rw [hEd, List.drop_left]
      have h1 : (drainEnd (settleApply m rid
          (Outcome.err e0))).trace.drop m.trace.length =
          [Event.mutRejected rid e0] ++ eD := by
        rw [hEd, hAtr, List.append_assoc, List.drop_left]
      refine ⟨?_, hd, hsg, fun hns => hlift hns⟩
      rw [h1, List.filterMap_append,
        show List.filterMap getterEvt [Event.mutRejected rid e0] = []
          from rfl, List.nil_append, ← h2]
      exact hF

/-- C5 (amended): (1) BLOCKING — once suspend has taken effect, as long as
no mutation completes, the slot stays suspended, every read queued in the
suspended queue stays queued, and none of them resolves.  (2) FLUSH — the
completion that empties the mutation queue ends the drain and resolves ALL
queued reads, normal queue first then the suspended queue, each in FIFO
order, every one with the post-drain snapshot; both queues are emptied,
and the slot ends unsuspended unless one of the flushed reads was itself a
`suspendState` read. -/
theorem C5_suspension :
    (∀ (cs ext : List Cmd) (g : DeferredGetter),
      (run cs).slot.isStateSuspended = true →
      g ∈ (run cs).slot.suspendedGetters →
      (∀ e ∈ (run (cs ++ ext)).trace.drop (run cs).trace.length,
        isCompletionEvt e = false) →
      (run (cs ++ ext)).slot.isStateSuspended = true ∧
      g ∈ (run (cs ++ ext)).slot.suspendedGetters ∧
      (∀ v, Event.getterResolved g v ∉
        (run (cs ++ ext)).trace.drop (run cs).trace.length))
  ∧ (∀ (cs : List Cmd) (out : Outcome) (rid : Nat),
      (run cs).awaiting = some rid →
      (run cs).slot.deferredReducers = [] →
      ((step (run cs) (.settle out)).trace.drop
          (run cs).trace.length).filterMap getterEvt =
        ((run cs).slot.deferredGetters ++
          (run cs).slot.suspendedGetters).map
            (fun g => (g, out.newStateVal))
      ∧ (step (run cs) (.settle out)).slot.deferredGetters = []
      ∧ (step (run cs) (.settle out)).slot.suspendedGetters = []
      ∧ ((∀ g ∈ (run cs).slot.deferredGetters ++
            (run cs).slot.suspendedGetters,
            g.kind ≠ GetterKind.susp) →
          (step (run cs) (.settle out)).slot.isStateSuspended =
            false)) := by
  constructor
  · intro cs ext g hs hg hnc
    rw [run_append] at hnc ⊢
    exact suspend_block_foldl ext (run cs) g (subInv_run cs) hs hg hnc
  · intro cs out rid ha hq
    exact settle_flush (run cs) out rid ha hq

/-- Witness for C5 at concrete runs: with a suspended read queued,
starting another transform (no completion) leaves the read blocked;
settling the lone in-flight transform flushes the suspended read with the
post-drain snapshot. -/
theorem C5_suspension_witness :
    ((run ([Cmd.reduce false, Cmd.settle (Outcome.ok 1), Cmd.suspend,
        Cmd.getState] ++ [Cmd.reduce false])).slot.isStateSuspended = true
      ∧ (⟨1, GetterKind.plain⟩ : DeferredGetter) ∈
        (run ([Cmd.reduce false, Cmd.settle (Outcome.ok 1), Cmd.suspend,
          Cmd.getState] ++ [Cmd.reduce false])).slot.suspendedGetters
      ∧ (∀ v, Event.getterResolved ⟨1, GetterKind.plain⟩ v ∉
          (run ([Cmd.reduce false, Cmd.settle (Outcome.ok 1), Cmd.suspend,
            Cmd.getState] ++ [Cmd.reduce false])).trace.drop
            (run [Cmd.reduce false, Cmd.settle (Outcome.ok 1),
              Cmd.suspend, Cmd.getState]).trace.length))
  ∧ ((step (run [Cmd.reduce false, Cmd.settle (Outcome.ok 1),
        Cmd.suspend, Cmd.getState, Cmd.reduce false])
          (.settle (Outcome.ok 7))).trace.drop
        (run [Cmd.reduce false, Cmd.settle (Outcome.ok 1), Cmd.suspend,
          Cmd.getState, Cmd.reduce false]).trace.length).filterMap
        getterEvt =
      ((run [Cmd.reduce false, Cmd.settle (Outcome.ok 1), Cmd.suspend,
          Cmd.getState, Cmd.reduce false]).slot.deferredGetters ++
        (run [Cmd.reduce false, Cmd.settle (Outcome.ok 1), Cmd.suspend,
          Cmd.getState, Cmd.reduce false]).slot.suspendedGetters).map
          (fun g => (g, (Outcome.ok 7).newStateVal)) :=
  ⟨C5_suspension.1 [Cmd.reduce false, Cmd.settle (Outcome.ok 1),
      Cmd.suspend, Cmd.getState] [Cmd.reduce false]
      ⟨1, GetterKind.plain⟩ (by decide) (by decide) (by decide),
    (C5_suspension.2 [Cmd.reduce false, Cmd.settle (Outcome.ok 1),
      Cmd.suspend, Cmd.getState, Cmd.reduce false]
      (Outcome.ok 7) 1 (by decide) (by decide)).1⟩

/-- Counterexample to C5 as stated: with a suspended read queued (gid 1)
and two more mutations enqueued, the NEXT mutation's completion
(`mutResolved 1`) does clear the suspension flag, but it does not flush
the suspended read — the forced recursion immediately starts the next
queued transform, so the drain continues and the read stays queued,
unresolved.  It resolves only at the completion that ends the drain, and
with THAT completion's snapshot (20), not the snapshot of the mutation
that lifted the suspension (10). -/
theorem C5_counterexample :
    Event.mutResolved 1 ∈ (run [Cmd.reduce false,
      Cmd.settle (Outcome.ok 1), Cmd.suspend, Cmd.getState,
      Cmd.reduce true, Cmd.reduce false,
      Cmd.settle (Outcome.ok 10)]).trace
  ∧ (run [Cmd.reduce false, Cmd.settle (Outcome.ok 1), Cmd.suspend,
      Cmd.getState, Cmd.reduce true, Cmd.reduce false,
      Cmd.settle (Outcome.ok 10)]).slot.isStateSuspended = false
  ∧ (⟨1, GetterKind.plain⟩ : DeferredGetter) ∈
      (run [Cmd.reduce false, Cmd.settle (Outcome.ok 1), Cmd.suspend,
        Cmd.getState, Cmd.reduce true, Cmd.reduce false,
        Cmd.settle (Outcome.ok 10)]).slot.suspendedGetters
  ∧ ((run [Cmd.reduce false, Cmd.settle (Outcome.ok 1), Cmd.suspend,
      Cmd.getState, Cmd.reduce true, Cmd.reduce false,
      Cmd.settle (Outcome.ok 10)]).trace.filterMap getterEvt).countP
        (fun p => p.1 == (⟨1, GetterKind.plain⟩ : DeferredGetter)) = 0
  ∧ ((⟨1, GetterKind.plain⟩ : DeferredGetter), (some 20 : Option V)) ∈
      (run ([Cmd.reduce false, Cmd.settle (Outcome.ok 1), Cmd.suspend,
        Cmd.getState, Cmd.reduce true, Cmd.reduce false,
        Cmd.settle (Outcome.ok 10)] ++
          [Cmd.settle (Outcome.ok 20)])).trace.filterMap getterEvt
  ∧ ((⟨1, GetterKind.plain⟩ : DeferredGetter), (some 10 : Option V)) ∉
      (run ([Cmd.reduce false, Cmd.settle (Outcome.ok 1), Cmd.suspend,
        Cmd.getState, Cmd.reduce true, Cmd.reduce false,
        Cmd.settle (Outcome.ok 10)] ++
          [Cmd.settle (Outcome.ok 20)])).trace.filterMap getterEvt := by
  decide

/-- C6: (1) a replay-origin subscriber is replayed at most once, ever.
(2) Once it appears in the live subscriber list it has received exactly
one replay, and that replay precedes — in the trace — its insertion into
the list and every fan-out notification addressed to it (so a fan-out
starting concurrently cannot deliver the same state twice).  (3) A
subscriber pushed directly (its observable was created before the slot
was initialized) receives zero replays.  (4) When the captured flag is
true and the slot is idle (not suspended, not busy, empty queues), the
attach itself immediately resolves the replay read with a clone of the
current snapshot, delivers the replay (a further clone), and only then
appends the subscriber to the live list. -/
theorem C6_replay_once :
    (∀ (cs : List Cmd) (sid : Nat), sid ∈ (run cs).replayOrigin →
      replayedN (run cs).trace sid ≤ 1)
  ∧ (∀ (cs : List Cmd) (sid : Nat), sid ∈ (run cs).replayOrigin →
      sid ∈ (run cs).slot.subscribers →
      replayedN (run cs).trace sid = 1 ∧
      ∃ t1 v t2, (run cs).trace = t1 ++ Event.replayed sid v :: t2 ∧
        (∀ w, Event.notified sid w ∉ t1) ∧ Event.subAdded sid ∉ t1)
  ∧ (∀ (cs : List Cmd) (sid : Nat), sid ∈ (run cs).directOrigin →
      replayedN (run cs).trace sid = 0)
  ∧ (∀ (m : Machine) (obs : Nat),
      lookupFlag m.obsFlags obs = some true →
      m.slot.isStateSuspended = false →
      m.slot.isBusy = false →
      m.slot.deferredReducers = [] →
      m.slot.deferredGetters = [] →
      m.slot.suspendedGetters = [] →
      (step m (.attach obs)).trace = m.trace ++
          [.getterResolved ⟨m.nextGid, .replay m.nextSid⟩
              (safeClone m.slot.state m.fresh).1,
            .replayed m.nextSid
              (safeClone (safeClone m.slot.state m.fresh).1
                (safeClone m.slot.state m.fresh).2).1,
            .subAdded m.nextSid]
        ∧ (step m (.attach obs)).slot.subscribers =
            m.slot.subscribers ++ [m.nextSid]) := by
  refine ⟨?_, ?_, ?_, ?_⟩
  · intro cs sid hs
    rcases (subInv_run cs).2.2 sid hs with ⟨_, _, hrn, _, _⟩ |
      ⟨_, hrn, _⟩
    · rw [hrn]
      exact Nat.zero_le 1
    · rw [hrn]
  · intro cs sid hs hsub
    rcases (subInv_run cs).2.2 sid hs with ⟨_, hns, _, _, _⟩ |
      ⟨_, hrn, t1, v, t2, hdec, hn, ha⟩
    · exact absurd hsub hns
    · exact ⟨hrn, t1, v, t2, hdec, hn, ha⟩
  · intro cs sid hs
    exact ((subInv_run cs).2.1 sid hs).1
  · intro m obs h1 h2 h3 h4 h5 h6
    have hstep : step m (Cmd.attach obs) = attachStep m true := by
      simp only [step, h1]
    rw [hstep, attachStep_true, internalGetState_eq]
    constructor <;>
      simp [pushG, driveReduce, resolvePhase, resolveDefferedGetters,
        resolveAux, runConts, runCont, h2, h3, h4, h5, h6]

/-- Witness for C6 at a concrete run: after one completed mutation,
subscriber 0 attached through an eligible observable is replay-origin and
live, so the replay-before-insertion decomposition holds, and the
immediacy clause applies to the idle machine. -/
theorem C6_replay_once_witness :
    (replayedN (run [Cmd.reduce false, Cmd.settle (Outcome.ok 1),
        Cmd.createObservable, Cmd.attach 0]).trace 0 = 1
      ∧ ∃ t1 v t2, (run [Cmd.reduce false, Cmd.settle (Outcome.ok 1),
          Cmd.createObservable, Cmd.attach 0]).trace =
            t1 ++ Event.replayed 0 v :: t2 ∧
          (∀ w, Event.notified 0 w ∉ t1) ∧ Event.subAdded 0 ∉ t1)
  ∧ (step (run [Cmd.reduce false, Cmd.settle (Outcome.ok 1),
        Cmd.createObservable]) (.attach 0)).slot.subscribers =
      (run [Cmd.reduce false, Cmd.settle (Outcome.ok 1),
        Cmd.createObservable]).slot.subscribers ++
        [(run [Cmd.reduce false, Cmd.settle (Outcome.ok 1),
          Cmd.createObservable]).nextSid] :=
  ⟨C6_replay_once.2.1 [Cmd.reduce false, Cmd.settle (Outcome.ok 1),
      Cmd.createObservable, Cmd.attach 0] 0 (by decide) (by decide),
    (C6_replay_once.2.2.2 (run [Cmd.reduce false,
        Cmd.settle (Outcome.ok 1), Cmd.createObservable]) 0 (by decide)
      (by decide) (by decide) (by decide) (by decide) (by decide)).2⟩

/-- C8: `unsubscribe` on a live handle removes the FIRST occurrence of
that handle from the slot's subscriber list; on a handle that is absent
from the list (for example one whose in-flight replay has not yet appended
it), it is NOT a no-op: it removes the list's last element
(`splice(-1, 1)`).  Only repeated unsubscription of the same handle is a
no-op, via the subscription's closed guard. -/
theorem C8_unsubscribe :
    (∀ (cs : List Cmd) (sid : Nat),
      sid ∈ (run cs).slot.subscribers →
      sid < (run cs).nextSid → sid ∉ (run cs).closed →
      ∃ l1 l2, (run cs).slot.subscribers = l1 ++ sid :: l2 ∧ sid ∉ l1 ∧
        (step (run cs) (.unsubscribe sid)).slot.subscribers = l1 ++ l2)
  ∧ (∀ (cs : List Cmd) (sid : Nat),
      sid ∉ (run cs).slot.subscribers →
      sid < (run cs).nextSid → sid ∉ (run cs).closed →
      (step (run cs) (.unsubscribe sid)).slot.subscribers =
        (run cs).slot.subscribers.dropLast)
  ∧ (∀ (cs : List Cmd) (sid : Nat),
      ¬(sid < (run cs).nextSid ∧ sid ∉ (run cs).closed) →
      step (run cs) (.unsubscribe sid) = run cs) := by
  refine ⟨?_, ?_, ?_⟩
  · intro cs sid hmem hlt hcl
    have hne : (run cs).slot.subscribers.findIdx? (· = sid) ≠ none := by
      intro h
      rw [List.findIdx?_eq_none_iff] at h
      have := h sid hmem
      simp at this
    obtain ⟨i, hi⟩ := Option.ne_none_iff_exists'.mp hne
    obtain ⟨l1, l2, hdec, hnot, hsplice⟩ :=
      findIdx_splice (run cs).slot.subscribers sid i hi
    refine ⟨l1, l2, hdec, hnot, ?_⟩
    simp only [step]
    rw [if_pos ⟨hlt, hcl⟩, hi]
    exact hsplice
  · intro cs sid hmem hlt hcl
    have hfind : (run cs).slot.subscribers.findIdx? (· = sid) = none := by
      rw [List.findIdx?_eq_none_iff]
      intro x hx
      simp
      intro he
      exact hmem (he ▸ hx)
    simp only [step]
    rw [if_pos ⟨hlt, hcl⟩, hfind, List.dropLast_eq_take]
  · intro cs sid hc
    simp only [step]
    rw [if_neg hc]

/-- Witness for C8: a live handle is spliced out exactly (first clause) at
a concrete run, and unsubscription is a no-op once the handle is closed or
never allocated (third clause). -/
theorem C8_unsubscribe_witness :
    (∃ l1 l2, (run [Cmd.reduce false, Cmd.settle (Outcome.ok 1),
        Cmd.createObservable, Cmd.attach 0]).slot.subscribers =
          l1 ++ 0 :: l2 ∧ 0 ∉ l1 ∧
        (step (run [Cmd.reduce false, Cmd.settle (Outcome.ok 1),
          Cmd.createObservable, Cmd.attach 0])
            (Cmd.unsubscribe 0)).slot.subscribers = l1 ++ l2)
  ∧ step (run [Cmd.getState]) (Cmd.unsubscribe 0) = run [Cmd.getState] :=
  ⟨C8_unsubscribe.1 [Cmd.reduce false, Cmd.settle (Outcome.ok 1),
      Cmd.createObservable, Cmd.attach 0] 0 (by decide) (by decide)
      (by decide),
    C8_unsubscribe.2.2 [Cmd.getState] 0 (by decide)⟩

/-- Counterexample to C8 as stated: after one completed mutation, a
subscriber attached from an eligible observable occupies the list
(`subscribers = [0]`); a second observable's subscriber (handle 1) is
allocated but still mid-replay, so it is not yet in the list.  Calling
`unsubscribe` on handle 1 — absent from the list — does not leave the list
unchanged: `findIndex` returns -1 and `splice(-1, 1)` removes the OTHER
subscriber's handle, emptying the list. -/
theorem C8_counterexample :
    (run [Cmd.reduce false, Cmd.settle (Outcome.ok 1),
      Cmd.createObservable, Cmd.attach 0, Cmd.reduce false,
      Cmd.createObservable, Cmd.attach 1]).slot.subscribers = [0]
  ∧ 1 < (run [Cmd.reduce false, Cmd.settle (Outcome.ok 1),
      Cmd.createObservable, Cmd.attach 0, Cmd.reduce false,
      Cmd.createObservable, Cmd.attach 1]).nextSid
  ∧ 1 ∉ (run [Cmd.reduce false, Cmd.settle (Outcome.ok 1),
      Cmd.createObservable, Cmd.attach 0, Cmd.reduce false,
      Cmd.createObservable, Cmd.attach 1]).closed
  ∧ 1 ∉ (run [Cmd.reduce false, Cmd.settle (Outcome.ok 1),
      Cmd.createObservable, Cmd.attach 0, Cmd.reduce false,
      Cmd.createObservable, Cmd.attach 1]).slot.subscribers
  ∧ (step (run [Cmd.reduce false, Cmd.settle (Outcome.ok 1),
      Cmd.createObservable, Cmd.attach 0, Cmd.reduce false,
      Cmd.createObservable, Cmd.attach 1])
        (Cmd.unsubscribe 1)).slot.subscribers = [] := by
  decide

end RStore
